import Mathlib

/-! # bisonrelay-bot: bridge and notification engine

A shallow embedding of the Go sources (`bridge/embeds.go`, `bridge/config.go`,
`bridge/main.go`, `bridge/matrix.go`, `bot/ntfns.go`) together with the
properties stated about them.

Conventions.

* A Go `string` and a Go `[]byte` are both finite byte sequences; both are
  embedded as `List Byte` with `Byte = Fin 256`.  A `nil` slice is `none`.
* A Go run-time panic (slice bounds out of range) is the `none` of an `Option`.
* Effects (network calls, file writes, channel sends, sleeps) are recorded in
  an explicit trace; the answers of the outside world come from a script.
-/

namespace BisonRelayBot

/-! ## Bytes and strings -/

/-- One byte of a Go string. -/
abbrev Byte := Fin 256

/-- The Go `string` type: a finite sequence of bytes. -/
abbrev GoString := List Byte

/-- The byte of an ASCII character. -/
def byteOf (c : Char) : Byte := Fin.ofNat c.toNat

/-- A Go string literal (ASCII only in this development). -/
def lit (s : String) : GoString := s.toList.map byteOf

/-- Go `strings.Index(s, sep)` for a one-byte separator: the index of the first
occurrence, or `-1`. -/
def Index : GoString → Byte → Int
  | [], _ => -1
  | c :: cs, sep =>
    if c = sep then 0
    else
      let r := Index cs sep
      if r = -1 then -1 else r + 1

/-- Go `strings.LastIndex(s, sep)` for a one-byte separator: the index of the
last occurrence, or `-1`. -/
def LastIndex : GoString → Byte → Int
  | [], _ => -1
  | c :: cs, sep =>
    let r := LastIndex cs sep
    if r = -1 then (if c = sep then 0 else -1) else r + 1

/-- The Go slice expression `s[lo:hi]`; `none` is the run-time panic raised
unless `0 ≤ lo ≤ hi ≤ len(s)`. -/
def slice (s : GoString) (lo hi : Int) : Option GoString :=
  if 0 ≤ lo ∧ lo ≤ hi ∧ hi ≤ (s.length : Int) then
    some ((s.drop lo.toNat).take (hi.toNat - lo.toNat))
  else none

/-- Go `strings.Split(s, sep)` for a one-byte separator.  The result is never
empty: `Split("", ",")` is `[""]`. -/
def Split : GoString → Byte → List GoString
  | [], _ => [[]]
  | c :: cs, sep =>
    if c = sep then [] :: Split cs sep
    else
      match Split cs sep with
      | [] => [[c]]
      | p :: ps => (c :: p) :: ps

/-- Go `strings.SplitN(s, sep, 2)` for a one-byte separator: the text before
and after the first separator, or the text alone when there is none. -/
def SplitN2 : GoString → Byte → List GoString
  | [], _ => [[]]
  | c :: cs, sep =>
    if c = sep then [[], cs]
    else
      match SplitN2 cs sep with
      | [k, v] => [c :: k, v]
      | _ => [c :: cs]

/-- Go `strings.Join(parts, sep)`. -/
def Join : List GoString → GoString → GoString
  | [], _ => []
  | [p], _ => p
  | p :: q :: ps, sep => p ++ sep ++ Join (q :: ps) sep

/-- Go `strings.HasPrefix(s, p)`. -/
def HasPrefix : GoString → GoString → Bool
  | _, [] => true
  | [], _ :: _ => false
  | c :: cs, p :: ps => c == p && HasPrefix cs ps

/-- Go `strings.HasSuffix(s, p)`. -/
def HasSuffix (s p : GoString) : Bool := HasPrefix s.reverse p.reverse

/-! ## Library codecs used by the embed tag

`strconv`, `encoding/base64`, `encoding/hex` and `net/url` belong to the Go
standard library; their behaviour is embedded here from their documented
algorithms. -/

/-- The decimal digit byte of `d < 10`. -/
def digitByte (d : Nat) : Byte := Fin.ofNat (48 + d % 10)

/-- Worker of `FormatUint`: prepends the decimal digits of `n` to `acc`. -/
def formatAux : Nat → Nat → GoString → GoString
  | 0, _, acc => acc
  | fuel + 1, n, acc =>
    if n < 10 then digitByte n :: acc
    else formatAux fuel (n / 10) (digitByte (n % 10) :: acc)

/-- Go `strconv.FormatUint(n, 10)`. -/
def FormatUint (n : Nat) : GoString := formatAux (n + 1) n []

/-- The largest `uint64`. -/
def maxUint64 : Nat := 2 ^ 64 - 1

/-- The value of a decimal digit byte, if it is one. -/
def digitVal (c : Byte) : Option Nat :=
  if 48 ≤ c.val ∧ c.val ≤ 57 then some (c.val - 48) else none

/-- The digit loop of `strconv.ParseUint(s, 10, 64)`: the value and whether the
returned error is nil.  A byte that is no digit gives `(0, false)`; an overflow
gives `(maxUint64, false)`. -/
def parseLoop : Nat → GoString → Nat × Bool
  | n, [] => (n, true)
  | n, c :: cs =>
    match digitVal c with
    | none => (0, false)
    | some d =>
      if n ≥ maxUint64 / 10 + 1 then (maxUint64, false)
      else
        let n1 := n * 10 + d
        if n1 > maxUint64 then (maxUint64, false) else parseLoop n1 cs

/-- Go `strconv.ParseUint(s, 10, 64)`: the returned value and whether the error
is nil. -/
def ParseUint (s : GoString) : Nat × Bool :=
  if s = [] then (0, false) else parseLoop 0 s

/-- The alphabet of `base64.StdEncoding`. -/
def b64Alphabet : GoString :=
  lit "ABCDEFGHIJKLMNOPQRSTUVWXYZabcdefghijklmnopqrstuvwxyz0123456789+/"

/-- The character that encodes the 6-bit value `i`. -/
def b64Char (i : Nat) : Byte := b64Alphabet.getD (i % 64) 0

/-- The 6-bit value of an alphabet character. -/
def b64Val (c : Byte) : Option Nat :=
  let i := b64Alphabet.indexOf c
  if i < 64 then some i else none

/-- The pad character `=`. -/
def padByte : Byte := byteOf '='

/-- Go `base64.StdEncoding.EncodeToString`. -/
def b64Encode : List Byte → GoString
  | [] => []
  | [a] =>
    let v := a.val * 65536
    [b64Char (v / 262144), b64Char (v / 4096), padByte, padByte]
  | [a, b] =>
    let v := a.val * 65536 + b.val * 256
    [b64Char (v / 262144), b64Char (v / 4096), b64Char (v / 64), padByte]
  | a :: b :: c :: rest =>
    let v := a.val * 65536 + b.val * 256 + c.val
    b64Char (v / 262144) :: b64Char (v / 4096) :: b64Char (v / 64) :: b64Char v
      :: b64Encode rest

/-- The quantum decoder of `base64.StdEncoding` on input without line breaks:
four alphabet characters give three bytes; the last quantum may end in one or
two pad characters; anything else is corrupt input (`none`). -/
def b64DecodeQuanta : GoString → Option (List Byte)
  | [] => some []
  | a :: b :: c :: d :: rest =>
    match b64Val a, b64Val b with
    | some x, some y =>
      match b64Val c with
      | some z =>
        match b64Val d with
        | some w =>
          let v := x * 262144 + y * 4096 + z * 64 + w
          (b64DecodeQuanta rest).map fun t =>
            Fin.ofNat (v / 65536) :: Fin.ofNat (v / 256) :: Fin.ofNat v :: t
        | none =>
          let v := x * 262144 + y * 4096 + z * 64
          if d = padByte ∧ rest = [] then
            some [Fin.ofNat (v / 65536), Fin.ofNat (v / 256)]
          else none
      | none =>
        let v := x * 262144 + y * 4096
        if c = padByte ∧ d = padByte ∧ rest = [] then some [Fin.ofNat (v / 65536)]
        else none
    | _, _ => none
  | _ => none

/-- Go `base64.StdEncoding.DecodeString`: carriage returns and line feeds are
ignored, the rest is decoded quantum by quantum; `none` is a non-nil error. -/
def b64Decode (s : GoString) : Option (List Byte) :=
  b64DecodeQuanta (s.filter fun c => c ≠ byteOf '\n' ∧ c ≠ byteOf '\r')

/-- The lower-case hexadecimal digit of `d < 16`. -/
def hexChar (d : Nat) : Byte := (lit "0123456789abcdef").getD (d % 16) 0

/-- The value of a hexadecimal digit (either case), if it is one. -/
def unhex (c : Byte) : Option Nat :=
  if 48 ≤ c.val ∧ c.val ≤ 57 then some (c.val - 48)
  else if 97 ≤ c.val ∧ c.val ≤ 102 then some (c.val - 97 + 10)
  else if 65 ≤ c.val ∧ c.val ≤ 70 then some (c.val - 65 + 10)
  else none

/-- Go `hex.EncodeToString`. -/
def hexEncode : List Byte → GoString
  | [] => []
  | b :: bs => hexChar (b.val / 16) :: hexChar (b.val % 16) :: hexEncode bs

/-- Go `hex.DecodeString`; `none` is a non-nil error (odd length or a byte that
is no hexadecimal digit). -/
def hexDecode : GoString → Option (List Byte)
  | [] => some []
  | h :: l :: rest =>
    match unhex h, unhex l with
    | some x, some y => (hexDecode rest).map fun t => Fin.ofNat (x * 16 + y) :: t
    | _, _ => none
  | _ => none

/-- Go `url.PathUnescape`: every `%XX` becomes the byte it names; a `%` not
followed by two hexadecimal digits is an error (`none`). -/
def PathUnescape : GoString → Option GoString
  | [] => some []
  | c :: cs =>
    if c = byteOf '%' then
      match cs with
      | h :: l :: rest =>
        match unhex h, unhex l with
        | some x, some y => (PathUnescape rest).map fun t => Fin.ofNat (x * 16 + y) :: t
        | _, _ => none
      | _ => none
    else (PathUnescape cs).map fun t => c :: t

/-- The texts of the library errors that the program prints into its
placeholders (`err.Error()` of the error returned for the given input). -/
structure ErrorText where
  /-- Text of the error of `base64.StdEncoding.DecodeString` on this input. -/
  base64 : GoString → GoString
  /-- Text of the error of `url.PathUnescape` on this input. -/
  escape : GoString → GoString

/-- The `zkidentity.ShortID` type: an array of 32 bytes. -/
abbrev ShortID := { l : List Byte // l.length = 32 }

/-- The zero value of `ShortID`. -/
def ShortID.zero : ShortID := ⟨List.replicate 32 0, by simp⟩

/-- Method `ShortID.IsEmpty`: the identifier is all zero. -/
def ShortID.IsEmpty (u : ShortID) : Bool := decide (u = ShortID.zero)

/-- Method `ShortID.String`: the hexadecimal encoding. -/
def ShortID.String (u : ShortID) : GoString := hexEncode u.val

/-- Method `ShortID.FromString`: decodes 64 hexadecimal digits into the
receiver; on an error the receiver is left as it was. -/
def ShortID.FromString (u : ShortID) (s : GoString) : ShortID :=
  match hexDecode s with
  | some h => if hl : h.length = 32 then ⟨h, hl⟩ else u
  | none => u


/-! ## `bridge/embeds.go` -/

/-- The Go struct `embeddedArgs`.  `data` is a `[]byte`, `none` being `nil`;
`size` and `cost` are `uint64`. -/
structure embeddedArgs where
  name : GoString := []
  data : Option (List Byte) := none
  alt : GoString := []
  typ : GoString := []
  download : ShortID := ShortID.zero
  filename : GoString := []
  size : Nat := 0
  cost : Nat := 0
  deriving DecidableEq

/-- Method `embeddedArgs.String`. -/
def embeddedArgs.String (args : embeddedArgs) : GoString :=
  let parts : List GoString := []
  let parts := if args.name ≠ [] then parts ++ [lit "part=" ++ args.name] else parts
  let parts := if args.alt ≠ [] then parts ++ [lit "alt=" ++ args.alt] else parts
  let parts := if args.typ ≠ [] then parts ++ [lit "type=" ++ args.typ] else parts
  let parts :=
    if !args.download.IsEmpty then parts ++ [lit "download=" ++ args.download.String]
    else parts
  let parts :=
    if args.filename ≠ [] then parts ++ [lit "filename=" ++ args.filename] else parts
  let parts := if args.size > 0 then parts ++ [lit "size=" ++ FormatUint args.size] else parts
  let parts := if args.cost > 0 then parts ++ [lit "cost=" ++ FormatUint args.cost] else parts
  let parts :=
    match args.data with
    | some d => parts ++ [lit "data=" ++ b64Encode d]
    | none => parts
  lit "--embed[" ++ Join parts (lit ",") ++ lit "]--"

/-- The line feed, the one byte that `.` of a Go regular expression refuses. -/
def newline : Byte := byteOf '\n'

/-- The lazy `.*?` followed by the literal `close`: the number of bytes that
`.*?` takes, which is the least `k` with `close` at offset `k` and no line
feed before it.  (Go matches runes; a byte-wise reading is exact here because
the literals are ASCII and a line feed is never part of a longer rune.) -/
def lazyUntil (close : GoString) : GoString → Option Nat
  | [] => if HasPrefix [] close then some 0 else none
  | c :: cs =>
    if HasPrefix (c :: cs) close then some 0
    else if c = newline then none
    else (lazyUntil close cs).map fun k => k + 1

/-- The pattern `embedRegexp`, that is `--embed\[.*?\]--`, tried at the start
of `s`: the length of the match if there is one. -/
def embedRegexp (s : GoString) : Option Nat :=
  if HasPrefix s (lit "--embed[") then
    (lazyUntil (lit "]--") (s.drop 8)).map fun k => 8 + k + 3
  else none

/-- One step of the loop body of `parseEmbedArgs`: the effect of the argument
`a` on the descriptor. -/
def parseArg (et : ErrorText) (args : embeddedArgs) (a : GoString) : embeddedArgs :=
  match SplitN2 a (byteOf '=') with
  | [k, v] =>
    if k = lit "name" then { args with name := v }
    else if k = lit "type" then { args with typ := v }
    else if k = lit "data" then
      match b64Decode v with
      | some decoded => { args with data := some decoded }
      | none =>
        { args with data := some (lit "[err decoding data: " ++ et.base64 v ++ lit "]") }
    else if k = lit "alt" then
      match PathUnescape v with
      | some decoded => { args with alt := decoded }
      | none => { args with alt := lit "[err processing alt: " ++ et.escape v ++ lit "]" }
    else if k = lit "download" then { args with download := args.download.FromString v }
    else if k = lit "filename" then { args with filename := v }
    else if k = lit "size" then { args with size := (ParseUint v).1 }
    else if k = lit "cost" then { args with cost := (ParseUint v).1 }
    else args
  | _ => args

/-- Function `parseEmbedArgs`.  `none` is the panic of the slice expression
`rawEmbedStr[start+1 : end]`. -/
def parseEmbedArgs (et : ErrorText) (rawEmbedStr : GoString) : Option embeddedArgs :=
  let start := Index rawEmbedStr (byteOf '[')
  let end_ := LastIndex rawEmbedStr (byteOf ']')
  match slice rawEmbedStr (start + 1) end_ with
  | none => none
  | some rawArgs =>
    let splitArgs := Split rawArgs (byteOf ',')
    some (splitArgs.foldl (parseArg et) {})

/-- Go `Regexp.ReplaceAllStringFunc` for a pattern `re` that matches no empty
string: the matches are found from left to right without overlap and each is
replaced by the result of `repl`.  The callback may have effects, so it takes
and returns a state; it may panic (`none`).  `skip` counts the bytes of the
last match that are still to be passed over. -/
def ReplaceAllStringFunc {σ : Type} (re : GoString → Option Nat)
    (repl : GoString → σ → Option (GoString × σ)) :
    GoString → Nat → σ → Option (GoString × σ)
  | [], _, st => some ([], st)
  | _ :: cs, skip + 1, st => ReplaceAllStringFunc re repl cs skip st
  | c :: cs, 0, st =>
    match re (c :: cs) with
    | some n =>
      match repl ((c :: cs).take n) st with
      | none => none
      | some (r, st1) =>
        match ReplaceAllStringFunc re repl cs (n - 1) st1 with
        | none => none
        | some (out, st2) => some (r ++ out, st2)
    | none =>
      match ReplaceAllStringFunc re repl cs 0 st with
      | none => none
      | some (out, st1) => some (c :: out, st1)

/-- Function `replaceEmbeds`: every embed tag of `src` is replaced by the
result of `replF` on its decoded arguments. -/
def replaceEmbeds {σ : Type} (et : ErrorText) (src : GoString)
    (replF : embeddedArgs → σ → GoString × σ) (st : σ) : Option (GoString × σ) :=
  ReplaceAllStringFunc embedRegexp
    (fun repl st =>
      match parseEmbedArgs et repl with
      | none => none
      | some args => some (replF args st))
    src 0 st

/-- A fixed choice of error texts, for evaluating examples. -/
def sampleErrorText : ErrorText :=
  ⟨fun _ => lit "illegal base64 data", fun _ => lit "invalid URL escape"⟩


/-! ## `bridge/config.go` -/

/-- A Go `map[string]string`, as an association list without repeated keys. -/
abbrev GoMap := List (GoString × GoString)

/-- The map read `m[k]` in its two-result form: the value, if `k` is a key. -/
def GoMap.get (m : GoMap) (k : GoString) : Option GoString :=
  match m with
  | [] => none
  | (k1, v) :: rest => if k1 = k then some v else GoMap.get rest k

/-- The map write `m[k] = v`. -/
def GoMap.set (m : GoMap) (k v : GoString) : GoMap :=
  (k, v) :: m.filter fun kv => kv.1 ≠ k

/-- The map read `m[k]` in its one-result form: the empty string for a missing
key. -/
def GoMap.getD (m : GoMap) (k : GoString) : GoString := (m.get k).getD []

/-- The Go struct `config`.  `Bridges` has type `[][2]string`: every entry is a
pair, by its type. -/
structure config where
  DataDir : GoString := []
  URL : GoString := []
  ServerCertPath : GoString := []
  ClientCertPath : GoString := []
  ClientKeyPath : GoString := []
  MatrixUser : GoString := []
  MatrixPass : GoString := []
  MatrixToken : GoString := []
  MatrixProxy : GoString := []
  Bridges : List (GoString × GoString) := []
  bridges : GoMap := []
  deriving DecidableEq

/-- What `loadConfig` takes from its surroundings: the result of reading the
configuration file (the error text, or the content), the strict YAML decoder,
the path helper `cleanAndExpandPath` and the default home directory. -/
structure ConfigEnv where
  readFile : Except GoString GoString
  unmarshalStrict : GoString → config → Except GoString config
  cleanAndExpandPath : GoString → GoString
  defaultHomeDir : GoString

/-- The bridge loop of `loadConfig` (lines 89 to 104): the two rooms of every
pair are looked up in the map built so far, then both directions are stored.
The test `len(bridge) != 2` is always false for a `[2]string`. -/
def buildBridges : List (GoString × GoString) → GoMap → Except GoString GoMap
  | [], bridges => .ok bridges
  | (a, b) :: rest, bridges =>
    if (bridges.get a).isSome then
      .error (lit "loadConfig: room " ++ a ++ lit " is already bridged elsewhere")
    else if (bridges.get b).isSome then
      .error (lit "loadConfig: room " ++ b ++ lit " is already bridged elsewhere")
    else buildBridges rest ((bridges.set a b).set b a)

/-- The checks of `loadConfig` after the file is decoded (lines 53 to 106). -/
def validateConfig (env : ConfigEnv) (cfg : config) : Except GoString config :=
  let cfg := { cfg with
    DataDir := env.cleanAndExpandPath cfg.DataDir
    ServerCertPath := env.cleanAndExpandPath cfg.ServerCertPath
    ClientCertPath := env.cleanAndExpandPath cfg.ClientCertPath
    ClientKeyPath := env.cleanAndExpandPath cfg.ClientKeyPath }
  let cfg := if cfg.DataDir = [] then { cfg with DataDir := env.defaultHomeDir } else cfg
  if cfg.MatrixPass = [] then .error (lit "loadConfig: matrix password is required")
  else if cfg.MatrixUser = [] then .error (lit "loadConfig: matrix user is required")
  else if !HasSuffix cfg.MatrixUser (lit ":decred.org")
      || cfg.MatrixUser.head? ≠ some (byteOf '@') then
    .error (lit "loadConfig: matrix username invalid: must be in the form @username:decred.org")
  else if cfg.MatrixToken = [] then .error (lit "loadConfig: matrix token is required")
  else if cfg.Bridges.length = 0 then .error (lit "loadConfig: no bridges defined")
  else
    match buildBridges cfg.Bridges [] with
    | .error e => .error e
    | .ok bridges => .ok { cfg with bridges := bridges }

/-- Function `loadConfig`. -/
def loadConfig (env : ConfigEnv) : Except GoString config :=
  match env.readFile with
  | .error e => .error (lit "loadConfig: " ++ e)
  | .ok configFile =>
    match env.unmarshalStrict configFile { DataDir := env.defaultHomeDir } with
    | .error e => .error (lit "loadConfig: failed to parse config file: " ++ e)
    | .ok cfg => validateConfig env cfg

/-- A surrounding in which the configuration file decodes to `cfg`. -/
def ConfigEnv.ofConfig (cfg : config) : ConfigEnv :=
  ⟨.ok [], fun _ _ => .ok cfg, id, lit "/home/brbot"⟩

/-- Whether a result of `loadConfig` is an error. -/
def isError {ε α : Type} : Except ε α → Bool
  | .error _ => true
  | .ok _ => false

/-! ## `bridge/matrix.go`: the client and its outside world -/

/-- The `info` object of an image message (`w`, `h`, `size`, `mimetype`). -/
structure ImageInfo where
  w : Int
  h : Int
  size : Int
  mimetype : GoString
  deriving DecidableEq

/-- The Go struct `MsgRoomMsg`; `Info` is absent for a text message. -/
structure MsgRoomMsg where
  Body : GoString
  MsgType : GoString
  URL : GoString := []
  Info : Option ImageInfo := none
  deriving DecidableEq

/-- The body handed to an HTTP request. -/
inductive ReqBody where
  | empty
  | bytes (data : List Byte)
  | roomMsg (msg : MsgRoomMsg)
  | readReceipt (eventID : GoString)
  deriving DecidableEq

/-- An HTTP request as `hc.Do` sees it (headers left out). -/
structure Request where
  method : GoString
  url : GoString
  body : ReqBody
  deriving DecidableEq

/-- The Go struct `mtrxMsg`. -/
structure mtrxMsg where
  Network : Nat
  Nick : GoString
  Msg : GoString
  Room : GoString
  deriving DecidableEq

/-- The constant `networkMatrix`. -/
def networkMatrix : Nat := 2

/-- The effects the bridge has on its surroundings, in the order they happen. -/
inductive Effect where
  /-- A call of `hc.Do`. -/
  | http (req : Request)
  /-- A send on the output channel `recvChan`. -/
  | chanSend (msg : mtrxMsg)
  /-- A call of `os.WriteFile`. -/
  | writeFile (path content : GoString)
  /-- A call of `time.Sleep`, in seconds. -/
  | sleep (seconds : Nat)
  deriving DecidableEq

/-- The answer to one call of `hc.Do`: a transport error, or a response with
its status code and its body (`none` when reading the body fails). -/
inductive HttpResult where
  | err
  | resp (status : Nat) (body : Option GoString)
  deriving DecidableEq

/-- The outside world: the scripted answers to the coming calls, each list in
the order of the calls, and the effects recorded so far.  A script that has run
out answers with a transport error, a failed random read, a live
context and a successful write. -/
structure World where
  /-- Answers to `hc.Do`. -/
  http : List HttpResult := []
  /-- Answers to `crypto/rand.Read`, as the URL-safe base64 text the program
  makes of the bytes; `none` is an error. -/
  rand : List (Option GoString) := []
  /-- Answers to `ctx.Err()`: whether the context is done. -/
  ctxDone : List Bool := []
  /-- Answers to `os.WriteFile`: whether the write succeeds. -/
  writeOk : List Bool := []
  trace : List Effect := []
  deriving DecidableEq

/-- One call of `hc.Do`. -/
def World.doHttp (w : World) (req : Request) : HttpResult × World :=
  (w.http.headD .err, { w with http := w.http.tail, trace := w.trace ++ [.http req] })

/-- One call of `rand.Read` followed by `base64.URLEncoding.EncodeToString`. -/
def World.randRead (w : World) : Option GoString × World :=
  (w.rand.headD none, { w with rand := w.rand.tail })

/-- One evaluation of `ctx.Err() != nil`. -/
def World.ctxErr (w : World) : Bool × World :=
  (w.ctxDone.headD false, { w with ctxDone := w.ctxDone.tail })

/-- One call of `os.WriteFile`; the result is whether it succeeds. -/
def World.doWrite (w : World) (path content : GoString) : Bool × World :=
  (w.writeOk.headD true,
    { w with writeOk := w.writeOk.tail, trace := w.trace ++ [.writeFile path content] })

/-- A send on the output channel. -/
def World.send (w : World) (msg : mtrxMsg) : World :=
  { w with trace := w.trace ++ [.chanSend msg] }

/-- A call of `time.Sleep`. -/
def World.doSleep (w : World) (seconds : Nat) : World :=
  { w with trace := w.trace ++ [.sleep seconds] }

/-- The Go struct `ContentInfo`. -/
structure ContentInfo where
  Size : Int := 0
  MimeType : GoString := []
  W : Int := 0
  H : Int := 0
  deriving DecidableEq

/-- The Go struct `Content`; `Info` is a pointer, `none` being `nil`. -/
structure Content where
  Body : GoString := []
  MsgType : GoString := []
  Membership : GoString := []
  DisplayName : GoString := []
  MimeType : GoString := []
  URL : GoString := []
  Info : Option ContentInfo := none
  deriving DecidableEq

/-- The Go struct `MsgClientEventWithoutRoomID` (`Unsigned` is its age). -/
structure MsgClientEventWithoutRoomID where
  Content : Content := {}
  EventID : GoString := []
  OriginServerTS : Int := 0
  Sender : GoString := []
  Type_ : GoString := []
  Unsigned : Int := 0
  deriving DecidableEq

/-- The Go struct `MsgTimeline`. -/
structure MsgTimeline where
  Events : List MsgClientEventWithoutRoomID := []
  Limited : Bool := false
  PrevBatch : GoString := []
  deriving DecidableEq

/-- The Go struct `MsgJoinedRoom`. -/
structure MsgJoinedRoom where
  Timeline : MsgTimeline := {}
  deriving DecidableEq

/-- The Go struct `MsgSyncReply`.  `Rooms` is a `map[string]json.RawMessage`,
listed in the order in which the `range` statement visits it. -/
structure MsgSyncReply where
  NextBatch : GoString := []
  Rooms : List (GoString × GoString) := []
  deriving DecidableEq

/-- What the bridge takes from libraries and from the part of the package that
is not at hand: the error texts, the helper `escapeNick`, `strings.TrimSpace`,
whether `http.NewRequestWithContext` accepts a URL, the image decoders (the
width and height of the bounds of the decoded image), the JSON decoders and
the JSON encoder of a string, and the template expansion of
`Regexp.ReplaceAllString`. -/
structure Env where
  et : ErrorText
  escapeNick : GoString → GoString
  TrimSpace : GoString → GoString
  validURL : GoString → Bool
  pngDecode : List Byte → Option (Int × Int)
  jpegDecode : List Byte → Option (Int × Int)
  gifDecode : List Byte → Option (Int × Int)
  unmarshalUpload : GoString → Option GoString
  unmarshalSync : GoString → Option MsgSyncReply
  unmarshalJoined : GoString → Option (List (GoString × MsgJoinedRoom))
  unmarshalDisplayName : GoString → Option GoString
  unmarshalString : GoString → Option GoString
  marshalString : GoString → GoString
  expand : GoString → GoString → GoString

/-- The Go struct `MatrixClientConfig` (the logger left out). -/
structure MatrixClientConfig where
  DataDir : GoString := []
  User : GoString := []
  Password : GoString := []
  Token : GoString := []
  Proxy : GoString := []
  deriving DecidableEq

/-- The Go struct `MatrixClient` (the HTTP client is the `World`). -/
structure MatrixClient where
  cfg : MatrixClientConfig := {}
  sincePath : GoString := []
  displayNames : GoMap := []
  deriving DecidableEq

/-- The URL of a room send with transaction id `txID`. -/
def roomSendURL (room txID : GoString) : GoString :=
  lit "https://matrix.decred.org:8448/_matrix/client/r0/rooms/" ++ room
    ++ lit "/send/m.room.message/" ++ txID

/-- Method `MatrixClient.SendMessage`.  The result is whether the returned
error is non-nil; `none` is the panic after a failed read of the response. -/
def MatrixClient.SendMessage (env : Env) (room msg : GoString) (w : World) :
    Option (Bool × World) :=
  match w.randRead with
  | (none, w) => some (true, w)
  | (some txID, w) =>
    let apiURL := roomSendURL room txID
    let roomMsg : MsgRoomMsg := { MsgType := lit "m.text", Body := msg }
    if !env.validURL apiURL then some (true, w)
    else
      match w.doHttp ⟨lit "PUT", apiURL, .roomMsg roomMsg⟩ with
      | (.err, w) => some (true, w)
      | (.resp _ none, _) => none
      | (.resp status (some _), w) => if status ≠ 200 then some (true, w) else some (false, w)

/-- Function `randomString`; `none` is its panic on a failed random read. -/
def randomString (w : World) : Option (GoString × World) :=
  match w.randRead with
  | (none, _) => none
  | (some r, w) => some (r, w)

/-- The first part of `SendEmbed` (lines 211 to 235): the file extension and
the image bounds for the MIME type, or `none` for the returned error. -/
def decodeByType (env : Env) (mimeType : GoString) (data : List Byte) :
    Option (GoString × Int × Int) :=
  if mimeType = lit "image/png" then (env.pngDecode data).map fun b => (lit ".png", b)
  else if mimeType = lit "image/jpeg" then (env.jpegDecode data).map fun b => (lit ".jpg", b)
  else if mimeType = lit "image/gif" then (env.gifDecode data).map fun b => (lit ".gif", b)
  else none

/-- The upload URL for a file name. -/
def uploadURL (fname : GoString) : GoString :=
  lit "https://matrix.decred.org:8448/_matrix/media/r0/upload?filename=" ++ fname

/-- The second part of `SendEmbed` (lines 244 to 322): the upload followed by
the image event. -/
def sendEmbedUpload (env : Env) (room : GoString) (data : List Byte) (mimeType fname : GoString)
    (imgW imgH : Int) (w : World) : Bool × World :=
  if !env.validURL (uploadURL fname) then (true, w)
  else
    match w.doHttp ⟨lit "POST", uploadURL fname, .bytes data⟩ with
    | (.err, w) => (true, w)
    | (.resp _ none, w) => (true, w)
    | (.resp status (some b), w) =>
      if status ≠ 200 then (true, w)
      else
        match env.unmarshalUpload b with
        | none => (true, w)
        | some contentURI =>
          if contentURI = [] then (true, w)
          else
            match w.randRead with
            | (none, w) => (true, w)
            | (some txID, w) =>
              let apiURL := roomSendURL room txID
              let roomMsg : MsgRoomMsg :=
                { MsgType := lit "m.image", Body := fname, URL := contentURI,
                  Info := some ⟨imgW, imgH, data.length, mimeType⟩ }
              if !env.validURL apiURL then (true, w)
              else
                match w.doHttp ⟨lit "PUT", apiURL, .roomMsg roomMsg⟩ with
                | (.err, w) => (true, w)
                | (.resp _ none, w) => (true, w)
                | (.resp status (some _), w) => if status ≠ 200 then (true, w) else (false, w)

/-- Method `MatrixClient.SendEmbed`.  The result is whether the returned error
is non-nil; `none` is the panic of `randomString`. -/
def MatrixClient.SendEmbed (env : Env) (room : GoString) (embed : embeddedArgs) (w : World) :
    Option (Bool × World) :=
  let mimeType := embed.typ
  let data := embed.data.getD []
  match decodeByType env mimeType data with
  | none => some (true, w)
  | some (ext, imgW, imgH) =>
    let fname := env.TrimSpace (env.escapeNick embed.filename)
    if fname = [] then
      match randomString w with
      | none => none
      | some (r, w) =>
        some (sendEmbedUpload env room data mimeType (lit "image_" ++ r ++ ext) imgW imgH w)
    else some (sendEmbedUpload env room data mimeType fname imgW imgH w)

/-! ## `bridge/main.go`: the relay handlers -/

/-- The Go struct `types.GCReceivedMsg`, with the fields the program reads.
`Msg` is a pointer to a message whose text is kept; `none` is `nil`. -/
structure GCReceivedMsg where
  Nick : GoString := []
  GcAlias : GoString := []
  Msg : Option GoString := none
  SequenceId : Nat := 0
  deriving DecidableEq

/-- The closure `findRoom`. -/
def findRoom (cfg : config) (fromRoom : GoString) : GoString := cfg.bridges.getD fromRoom

/-- The body of the source-to-target handler for one message `pm` taken from
`gcChan` (lines 103 to 131).  `none` is a panic. -/
def handleGC (env : Env) (cfg : config) (pm : GCReceivedMsg) (w : World) : Option World :=
  let nick := env.escapeNick pm.Nick
  match pm.Msg with
  | none => some w
  | some origMsg =>
    let room := findRoom cfg pm.GcAlias
    if room = [] then some w
    else
      let sent := replaceEmbeds env.et origMsg
        (fun embed (st : Option World) =>
          match st with
          | none => ([], none)
          | some w =>
            match MatrixClient.SendEmbed env room embed w with
            | none => ([], none)
            | some (_, w) => ([], some w))
        (some w)
      match sent with
      | none => none
      | some (_, none) => none
      | some (msg, some w) =>
        if msg ≠ [] then
          (MatrixClient.SendMessage env room (lit "[br] <" ++ nick ++ lit "> " ++ origMsg) w).map
            fun r => r.2
        else
          (MatrixClient.SendMessage env room (lit "[br] <" ++ nick ++ lit ">") w).map fun r => r.2

/-! ## `bridge/matrix.go`: the sync loop -/

/-- Method `MatrixClient.SendReadReceipt`: one request, unless it cannot be
built; what follows the request only writes to the log. -/
def MatrixClient.SendReadReceipt (env : Env) (room eventID : GoString) (w : World) : World :=
  let apiURL := lit "https://matrix.decred.org:8448/_matrix/client/r0/rooms/" ++ room
    ++ lit "/read_markers"
  if !env.validURL apiURL then w
  else (w.doHttp ⟨lit "POST", apiURL, .readReceipt eventID⟩).2

/-- Method `MatrixClient.getDisplayName`: the name and whether the error is
non-nil, with the client (its cache may grow) and the world. -/
def MatrixClient.getDisplayName (env : Env) (m : MatrixClient) (nick : GoString) (w : World) :
    (GoString × Bool) × MatrixClient × World :=
  match m.displayNames.get nick with
  | some name => ((name, false), m, w)
  | none =>
    let apiURL := lit "https://matrix.decred.org:8448/_matrix/client/v3/profile/" ++ nick
      ++ lit "/displayname"
    if !env.validURL apiURL then (([], true), m, w)
    else
      match w.doHttp ⟨lit "GET", apiURL, .empty⟩ with
      | (.err, w) => (([], true), m, w)
      | (.resp _ none, w) => (([], true), m, w)
      | (.resp status (some b), w) =>
        if status ≠ 200 then (([], true), m, w)
        else
          match env.unmarshalDisplayName b with
          | none => (([], true), m, w)
          | some d => ((d, false), { m with displayNames := m.displayNames.set nick d }, w)

/-- Method `MatrixClient.encodeEmbeds`: the message for the BR network and
whether the error is non-nil. -/
def MatrixClient.encodeEmbeds (env : Env) (event : MsgClientEventWithoutRoomID) (w : World) :
    (GoString × Bool) × World :=
  if event.Content.MsgType = lit "m.image" then
    let urlPrefix := lit "mxc://decred.org/"
    if !HasPrefix event.Content.URL urlPrefix then (([], true), w)
    else
      let imgID := event.Content.URL.drop urlPrefix.length
      let downloadURL :=
        lit "https://matrix.decred.org:8448/_matrix/media/r0/download/decred.org/" ++ imgID
      if !env.validURL downloadURL then (([], true), w)
      else
        match w.doHttp ⟨lit "GET", downloadURL, .empty⟩ with
        | (.err, w) => (([], true), w)
        | (.resp _ none, w) => (([], true), w)
        | (.resp status (some rawData), w) =>
          if status ≠ 200 then (([], true), w)
          else if rawData.length > 1024 * 1024 then (([], true), w)
          else
            let mimeType :=
              match event.Content.Info with
              | some info => info.MimeType
              | none => []
            let args : embeddedArgs :=
              { filename := event.Content.Body, typ := mimeType, data := some rawData }
            ((args.String, false), w)
  else ((event.Content.Body, false), w)

/-- The pattern of `Sync`, that is `^\> \<@.*?\>`, tried on `s`: the length
of the match if there is one (the pattern is anchored at the start). -/
def replyRegexp (s : GoString) : Option Nat :=
  if HasPrefix s (lit "> <@") then (lazyUntil (lit ">") (s.drop 4)).map fun k => 4 + k + 1
  else none

/-- The rewriting of a quoted reply (lines 665 to 675): the new body, or `none`
for a panic of the slice expression. -/
def rewriteReply (env : Env) (m : MatrixClient) (body : GoString) (w : World) :
    Option (GoString × MatrixClient × World) :=
  let repl := match replyRegexp body with
    | some n => body.take n
    | none => []
  if repl ≠ [] then
    match slice repl 3 ((repl.length : Int) - 1) with
    | none => none
    | some rawArgs =>
      let ((user, _), m, w) := MatrixClient.getDisplayName env m rawArgs w
      if user ≠ [] ∧ user ≠ rawArgs then
        some (env.expand (lit "> <" ++ user ++ lit ">") repl ++ body.drop repl.length, m, w)
      else some (body, m, w)
  else some (body, m, w)

/-- The body of the loop over the events of a room (lines 657 to 690), after
the update of the best event. -/
def processEvent (env : Env) (channel : GoString) (event : MsgClientEventWithoutRoomID)
    (m : MatrixClient) (w : World) : Option (MatrixClient × World) :=
  if event.Type_ = lit "m.room.message" ∧ event.Sender ≠ m.cfg.User then
    let ((name, _), m, w) := MatrixClient.getDisplayName env m event.Sender w
    let name := if name = [] then event.Sender else name
    match rewriteReply env m event.Content.Body w with
    | none => none
    | some (body, m, w) =>
      let event := { event with Content := { event.Content with Body := body } }
      match MatrixClient.encodeEmbeds env event w with
      | ((_, true), w) => some (m, w)
      | ((outMsg, false), w) => some (m, w.send ⟨networkMatrix, name, outMsg, channel⟩)
  else if event.Type_ = lit "m.room.member" ∧ event.Sender ≠ m.cfg.User
      ∧ event.Content.Membership = lit "join" then
    some ({ m with displayNames := m.displayNames.set event.Sender event.Content.DisplayName }, w)
  else some (m, w)

/-- The loop over the timeline of a room (lines 651 to 693), with the running
`bestTS` and `bestEvent`. -/
def processEvents (env : Env) (channel : GoString) :
    List MsgClientEventWithoutRoomID → Int → GoString → MatrixClient → World →
    Option (GoString × MatrixClient × World)
  | [], _, bestEvent, m, w => some (bestEvent, m, w)
  | event :: rest, bestTS, bestEvent, m, w =>
    let best := if event.OriginServerTS > bestTS then (event.OriginServerTS, event.EventID)
      else (bestTS, bestEvent)
    match processEvent env channel event m w with
    | none => none
    | some (m, w) => processEvents env channel rest best.1 best.2 m w

/-- The loop over the joined rooms (lines 648 to 697). -/
def processRooms (env : Env) :
    List (GoString × MsgJoinedRoom) → MatrixClient → World → Option (MatrixClient × World)
  | [], m, w => some (m, w)
  | (channel, v) :: rest, m, w =>
    match processEvents env channel v.Timeline.Events 0 [] m w with
    | none => none
    | some (bestEvent, m, w) =>
      let w := if bestEvent ≠ [] then MatrixClient.SendReadReceipt env channel bestEvent w else w
      processRooms env rest m w

/-- How one turn of the loop of `Sync` ends. -/
inductive IterResult where
  /-- The loop goes on (`continue`, or the end of the body). -/
  | next
  /-- With `return err`. -/
  | ret
  /-- With a panic. -/
  | panicked
  deriving DecidableEq

/-- The loop over `reply.Rooms` (lines 639 to 699). -/
def processReply (env : Env) :
    List (GoString × GoString) → MatrixClient → World → IterResult × MatrixClient × World
  | [], m, w => (.next, m, w)
  | (key, v) :: rest, m, w =>
    if key = lit "join" then
      match env.unmarshalJoined v with
      | none => (.ret, m, w)
      | some s =>
        match processRooms env s m w with
        | none => (.panicked, m, w)
        | some (m, w) => processReply env rest m w
    else processReply env rest m w

/-- The URL of the sync request for the cursor `since` (lines 604 to 607). -/
def syncURL (since : GoString) : GoString :=
  let apiURL := lit "https://matrix.decred.org:8448/_matrix/client/v3/sync"
  if since ≠ [] then apiURL ++ (lit "?timeout=30000&since=" ++ since) else apiURL

/-- The state of the loop of `Sync`: the client, the cursor `since`, the world. -/
structure SyncState where
  m : MatrixClient
  since : GoString
  w : World
  deriving DecidableEq

/-- One turn of the loop of `Sync` (lines 600 to 708). -/
def syncIteration (env : Env) (st : SyncState) : IterResult × SyncState :=
  match st.w.ctxErr with
  | (true, w) => (.ret, { st with w := w })
  | (false, w) =>
    let apiURL := syncURL st.since
    if !env.validURL apiURL then (.next, { st with w := w.doSleep 2 })
    else
      match w.doHttp ⟨lit "GET", apiURL, .empty⟩ with
      | (.err, w) => (.next, { st with w := w.doSleep 2 })
      | (.resp _ none, w) => (.ret, { st with w := w })
      | (.resp status (some b), w) =>
        if status ≠ 200 then (.next, { st with w := w.doSleep 5 })
        else
          match env.unmarshalSync b with
          | none => (.ret, { st with w := w })
          | some reply =>
            match processReply env reply.Rooms st.m w with
            | (.next, m, w) =>
              let nb := env.marshalString reply.NextBatch
              match w.doWrite m.sincePath nb with
              | (false, w) => (.panicked, ⟨m, st.since, w⟩)
              | (true, w) => (.next, ⟨m, reply.NextBatch, w⟩)
            | (r, m, w) => (r, ⟨m, st.since, w⟩)

/-- The result of `os.ReadFile` on the cursor file. -/
inductive ReadResult where
  | ok (b : GoString)
  | notExist
  | failed
  deriving DecidableEq

/-- The start of `Sync` (lines 586 to 596): the cursor loaded from the file, or
`none` when `Sync` returns an error at once. -/
def loadSince (env : Env) : ReadResult → Option GoString
  | .failed => none
  | .notExist => some []
  | .ok b => env.unmarshalString b

/-- The loop of `Sync`, for at most `fuel` turns: how it ended (`none` while it
is still running) and the last state. -/
def syncLoop (env : Env) : Nat → SyncState → Option IterResult × SyncState
  | 0, st => (none, st)
  | fuel + 1, st =>
    match syncIteration env st with
    | (.next, st) => syncLoop env fuel st
    | (r, st) => (some r, st)

/-- Method `MatrixClient.Sync`, run for at most `fuel` turns of its loop. -/
def MatrixClient.Sync (env : Env) (m : MatrixClient) (file : ReadResult) (w : World) (fuel : Nat) :
    Option IterResult × SyncState :=
  match loadSince env file with
  | none => (some .ret, ⟨m, [], w⟩)
  | some since => syncLoop env fuel ⟨m, since, w⟩

/-! ## `bot/ntfns.go`: the notification loops -/

/-- The errors of the remote calls, as far as the loops tell them apart:
`context.Canceled` and every other error. -/
inductive Err where
  | canceled
  | other
  deriving DecidableEq

/-- The chat service as the loop `gcNtfns` uses it, over a state `S` of the
remote side.  `stream` is `GCMStream` with the `UnackedFrom` of the request;
`recv` is `Recv` on the last stream opened, `none` when the call never returns;
`ack` is `AckReceivedGCM` with the `SequenceId` of the request.  A Go `error`
is an `Option Err`, `none` being `nil`. -/
structure Service (S : Type) where
  stream : Nat → S → Option Err × S
  recv : S → Option ((Err ⊕ GCReceivedMsg) × S)
  ack : Nat → S → Option Err × S

/-- What a notification loop does, in order: each remote call with its answer,
each send on the output channel, each sleep (in seconds). -/
inductive NtfnEvent where
  | stream (unackedFrom : Nat) (err : Option Err)
  | recv (res : Err ⊕ GCReceivedMsg)
  | ack (sequenceId : Nat) (err : Option Err)
  | enqueue (pm : GCReceivedMsg)
  | sleep (seconds : Nat)
  deriving DecidableEq

/-- A run of a notification loop: the error it returned with (`none` while it
has not returned), the last `ackReq.SequenceId`, and what it did. -/
structure NtfnRun where
  returned : Option Err
  sequenceId : Nat
  trace : List NtfnEvent
  deriving DecidableEq

/-- Method `Bot.gcNtfns`, for at most `fuel` remote calls of the two loops.
`inner` tells whether control is in the inner loop (a stream is open);
`seq` is `ackReq.SequenceId`.  `inviteNtfns` and `pmNtfns` are the same text
over their own service, channel and message type. -/
def gcNtfns {S : Type} (svc : Service S) :
    Nat → Bool → Nat → S → List NtfnEvent → NtfnRun
  | 0, _, seq, _, tr => ⟨none, seq, tr⟩
  | fuel + 1, false, seq, s, tr =>
    match svc.stream seq s with
    | (some .canceled, _) => ⟨some .canceled, seq, tr ++ [.stream seq (some .canceled)]⟩
    | (some .other, s) =>
      gcNtfns svc fuel false seq s (tr ++ [.stream seq (some .other), .sleep 1])
    | (none, s) => gcNtfns svc fuel true seq s (tr ++ [.stream seq none])
  | fuel + 1, true, seq, s, tr =>
    match svc.recv s with
    | none => ⟨none, seq, tr⟩
    | some (.inl .canceled, _) => ⟨some .canceled, seq, tr ++ [.recv (.inl .canceled)]⟩
    | some (.inl .other, s) => gcNtfns svc fuel false seq s (tr ++ [.recv (.inl .other)])
    | some (.inr pm, s) =>
      let seq := pm.SequenceId
      match svc.ack seq s with
      | (some e, s) => gcNtfns svc fuel false seq s (tr ++ [.recv (.inr pm), .ack seq (some e)])
      | (none, s) =>
        gcNtfns svc fuel true seq s (tr ++ [.recv (.inr pm), .ack seq none, .enqueue pm])

/-- Method `Bot.kxNtfns`, for at most `fuel` remote calls of the two loops: the
same loop with the stream request kept in a variable of its own, `ksr`, whose
`UnackedFrom` (here `unackedFrom`) is set together with `ackReq.SequenceId`
(here `seq`).  The service stands for `KXStream`, `Recv` and `AckKXCompleted`,
and a message for a `types.KXCompleted`, of which the loop reads the
`SequenceId` alone. -/
def kxNtfns {S : Type} (svc : Service S) :
    Nat → Bool → Nat → Nat → S → List NtfnEvent → NtfnRun
  | 0, _, _, seq, _, tr => ⟨none, seq, tr⟩
  | fuel + 1, false, unackedFrom, seq, s, tr =>
    match svc.stream unackedFrom s with
    | (some .canceled, _) =>
      ⟨some .canceled, seq, tr ++ [.stream unackedFrom (some .canceled)]⟩
    | (some .other, s) =>
      kxNtfns svc fuel false unackedFrom seq s
        (tr ++ [.stream unackedFrom (some .other), .sleep 1])
    | (none, s) => kxNtfns svc fuel true unackedFrom seq s (tr ++ [.stream unackedFrom none])
  | fuel + 1, true, unackedFrom, seq, s, tr =>
    match svc.recv s with
    | none => ⟨none, seq, tr⟩
    | some (.inl .canceled, _) => ⟨some .canceled, seq, tr ++ [.recv (.inl .canceled)]⟩
    | some (.inl .other, s) =>
      kxNtfns svc fuel false unackedFrom seq s (tr ++ [.recv (.inl .other)])
    | some (.inr pm, s) =>
      let unackedFrom := pm.SequenceId
      let seq := pm.SequenceId
      match svc.ack seq s with
      | (some e, s) =>
        kxNtfns svc fuel false unackedFrom seq s (tr ++ [.recv (.inr pm), .ack seq (some e)])
      | (none, s) =>
        kxNtfns svc fuel true unackedFrom seq s
          (tr ++ [.recv (.inr pm), .ack seq none, .enqueue pm])

/-- Method `Bot.inviteNtfns` (lines 51 to 89), in the reading of `gcNtfns`: the
service stands for `ReceivedGCInvites`, `Recv` and `AckReceivedGCInvites`, a
message for a `types.ReceivedGCInvite`. -/
def inviteNtfns {S : Type} (svc : Service S) :
    Nat → Bool → Nat → S → List NtfnEvent → NtfnRun
  | 0, _, seq, _, tr => ⟨none, seq, tr⟩
  | fuel + 1, false, seq, s, tr =>
    match svc.stream seq s with
    | (some .canceled, _) => ⟨some .canceled, seq, tr ++ [.stream seq (some .canceled)]⟩
    | (some .other, s) =>
      inviteNtfns svc fuel false seq s (tr ++ [.stream seq (some .other), .sleep 1])
    | (none, s) => inviteNtfns svc fuel true seq s (tr ++ [.stream seq none])
  | fuel + 1, true, seq, s, tr =>
    match svc.recv s with
    | none => ⟨none, seq, tr⟩
    | some (.inl .canceled, _) => ⟨some .canceled, seq, tr ++ [.recv (.inl .canceled)]⟩
    | some (.inl .other, s) => inviteNtfns svc fuel false seq s (tr ++ [.recv (.inl .other)])
    | some (.inr pm, s) =>
      let seq := pm.SequenceId
      match svc.ack seq s with
      | (some e, s) => inviteNtfns svc fuel false seq s (tr ++ [.recv (.inr pm), .ack seq (some e)])
      | (none, s) =>
        inviteNtfns svc fuel true seq s (tr ++ [.recv (.inr pm), .ack seq none, .enqueue pm])

/-- Method `Bot.pmNtfns` (lines 129 to 167), in the reading of `gcNtfns`: the
service stands for `PMStream`, `Recv` and `AckReceivedPM`, a message for a
`types.ReceivedPM`. -/
def pmNtfns {S : Type} (svc : Service S) :
    Nat → Bool → Nat → S → List NtfnEvent → NtfnRun
  | 0, _, seq, _, tr => ⟨none, seq, tr⟩
  | fuel + 1, false, seq, s, tr =>
    match svc.stream seq s with
    | (some .canceled, _) => ⟨some .canceled, seq, tr ++ [.stream seq (some .canceled)]⟩
    | (some .other, s) =>
      pmNtfns svc fuel false seq s (tr ++ [.stream seq (some .other), .sleep 1])
    | (none, s) => pmNtfns svc fuel true seq s (tr ++ [.stream seq none])
  | fuel + 1, true, seq, s, tr =>
    match svc.recv s with
    | none => ⟨none, seq, tr⟩
    | some (.inl .canceled, _) => ⟨some .canceled, seq, tr ++ [.recv (.inl .canceled)]⟩
    | some (.inl .other, s) => pmNtfns svc fuel false seq s (tr ++ [.recv (.inl .other)])
    | some (.inr pm, s) =>
      let seq := pm.SequenceId
      match svc.ack seq s with
      | (some e, s) => pmNtfns svc fuel false seq s (tr ++ [.recv (.inr pm), .ack seq (some e)])
      | (none, s) =>
        pmNtfns svc fuel true seq s (tr ++ [.recv (.inr pm), .ack seq none, .enqueue pm])

/-- Method `Bot.postNtfns` (lines 169 to 205), in the reading of `kxNtfns`: the
stream request `psr` is a variable of its own; the service stands for
`PostsStream`, `Recv` and `AckReceivedPost`. -/
def postNtfns {S : Type} (svc : Service S) :
    Nat → Bool → Nat → Nat → S → List NtfnEvent → NtfnRun
  | 0, _, _, seq, _, tr => ⟨none, seq, tr⟩
  | fuel + 1, false, unackedFrom, seq, s, tr =>
    match svc.stream unackedFrom s with
    | (some .canceled, _) =>
      ⟨some .canceled, seq, tr ++ [.stream unackedFrom (some .canceled)]⟩
    | (some .other, s) =>
      postNtfns svc fuel false unackedFrom seq s
        (tr ++ [.stream unackedFrom (some .other), .sleep 1])
    | (none, s) => postNtfns svc fuel true unackedFrom seq s (tr ++ [.stream unackedFrom none])
  | fuel + 1, true, unackedFrom, seq, s, tr =>
    match svc.recv s with
    | none => ⟨none, seq, tr⟩
    | some (.inl .canceled, _) => ⟨some .canceled, seq, tr ++ [.recv (.inl .canceled)]⟩
    | some (.inl .other, s) =>
      postNtfns svc fuel false unackedFrom seq s (tr ++ [.recv (.inl .other)])
    | some (.inr pm, s) =>
      let unackedFrom := pm.SequenceId
      let seq := pm.SequenceId
      match svc.ack seq s with
      | (some e, s) =>
        postNtfns svc fuel false unackedFrom seq s (tr ++ [.recv (.inr pm), .ack seq (some e)])
      | (none, s) =>
        postNtfns svc fuel true unackedFrom seq s
          (tr ++ [.recv (.inr pm), .ack seq none, .enqueue pm])

/-- Method `Bot.postStatusNtfns` (lines 207 to 243), in the reading of `kxNtfns`:
the service stands for `PostsStatusStream`, `Recv` and `AckReceivedPostStatus`. -/
def postStatusNtfns {S : Type} (svc : Service S) :
    Nat → Bool → Nat → Nat → S → List NtfnEvent → NtfnRun
  | 0, _, _, seq, _, tr => ⟨none, seq, tr⟩
  | fuel + 1, false, unackedFrom, seq, s, tr =>
    match svc.stream unackedFrom s with
    | (some .canceled, _) =>
      ⟨some .canceled, seq, tr ++ [.stream unackedFrom (some .canceled)]⟩
    | (some .other, s) =>
      postStatusNtfns svc fuel false unackedFrom seq s
        (tr ++ [.stream unackedFrom (some .other), .sleep 1])
    | (none, s) => postStatusNtfns svc fuel true unackedFrom seq s (tr ++ [.stream unackedFrom none])
  | fuel + 1, true, unackedFrom, seq, s, tr =>
    match svc.recv s with
    | none => ⟨none, seq, tr⟩
    | some (.inl .canceled, _) => ⟨some .canceled, seq, tr ++ [.recv (.inl .canceled)]⟩
    | some (.inl .other, s) =>
      postStatusNtfns svc fuel false unackedFrom seq s (tr ++ [.recv (.inl .other)])
    | some (.inr pm, s) =>
      let unackedFrom := pm.SequenceId
      let seq := pm.SequenceId
      match svc.ack seq s with
      | (some e, s) =>
        postStatusNtfns svc fuel false unackedFrom seq s (tr ++ [.recv (.inr pm), .ack seq (some e)])
      | (none, s) =>
        postStatusNtfns svc fuel true unackedFrom seq s
          (tr ++ [.recv (.inr pm), .ack seq none, .enqueue pm])

/-- Method `Bot.tipProgress` (lines 245 to 281), in the reading of `kxNtfns`: the
stream request `tpr` is a variable of its own; the service stands for
`TipProgress`, `Recv` and `AckTipProgress`. -/
def tipProgress {S : Type} (svc : Service S) :
    Nat → Bool → Nat → Nat → S → List NtfnEvent → NtfnRun
  | 0, _, _, seq, _, tr => ⟨none, seq, tr⟩
  | fuel + 1, false, unackedFrom, seq, s, tr =>
    match svc.stream unackedFrom s with
    | (some .canceled, _) =>
      ⟨some .canceled, seq, tr ++ [.stream unackedFrom (some .canceled)]⟩
    | (some .other, s) =>
      tipProgress svc fuel false unackedFrom seq s
        (tr ++ [.stream unackedFrom (some .other), .sleep 1])
    | (none, s) => tipProgress svc fuel true unackedFrom seq s (tr ++ [.stream unackedFrom none])
  | fuel + 1, true, unackedFrom, seq, s, tr =>
    match svc.recv s with
    | none => ⟨none, seq, tr⟩
    | some (.inl .canceled, _) => ⟨some .canceled, seq, tr ++ [.recv (.inl .canceled)]⟩
    | some (.inl .other, s) =>
      tipProgress svc fuel false unackedFrom seq s (tr ++ [.recv (.inl .other)])
    | some (.inr pm, s) =>
      let unackedFrom := pm.SequenceId
      let seq := pm.SequenceId
      match svc.ack seq s with
      | (some e, s) =>
        tipProgress svc fuel false unackedFrom seq s (tr ++ [.recv (.inr pm), .ack seq (some e)])
      | (none, s) =>
        tipProgress svc fuel true unackedFrom seq s
          (tr ++ [.recv (.inr pm), .ack seq none, .enqueue pm])

/-- A remote side that answers from three scripts, one for each kind of call,
each in the order of the calls.  A script that has run out answers an open
with the cancellation error and an acknowledgment with success; `Recv` with no
answer left never returns. -/
structure Script where
  streams : List (Option Err) := []
  recvs : List (Err ⊕ GCReceivedMsg) := []
  acks : List (Option Err) := []
  deriving DecidableEq

/-- The service of a `Script`. -/
def Script.service : Service Script where
  stream _ s := (s.streams.headD (some .canceled), { s with streams := s.streams.tail })
  recv s :=
    match s.recvs with
    | [] => none
    | r :: rest => some (r, { s with recvs := rest })
  ack _ s := (s.acks.headD none, { s with acks := s.acks.tail })

/-- The messages put on the output channel, in order. -/
def queued : List NtfnEvent → List GCReceivedMsg
  | [] => []
  | .enqueue pm :: rest => pm :: queued rest
  | _ :: rest => queued rest

/-- A remote side that holds `items` and answers `GCMStream` with the items of
sequence number greater than `UnackedFrom`, in their order.  `faults` is
the schedule of failures of the coming calls (`true`: the call fails with an
error other than cancellation); `pending` is what the open stream still has to
deliver. -/
structure Server where
  items : List GCReceivedMsg
  pending : List GCReceivedMsg := []
  faults : List Bool := []
  deriving DecidableEq

/-- The service of a `Server`.  `Recv` on a stream with nothing left to deliver
never returns. -/
def Server.service : Service Server where
  stream n s :=
    if s.faults.headD false then (some .other, { s with faults := s.faults.tail })
    else (none, { s with
      faults := s.faults.tail
      pending := s.items.filter fun pm => pm.SequenceId > n })
  recv s :=
    if s.faults.headD false then some (.inl .other, { s with faults := s.faults.tail })
    else
      match s.pending with
      | [] => none
      | pm :: rest => some (.inr pm, { s with faults := s.faults.tail, pending := rest })
  ack _ s :=
    if s.faults.headD false then (some .other, { s with faults := s.faults.tail })
    else (none, { s with faults := s.faults.tail })

/-! ## `bot/whitelist.go` -/

/-- The Go type `map[string]int64` of the allow-list, as an association list
without repeated keys; the newest entry comes first. -/
abbrev WlMap := List (GoString × Int)

/-- The map read `m[k]` in its two-result form. -/
def WlMap.get (m : WlMap) (k : GoString) : Option Int :=
  match m with
  | [] => none
  | (k1, v) :: rest => if k1 = k then some v else WlMap.get rest k

/-- The map write `m[k] = v`. -/
def WlMap.set (m : WlMap) (k : GoString) (v : Int) : WlMap :=
  (k, v) :: m.filter fun kv => kv.1 ≠ k

/-- The builtin `delete(m, k)`. -/
def WlMap.delete (m : WlMap) (k : GoString) : WlMap :=
  m.filter fun kv => kv.1 ≠ k

/-- The allow-list part of the Go struct `Bot`: the map `wl` and the path
`wlFile` (the mutex `wlMtx` serialises the calls and has no other effect). -/
structure Bot where
  wl : WlMap := []
  wlFile : GoString := []
  deriving DecidableEq

/-- The errors that `WhitelistAdd` and `WhitelistRemove` return. -/
inductive WlError where
  /-- The text `user is already whitelisted`. -/
  | alreadyWhitelisted
  /-- The text `user was not whitelisted`. -/
  | notWhitelisted
  /-- The error of `json.Marshal`. -/
  | marshal
  /-- The error of `os.WriteFile`. -/
  | write
  deriving DecidableEq

/-- Method `Bot.IsWhitelisted`. -/
def Bot.IsWhitelisted (b : Bot) (id : ShortID) : Bool := (b.wl.get id.String).isSome

/-- Method `Bot.WhitelistEntries`: the keys of the map (Go leaves their order
open; here it is the order of the association list). -/
def Bot.WhitelistEntries (b : Bot) : List GoString := b.wl.map fun kv => kv.1

/-- Method `Bot.WhitelistAdd`: the returned error (`none` is `nil`), the bot and
the world after the call.  `marshalWl` is `json.Marshal` on the map (`none` is
its error) and `now` is the value of `time.Now().Unix()`. -/
def Bot.WhitelistAdd (marshalWl : WlMap → Option GoString) (now : Int) (b : Bot) (id : ShortID)
    (w : World) : Option WlError × Bot × World :=
  if (b.wl.get id.String).isSome then (some .alreadyWhitelisted, b, w)
  else
    let b := { b with wl := b.wl.set id.String now }
    match marshalWl b.wl with
    | none => (some .marshal, b, w)
    | some raw =>
      match w.doWrite b.wlFile raw with
      | (false, w) => (some .write, b, w)
      | (true, w) => (none, b, w)

/-- Method `Bot.WhitelistRemove`, in the reading of `WhitelistAdd`. -/
def Bot.WhitelistRemove (marshalWl : WlMap → Option GoString) (b : Bot) (id : ShortID)
    (w : World) : Option WlError × Bot × World :=
  if !(b.wl.get id.String).isSome then (some .notWhitelisted, b, w)
  else
    let b := { b with wl := b.wl.delete id.String }
    match marshalWl b.wl with
    | none => (some .marshal, b, w)
    | some raw =>
      match w.doWrite b.wlFile raw with
      | (false, w) => (some .write, b, w)
      | (true, w) => (none, b, w)

/-! ## Notions the properties are stated with -/

/-- The tag with interior `i`: `--embed[`, then `i`, then `]--`. -/
def embedTag (i : GoString) : GoString := lit "--embed[" ++ i ++ lit "]--"

/-- One segment `key=value` of a tag, present when the field is not default. -/
def optSeg (key value : GoString) (nonDefault : Bool) : List GoString :=
  if nonDefault then [key ++ lit "=" ++ value] else []

/-- The segments of the tag of a descriptor in the words of the specification:
in the order part, alt, type, download, filename, size, cost, data, the
segment of a key being present when its field is not default; `dataPresent`
says when the data field counts as not default. -/
def tagSegments (d : embeddedArgs) (dataPresent : Bool) : List GoString :=
  optSeg (lit "part") d.name (d.name ≠ [])
    ++ optSeg (lit "alt") d.alt (d.alt ≠ [])
    ++ optSeg (lit "type") d.typ (d.typ ≠ [])
    ++ optSeg (lit "download") d.download.String (!d.download.IsEmpty)
    ++ optSeg (lit "filename") d.filename (d.filename ≠ [])
    ++ optSeg (lit "size") (FormatUint d.size) (d.size ≠ 0)
    ++ optSeg (lit "cost") (FormatUint d.cost) (d.cost ≠ 0)
    ++ optSeg (lit "data") (b64Encode (d.data.getD [])) dataPresent

/-- Go `strings.Contains(s, sub)`. -/
def Contains : GoString → GoString → Bool
  | [], sub => HasPrefix [] sub
  | c :: cs, sub => HasPrefix (c :: cs) sub || Contains cs sub

/-- A descriptor with its data field cleared. -/
def withoutData (a : embeddedArgs) : embeddedArgs := { a with data := none }

/-- The key of a segment: the text before its first `=`, if it has one. -/
def segKey (a : GoString) : Option GoString :=
  match SplitN2 a (byteOf '=') with
  | [k, _] => some k
  | _ => none

/-- The round trip as the specification words it: `r` agrees with `d` on every
field that is not default in `d`. -/
def agreesNonDefault (r d : embeddedArgs) : Prop :=
  (d.name ≠ [] → r.name = d.name) ∧ (d.alt ≠ [] → r.alt = d.alt)
    ∧ (d.typ ≠ [] → r.typ = d.typ)
    ∧ (d.download.IsEmpty = false → r.download = d.download)
    ∧ (d.filename ≠ [] → r.filename = d.filename) ∧ (d.size ≠ 0 → r.size = d.size)
    ∧ (d.cost ≠ 0 → r.cost = d.cost) ∧ (d.data ≠ none → r.data = d.data)

instance (r d : embeddedArgs) : Decidable (agreesNonDefault r d) := by
  unfold agreesNonDefault; infer_instance

/-- The round trip on the fields other than the name: `r` agrees with `d` on
every field among alt, type, download, filename, size, cost and data that is
not default in `d`. -/
def agreesButName (r d : embeddedArgs) : Prop :=
  (d.alt ≠ [] → r.alt = d.alt)
    ∧ (d.typ ≠ [] → r.typ = d.typ)
    ∧ (d.download.IsEmpty = false → r.download = d.download)
    ∧ (d.filename ≠ [] → r.filename = d.filename) ∧ (d.size ≠ 0 → r.size = d.size)
    ∧ (d.cost ≠ 0 → r.cost = d.cost) ∧ (d.data ≠ none → r.data = d.data)

instance (r d : embeddedArgs) : Decidable (agreesButName r d) := by
  unfold agreesButName; infer_instance

/-- The segments of a tag after the `part` segment. -/
def tailSegments (d : embeddedArgs) : List GoString :=
  optSeg (lit "alt") d.alt (d.alt ≠ [])
    ++ (optSeg (lit "type") d.typ (d.typ ≠ [])
    ++ (optSeg (lit "download") d.download.String (!d.download.IsEmpty)
    ++ (optSeg (lit "filename") d.filename (d.filename ≠ [])
    ++ (optSeg (lit "size") (FormatUint d.size) (d.size ≠ 0)
    ++ (optSeg (lit "cost") (FormatUint d.cost) (d.cost ≠ 0)
    ++ optSeg (lit "data") (b64Encode (d.data.getD [])) d.data.isSome)))))

/-- Two bridge pairs name a common room. -/
def sharesRoom (p q : GoString × GoString) : Prop :=
  p.1 = q.1 ∨ p.1 = q.2 ∨ p.2 = q.1 ∨ p.2 = q.2

instance (p q : GoString × GoString) : Decidable (sharesRoom p q) := by
  unfold sharesRoom; infer_instance

/-- Some room identifier appears in two different bridge pairs: the pairs at
two positions `i < j` of the list name a common room. -/
def roomInTwoPairs (bs : List (GoString × GoString)) : Prop :=
  ∃ (i j : Nat) (hi : i < bs.length) (hj : j < bs.length), i < j ∧ sharesRoom bs[i] bs[j]

/-- The settings of a configuration other than its bridge pairs are valid:
none of the earlier checks of `loadConfig` fails. -/
def validSettings (cfg : config) : Prop :=
  cfg.MatrixPass ≠ [] ∧ cfg.MatrixUser ≠ []
    ∧ HasSuffix cfg.MatrixUser (lit ":decred.org") = true
    ∧ cfg.MatrixUser.head? = some (byteOf '@') ∧ cfg.MatrixToken ≠ []

instance (cfg : config) : Decidable (validSettings cfg) := by
  unfold validSettings; infer_instance

/-- A configuration with valid settings and the given bridge pairs. -/
def sampleConfig (bridges : List (GoString × GoString)) : config :=
  { MatrixUser := lit "@bot:decred.org", MatrixPass := lit "secret", MatrixToken := lit "token",
    Bridges := bridges }

/-- The claim that no acknowledgment comes before the enqueue of its message:
every acknowledgment request in the trace has, earlier in the trace, the
enqueue of a message with its sequence number. -/
def ackNeverBeforeEnqueue (tr : List NtfnEvent) : Prop :=
  ∀ (i n : Nat) (e : Option Err), tr[i]? = some (NtfnEvent.ack n e) →
    ∃ (j : Nat) (pm : GCReceivedMsg),
      j < i ∧ tr[j]? = some (NtfnEvent.enqueue pm) ∧ pm.SequenceId = n

/-- What the loops do instead: every enqueue of a message comes directly after
the acknowledgment request with its sequence number, which succeeded. -/
def enqueueRightAfterAck (tr : List NtfnEvent) : Prop :=
  ∀ (i : Nat) (pm : GCReceivedMsg), tr[i]? = some (NtfnEvent.enqueue pm) →
    ∃ k : Nat, i = k + 1 ∧ tr[k]? = some (NtfnEvent.ack pm.SequenceId none)

/-- A message of the source network with sequence number `n`. -/
def sampleMsg (n : Nat) : GCReceivedMsg :=
  { Nick := lit "alice", GcAlias := lit "A", Msg := some (lit "hello"), SequenceId := n }

/-- Surroundings for evaluating examples: every URL is accepted, every PNG
decodes to a picture of one pixel, the upload answer names the content
`mxc://decred.org/abc`, a sync answer decodes to the reply `reply` with the
joined rooms `joined`, and names and strings pass unchanged. -/
def sampleEnv (reply : Option MsgSyncReply) (joined : Option (List (GoString × MsgJoinedRoom))) :
    Env where
  et := sampleErrorText
  escapeNick := id
  TrimSpace := id
  validURL := fun _ => true
  pngDecode := fun _ => some (1, 1)
  jpegDecode := fun _ => none
  gifDecode := fun _ => none
  unmarshalUpload := fun _ => some (lit "mxc://decred.org/abc")
  unmarshalSync := fun _ => reply
  unmarshalJoined := fun _ => joined
  unmarshalDisplayName := fun b => some b
  unmarshalString := fun b => some b
  marshalString := id
  expand := fun template _ => template

/-- The message of the end-to-end scenario: from `alice` in room `A`, the text
`hello` followed by one embed tag with a PNG payload. -/
def scenarioMsg : GCReceivedMsg :=
  { Nick := lit "alice", GcAlias := lit "A",
    Msg := some (lit "hello --embed[type=image/png,data=aGk=]--"), SequenceId := 1 }

/-- The configuration of the scenario: room `A` bridged with room `B`. -/
def scenarioConfig : config :=
  { sampleConfig [(lit "A", lit "B")] with bridges := [(lit "B", lit "A"), (lit "A", lit "B")] }

/-- The world of the scenario: three requests answered with status 200, three
random reads that succeed. -/
def scenarioWorld : World :=
  { http := [.resp 200 (some []), .resp 200 (some []), .resp 200 (some [])],
    rand := [some (lit "r1"), some (lit "tx1"), some (lit "tx2")] }

/-- No effect of the list is a write of a file. -/
def noWrite (ext : List Effect) : Prop :=
  ∀ e ∈ ext, ∀ path content, e ≠ Effect.writeFile path content

/-- The world `w1` comes from `w` by further effects, none of them a write. -/
def Extends (w w1 : World) : Prop :=
  ∃ ext, w1.trace = w.trace ++ ext ∧ noWrite ext

/-- The reply of a turn of the loop of `Sync` whose poll is answered with
status 200 and decodes: the context is live, the request can be built, the
answer has status 200 and a readable body, the body decodes to the reply and
every `join` entry of its rooms decodes.  `none` for every other turn. -/
def pollDecodes (env : Env) (st : SyncState) : Option MsgSyncReply :=
  if st.w.ctxDone.headD false = true then none
  else if env.validURL (syncURL st.since) = false then none
  else
    match st.w.http.headD .err with
    | .err => none
    | .resp _ none => none
    | .resp status (some b) =>
      if status ≠ 200 then none
      else
        match env.unmarshalSync b with
        | none => none
        | some reply =>
          if reply.Rooms.all fun kv => kv.1 ≠ lit "join" ∨ (env.unmarshalJoined kv.2).isSome
          then some reply
          else none

/-- The cursor a turn must leave behind, by the rule of the specification: the
`next_batch` of the reply when the poll succeeded and decoded, the cursor of
before otherwise. -/
def nextCursor (env : Env) (st : SyncState) : GoString :=
  match pollDecodes env st with
  | some reply => reply.NextBatch
  | none => st.since

/-- The cursor in force after `k` turns of the loop started in `st`, by the rule
of the specification: the `next_batch` of the reply of the most recent of these
turns whose poll succeeded and decoded, the cursor loaded at the start when
there is none.  The state in which turn `k + 1` polls is the one the loop has
reached after `k` turns. -/
def cursorByRule (env : Env) (st : SyncState) : Nat → GoString
  | 0 => st.since
  | k + 1 =>
    match pollDecodes env (syncLoop env k st).2 with
    | some reply => reply.NextBatch
    | none => cursorByRule env st k

/-- A turn that fails in a way that is to be retried, with the effects the turn
is to have: the request cannot be built (a sleep of 2 s), the request fails in
transport (the request, a sleep of 2 s), or the answer has a status other than
200 (the request, a sleep of 5 s).  `none` for every other turn. -/
def transientFailure (env : Env) (st : SyncState) : Option (List Effect) :=
  if st.w.ctxDone.headD false = true then none
  else if env.validURL (syncURL st.since) = false then some [.sleep 2]
  else
    match st.w.http.headD .err with
    | .err => some [.http ⟨lit "GET", syncURL st.since, .empty⟩, .sleep 2]
    | .resp _ none => none
    | .resp status (some _) =>
      if status ≠ 200 then some [.http ⟨lit "GET", syncURL st.since, .empty⟩, .sleep 5]
      else none

/-- A reply with the cursor `s2` and one `join` entry. -/
def sampleReply : MsgSyncReply :=
  { NextBatch := lit "s2", Rooms := [(lit "join", lit "rooms")] }

/-- The joined rooms of the sample reply: room `B` with one text message from
`@carol:decred.org`, stamped 7. -/
def sampleJoined : List (GoString × MsgJoinedRoom) :=
  [(lit "B",
    { Timeline := { Events := [
        { Content := { Body := lit "hi", MsgType := lit "m.text" }, EventID := lit "$e1",
          OriginServerTS := 7, Sender := lit "@carol:decred.org",
          Type_ := lit "m.room.message" }] } })]

/-- A state of the sync loop: the cursor `s1`, the cursor file `since.json`, and
a world that answers the poll, the name lookup and the read receipt with
status 200. -/
def sampleSyncState : SyncState :=
  { m := { cfg := { User := lit "@bot:decred.org" }, sincePath := lit "since.json" },
    since := lit "s1",
    w := { http := [.resp 200 (some (lit "sync")), .resp 200 (some (lit "Carol")),
                    .resp 200 (some [])] } }

/-- A world for four turns of the sync loop: the first poll fails in transport,
the second is answered with status 200 (with the name lookup and the read
receipt answered too), the third with status 503, the fourth fails in
transport. -/
def retryWorld : World :=
  { http := [.err, .resp 200 (some (lit "sync")), .resp 200 (some (lit "Carol")),
             .resp 200 (some []), .resp 503 (some [])] }

/-- The messages sent on the output channel in a list of effects, in order. -/
def sendsOf : List Effect → List mtrxMsg
  | [] => []
  | .chanSend msg :: rest => msg :: sendsOf rest
  | _ :: rest => sendsOf rest

/-- The messages of a timeline: the events of type `m.room.message` that the
user `user` of the bridge did not send itself, each with its room. -/
def roomMessages (user channel : GoString) :
    List MsgClientEventWithoutRoomID → List (GoString × MsgClientEventWithoutRoomID)
  | [] => []
  | e :: rest =>
    if e.Type_ = lit "m.room.message" ∧ e.Sender ≠ user then
      (channel, e) :: roomMessages user channel rest
    else roomMessages user channel rest

/-- The messages of the joined rooms, room after room. -/
def joinedMessages (user : GoString) :
    List (GoString × MsgJoinedRoom) → List (GoString × MsgClientEventWithoutRoomID)
  | [] => []
  | (channel, v) :: rest =>
    roomMessages user channel v.Timeline.Events ++ joinedMessages user rest

/-- The messages of a batch: the messages of the joined rooms under the key
`join` of the rooms of the reply. -/
def batchMessages (env : Env) (user : GoString) :
    List (GoString × GoString) → List (GoString × MsgClientEventWithoutRoomID)
  | [] => []
  | (key, v) :: rest =>
    (if key = lit "join" then
      match env.unmarshalJoined v with
      | some s => joinedMessages user s
      | none => []
    else []) ++ batchMessages env user rest

/-- The claim that every message of the batch has been sent: each has a message
for its room among the sends. -/
def allSent (batch : List (GoString × MsgClientEventWithoutRoomID)) (sends : List mtrxMsg) :
    Prop :=
  ∀ p ∈ batch, ∃ msg ∈ sends, msg.Room = p.1

/-- The sends are those of the messages of the batch, in order: each message
has its send, for the target network and the room of the message, with the
body of the message when that is neither an image nor a quoted reply; only an
image may be left out (when its conversion fails). -/
def sendsMatch :
    List (GoString × MsgClientEventWithoutRoomID) → List mtrxMsg → Prop
  | [], msgs => msgs = []
  | (channel, e) :: rest, msgs =>
    (∃ msg tail, msgs = msg :: tail ∧ msg.Network = networkMatrix ∧ msg.Room = channel
        ∧ (e.Content.MsgType ≠ lit "m.image" → replyRegexp e.Content.Body = none →
            msg.Msg = e.Content.Body)
        ∧ sendsMatch rest tail)
    ∨ (e.Content.MsgType = lit "m.image" ∧ sendsMatch rest msgs)

/-- The world `w1` comes from `w` by further effects whose sends are `msgs`. -/
def SendsStep (w w1 : World) (msgs : List mtrxMsg) : Prop :=
  ∃ ext, w1.trace = w.trace ++ ext ∧ sendsOf ext = msgs

/-- A remote call of the trace that was answered with the cancellation error. -/
def NtfnEvent.isCanceled : NtfnEvent → Bool
  | .stream _ (some .canceled) => true
  | .recv (.inl .canceled) => true
  | .ack _ (some .canceled) => true
  | _ => false

/-- The claim that a loop stops at the first cancellation: a call answered with
the cancellation error is the last thing the run did, and the run returned
that error. -/
def stopsAtCancel (run : NtfnRun) : Prop :=
  ∀ (i : Nat) (e : NtfnEvent), run.trace[i]? = some e → e.isCanceled = true →
    i + 1 = run.trace.length ∧ run.returned = some .canceled

/-- The sequence number of the last acknowledgment of the trace that succeeded,
`acc` if there is none. -/
def lastAcked : List NtfnEvent → Nat → Nat
  | [], acc => acc
  | .ack n none :: rest, _ => lastAcked rest n
  | _ :: rest, acc => lastAcked rest acc

/-- The claim that every stream request asks from the last message whose
acknowledgment succeeded: each open of the trace carries the sequence number
of the last successful acknowledgment before it, 0 if there is none. -/
def opensFromLastAcked (tr : List NtfnEvent) : Prop :=
  ∀ (i n : Nat) (e : Option Err), tr[i]? = some (NtfnEvent.stream n e) →
    n = lastAcked (tr.take i) 0

/-- The message of the scenario with the empty string as its body. -/
def emptyBodyMsg : GCReceivedMsg := { scenarioMsg with Msg := some [] }

/-- The map is a symmetric one-to-one association of the rooms of the pairs:
both directions of every pair are in the map, the keys of the map are the rooms
of the pairs, and looking up the value of a key gives the key back. -/
def symmetricAssociation (pairs : List (GoString × GoString)) (m : GoMap) : Prop :=
  (∀ p ∈ pairs, m.get p.1 = some p.2 ∧ m.get p.2 = some p.1)
    ∧ (∀ r, (m.get r).isSome = true ↔ ∃ p ∈ pairs, r = p.1 ∨ r = p.2)
    ∧ (∀ r v, m.get r = some v → m.get v = some r)

/-- What `loadConfig` returns for the sample settings with the pairs `(A,B)`
and `(C,D)`. -/
def loadedSample : config :=
  { sampleConfig [(lit "A", lit "B"), (lit "C", lit "D")] with
    DataDir := lit "/home/brbot"
    bridges := [(lit "D", lit "C"), (lit "C", lit "D"), (lit "B", lit "A"), (lit "A", lit "B")] }

/-- The body `b` of a poll response fails to decode: as the sync reply, or, the
reply decoded, as the joined rooms under the key `join` of its rooms (a Go map:
no key occurs twice). -/
def decodeFails (env : Env) (b : GoString) : Prop :=
  env.unmarshalSync b = none
    ∨ ∃ reply v, env.unmarshalSync b = some reply ∧ (reply.Rooms.map Prod.fst).Nodup
        ∧ (lit "join", v) ∈ reply.Rooms ∧ env.unmarshalJoined v = none

/-- The tag of an image in the words of the specification: the type, the file
name and the data in base64, a text segment being left out when it is empty. -/
def imageTag (filename mimeType : GoString) (content : List Byte) : GoString :=
  embedTag (Join
    (optSeg (lit "type") mimeType (mimeType ≠ [])
      ++ optSeg (lit "filename") filename (filename ≠ [])
      ++ [lit "data=" ++ b64Encode content])
    (lit ","))

/-- The MIME type of the `info` object of an event, empty without the object. -/
def infoMimeType (event : MsgClientEventWithoutRoomID) : GoString :=
  match event.Content.Info with
  | some info => info.MimeType
  | none => []

/-- An image event: the picture `cat.png` stored as `mxc://decred.org/img1`. -/
def sampleImageEvent : MsgClientEventWithoutRoomID :=
  { Content := { Body := lit "cat.png", MsgType := lit "m.image",
                 URL := lit "mxc://decred.org/img1", Info := some { MimeType := lit "image/png" } },
    EventID := lit "$e2", OriginServerTS := 8, Sender := lit "@carol:decred.org",
    Type_ := lit "m.room.message" }

/-- The joined rooms of a reply with one image message from
`@carol:decred.org` in room `B`. -/
def imageJoined : List (GoString × MsgJoinedRoom) :=
  [(lit "B", { Timeline := { Events := [sampleImageEvent] } })]

/-- A state of the sync loop in which the poll and the name lookup are answered
with status 200 and the download of the image fails in transport. -/
def imageSyncState : SyncState :=
  { sampleSyncState with
    w := { http := [.resp 200 (some (lit "sync")), .resp 200 (some (lit "Carol")), .err,
                    .resp 200 (some [])] } }

/-- The event the specification marks as read: the one with the greatest
`origin_server_ts` of the timeline, the earliest in arrival order when several
share it; `none` for the empty timeline. -/
def latestEvent : List MsgClientEventWithoutRoomID → Option MsgClientEventWithoutRoomID
  | [] => none
  | e :: rest =>
    match latestEvent rest with
    | some x => if x.OriginServerTS > e.OriginServerTS then some x else some e
    | none => some e

/-- The effect is a request that carries a read receipt. -/
def Effect.isReceipt : Effect → Bool
  | .http ⟨_, _, .readReceipt _⟩ => true
  | _ => false

/-- The world `w1` comes from `w` by further effects, none of them a read
receipt. -/
def ExtendsNoReceipt (w w1 : World) : Prop :=
  ∃ ext, w1.trace = w.trace ++ ext ∧ ∀ e ∈ ext, e.isReceipt = false

/-- The URL of the read receipt for a room. -/
def receiptURL (room : GoString) : GoString :=
  lit "https://matrix.decred.org:8448/_matrix/client/r0/rooms/" ++ room ++ lit "/read_markers"

/-- A room with three events, stamped 7, 9 and 9. -/
def sampleRoom : MsgJoinedRoom :=
  { Timeline := { Events := [
      { EventID := lit "$e1", OriginServerTS := 7, Sender := lit "@bot:decred.org",
        Type_ := lit "m.room.message" },
      { EventID := lit "$e2", OriginServerTS := 9, Sender := lit "@bot:decred.org",
        Type_ := lit "m.room.message" },
      { EventID := lit "$e3", OriginServerTS := 9, Sender := lit "@bot:decred.org",
        Type_ := lit "m.room.message" }] } }

/-- The claim of atomicity for a call that returned `err` and left the bot
`after`: when the call returned an error the allow-list is as it was before. -/
def atomicOnError (before : Bot) (err : Option WlError) (after : Bot) : Prop :=
  err ≠ none → after.wl = before.wl

instance (before : Bot) (err : Option WlError) (after : Bot) :
    Decidable (atomicOnError before err after) := by
  unfold atomicOnError; infer_instance

/-- A sample of `json.Marshal` on the allow-list: it never fails. -/
def sampleMarshalWl (m : WlMap) : Option GoString :=
  some (lit "[" ++ Join (m.map fun kv => kv.1) (lit ",") ++ lit "]")

/-- A bot whose allow-list is empty. -/
def emptyBot : Bot := { wl := [], wlFile := lit "whitelist.json" }

/-- A bot whose allow-list holds the zero identity, first seen at 100. -/
def zeroBot : Bot := { wl := [(ShortID.zero.String, 100)], wlFile := lit "whitelist.json" }

/-- A world in which the next write of a file fails. -/
def failingWriteWorld : World := { writeOk := [false] }

/-! ## Go `regexp`: the template of `ReplaceAllString` -/

/-- A byte that may stand in the name of a template variable: a letter, a digit
or an underscore (ASCII; the library takes letters and digits of all of
Unicode). -/
def isNameByte (c : Byte) : Bool :=
  (48 ≤ c.val ∧ c.val ≤ 57) ∨ (65 ≤ c.val ∧ c.val ≤ 90) ∨ (97 ≤ c.val ∧ c.val ≤ 122)
    ∨ c = byteOf '_'

/-- The number of leading name bytes (the loop over `i` of `extract`). -/
def nameLen : GoString → Nat
  | [] => 0
  | c :: cs => if isNameByte c then nameLen cs + 1 else 0

/-- The loop of `extract` that reads a name as a number; `none` is `-1`. -/
def nameNumLoop : GoString → Nat → Option Nat
  | [], num => some num
  | c :: cs, num =>
    if c.val < 48 ∨ 57 < c.val ∨ num ≥ 100000000 then none
    else nameNumLoop cs (num * 10 + (c.val - 48))

/-- The number of a name: `none` (Go `-1`) when it is not a number or has a
leading zero. -/
def nameNum (name : GoString) : Option Nat :=
  if name.head? = some (byteOf '0') ∧ name.length > 1 then none else nameNumLoop name 0

/-- Go `regexp.extract`: the leading `name` or `{name}` of `str`, its number
and the rest of `str`; `none` when `ok` is false. -/
def regexpExtract (str : GoString) : Option (GoString × Option Nat × GoString) :=
  if str = [] then none
  else
    let brace := str.head? = some (byteOf '{')
    let str := if brace then str.tail else str
    let i := nameLen str
    if i = 0 then none
    else
      let name := str.take i
      if brace then
        if i ≥ str.length ∨ str.get? i ≠ some (byteOf '}') then none
        else some (name, nameNum name, str.drop (i + 1))
      else some (name, nameNum name, str.drop i)

/-- Go `Regexp.expand` for a pattern without capture groups, as
`ReplaceAllString` calls it for the match `whole`: the template is copied, `$$`
gives `$`, `$name` and `${name}` give the whole match when the name is the
number 0 and nothing otherwise, and a `$` that no name follows stays.  `skip`
counts the bytes of the last variable that are still to be passed over.  The
reading is exact for templates in which every `$` is followed by ASCII text:
the library also takes letters and digits beyond ASCII into a name. -/
def regexpExpand (whole : GoString) : GoString → Nat → GoString
  | [], _ => []
  | _ :: cs, skip + 1 => regexpExpand whole cs skip
  | c :: cs, 0 =>
    if c ≠ byteOf '$' then c :: regexpExpand whole cs 0
    else if cs.head? = some (byteOf '$') then byteOf '$' :: regexpExpand whole cs 1
    else
      match regexpExtract cs with
      | none => byteOf '$' :: regexpExpand whole cs 0
      | some (_, num, rest) =>
        (if num = some 0 then whole else []) ++ regexpExpand whole cs (cs.length - rest.length)

/-- The joined rooms of a reply to a quoted message: `@carol:decred.org`
answers in room `B` to a message of `@bob:decred.org`. -/
def quoteJoined : List (GoString × MsgJoinedRoom) :=
  [(lit "B",
    { Timeline := { Events := [
        { Content := { Body := lit "> <@bob:decred.org> hi", MsgType := lit "m.text" },
          EventID := lit "$e1", OriginServerTS := 7, Sender := lit "@carol:decred.org",
          Type_ := lit "m.room.message" }] } })]

/-- The sample surroundings with the template expansion of the Go library. -/
def quoteEnv : Env :=
  { sampleEnv (some sampleReply) (some quoteJoined) with
    expand := fun template whole => regexpExpand whole template 0 }

/-- A state of the sync loop in which the display name of `@carol:decred.org`
is `Carol` and the display name of `@bob:decred.org` is `Big$Bob`. -/
def quoteSyncState : SyncState :=
  { sampleSyncState with
    w := { http := [.resp 200 (some (lit "sync")), .resp 200 (some (lit "Carol")),
                    .resp 200 (some (lit "Big$Bob")), .resp 200 (some [])] } }

/-! ## Properties: strings -/

theorem Index_append_sep (a x : GoString) (sep : Byte) (h : sep ∉ a) :
    Index (a ++ sep :: x) sep = a.length := by
  induction a with
  | nil => simp [Index]
  | cons c cs ih =>
    have hc : c ≠ sep := fun e => h (by simp [e])
    have hcs : sep ∉ cs := fun e => h (by simp [e])
    have e : (c :: cs) ++ sep :: x = c :: (cs ++ sep :: x) := rfl
    rw [e, Index, if_neg hc, ih hcs]
    have : ¬ ((cs.length : Int) = -1) := by omega
    simp [this]

theorem LastIndex_not_mem (b : GoString) (sep : Byte) (h : sep ∉ b) : LastIndex b sep = -1 := by
  induction b with
  | nil => simp [LastIndex]
  | cons c cs ih =>
    have hc : c ≠ sep := fun e => h (by simp [e])
    have hcs : sep ∉ cs := fun e => h (by simp [e])
    simp [LastIndex, ih hcs, hc]

theorem LastIndex_append_sep (x b : GoString) (sep : Byte) (h : sep ∉ b) :
    LastIndex (x ++ sep :: b) sep = x.length := by
  induction x with
  | nil => simp [LastIndex, LastIndex_not_mem b sep h]
  | cons c cs ih =>
    have e : (c :: cs) ++ sep :: b = c :: (cs ++ sep :: b) := rfl
    rw [e, LastIndex, ih]
    have : ¬ ((cs.length : Int) = -1) := by omega
    simp [this]

theorem slice_middle (a x b : GoString) :
    slice (a ++ x ++ b) a.length (a.length + x.length) = some x := by
  unfold slice
  have h : 0 ≤ (a.length : Int) ∧ (a.length : Int) ≤ a.length + x.length
      ∧ ((a.length : Int) + x.length) ≤ ((a ++ x ++ b).length : Int) := by
    simp only [List.length_append, Nat.cast_add]; omega
  rw [if_pos h]
  have h1 : ((a.length : Int) + x.length).toNat - a.length = x.length := by
    omega
  simp [h1, List.append_assoc]

theorem Split_not_mem (p : GoString) (sep : Byte) (h : sep ∉ p) : Split p sep = [p] := by
  induction p with
  | nil => simp [Split]
  | cons c cs ih =>
    have hc : c ≠ sep := fun e => h (by simp [e])
    have hcs : sep ∉ cs := fun e => h (by simp [e])
    simp [Split, hc, ih hcs]

theorem Split_append_sep (p rest : GoString) (sep : Byte) (h : sep ∉ p) :
    Split (p ++ sep :: rest) sep = p :: Split rest sep := by
  induction p with
  | nil => simp [Split]
  | cons c cs ih =>
    have hc : c ≠ sep := fun e => h (by simp [e])
    have hcs : sep ∉ cs := fun e => h (by simp [e])
    simp [Split, hc, ih hcs]

theorem Split_Join (segs : List GoString) (sep : Byte) (hne : segs ≠ [])
    (h : ∀ s ∈ segs, sep ∉ s) : Split (Join segs [sep]) sep = segs := by
  induction segs with
  | nil => exact absurd rfl hne
  | cons p ps ih =>
    cases ps with
    | nil => simpa [Join] using Split_not_mem p sep (h p (by simp))
    | cons q qs =>
      have hp : sep ∉ p := h p (by simp)
      have ih1 := ih (by simp) (fun s hs => h s (by simp [hs]))
      simp only [Join, List.append_assoc, List.singleton_append]
      rw [Split_append_sep p _ sep hp, ih1]

theorem SplitN2_append_sep (k v : GoString) (sep : Byte) (h : sep ∉ k) :
    SplitN2 (k ++ sep :: v) sep = [k, v] := by
  induction k with
  | nil => simp [SplitN2]
  | cons c cs ih =>
    have hc : c ≠ sep := fun e => h (by simp [e])
    have hcs : sep ∉ cs := fun e => h (by simp [e])
    simp [SplitN2, hc, ih hcs]

theorem SplitN2_not_mem (k : GoString) (sep : Byte) (h : sep ∉ k) : SplitN2 k sep = [k] := by
  induction k with
  | nil => simp [SplitN2]
  | cons c cs ih =>
    have hc : c ≠ sep := fun e => h (by simp [e])
    have hcs : sep ∉ cs := fun e => h (by simp [e])
    simp [SplitN2, hc, ih hcs]

/-- On a tag, `parseEmbedArgs` never panics: it folds `parseArg` over the
segments of the interior, whatever the interior is. -/
theorem parseEmbedArgs_embedTag (et : ErrorText) (i : GoString) :
    parseEmbedArgs et (embedTag i) = some ((Split i (byteOf ',')).foldl (parseArg et) {}) := by
  have h1 : Index (embedTag i) (byteOf '[') = 7 := by
    have := Index_append_sep (lit "--embed") (i ++ lit "]--") (byteOf '[') (by decide)
    simpa [embedTag] using this
  have h2 : LastIndex (embedTag i) (byteOf ']') = 8 + i.length := by
    have := LastIndex_append_sep (lit "--embed[" ++ i) (lit "--") (byteOf ']') (by decide)
    have e : embedTag i = (lit "--embed[" ++ i) ++ byteOf ']' :: lit "--" := by
      simp [embedTag]; rfl
    rw [e, this]
    simp; rfl
  have h3 : slice (embedTag i) (7 + 1) (8 + i.length) = some i := by
    have := slice_middle (lit "--embed[") i (lit "]--")
    have e : ((lit "--embed[").length : Int) = 8 := by decide
    rw [e] at this
    simpa [embedTag] using this
  unfold parseEmbedArgs
  simp only [h1, h2, h3]

/-! ## Properties: the encoder `embeddedArgs.String` -/

theorem ite_append_singleton {α : Type} (c : Prop) [Decidable c] (p : List α) (x : α) :
    (if c then p ++ [x] else p) = p ++ (if c then [x] else []) := by
  split <;> simp

theorem String_eq_tagSegments (d : embeddedArgs) :
    d.String = embedTag (Join (tagSegments d d.data.isSome) (lit ",")) := by
  have e1 : ∀ v : GoString, lit "part=" ++ v = lit "part" ++ lit "=" ++ v := fun _ => rfl
  have e2 : ∀ v : GoString, lit "alt=" ++ v = lit "alt" ++ lit "=" ++ v := fun _ => rfl
  have e3 : ∀ v : GoString, lit "type=" ++ v = lit "type" ++ lit "=" ++ v := fun _ => rfl
  have e4 : ∀ v : GoString, lit "download=" ++ v = lit "download" ++ lit "=" ++ v := fun _ => rfl
  have e5 : ∀ v : GoString, lit "filename=" ++ v = lit "filename" ++ lit "=" ++ v := fun _ => rfl
  have e6 : ∀ v : GoString, lit "size=" ++ v = lit "size" ++ lit "=" ++ v := fun _ => rfl
  have e7 : ∀ v : GoString, lit "cost=" ++ v = lit "cost" ++ lit "=" ++ v := fun _ => rfl
  have e8 : ∀ v : GoString, lit "data=" ++ v = lit "data" ++ lit "=" ++ v := fun _ => rfl
  have hs : ∀ n : Nat, (n > 0) = (n ≠ 0) := fun n => propext Nat.pos_iff_ne_zero
  unfold embeddedArgs.String embedTag tagSegments optSeg
  simp only [ite_append_singleton, List.nil_append, e1, e2, e3, e4, e5, e6, e7, hs]
  cases hd : d.data with
  | none => simp
  | some b => simp [e8, List.append_assoc]

/-- C10, as amended: for every descriptor `d`, `d.String()` is `--embed[`, the
comma-joined segments `k=v` of exactly the keys among part, alt, type,
download, filename, size, cost, data whose field is not default, in that order,
and `]--`; size and cost are in decimal, data in standard base64, and the data
field counts as not default when it is not `nil` (an empty, non-nil payload
gives the segment `data=`). -/
theorem String_segments_fixed_order (d : embeddedArgs) :
    d.String = embedTag (Join (tagSegments d d.data.isSome) (lit ",")) :=
  String_eq_tagSegments d

/-- C10, as stated, fails: a descriptor whose data is empty but not `nil` has
no field that is not default in the sense of the claim, yet its tag carries
the segment `data=`. -/
theorem String_emits_empty_data :
    ({ data := some [] } : embeddedArgs).String = lit "--embed[data=]--"
    ∧ ({ data := some [] } : embeddedArgs).String
      ≠ embedTag (Join (tagSegments { data := some [] }
          (decide ((some [] : Option (List Byte)).getD [] ≠ []))) (lit ",")) := by
  decide

/-! ## Properties: the decoder `parseEmbedArgs` -/

theorem Split_ne_nil (s : GoString) (sep : Byte) : Split s sep ≠ [] := by
  induction s with
  | nil => simp [Split]
  | cons c cs ih =>
    unfold Split
    split
    · simp
    · split <;> simp

theorem Split_no_sep (s : GoString) (sep : Byte) : ∀ p ∈ Split s sep, sep ∉ p := by
  induction s with
  | nil => simp [Split]
  | cons c cs ih =>
    unfold Split
    split
    · intro p hp
      rcases List.mem_cons.1 hp with h | h
      · simp [h]
      · exact ih p h
    · rename_i hc
      split
      · intro p hp
        simp only [List.mem_singleton] at hp
        subst hp
        simpa using fun e => hc e.symm
      · rename_i q qs hq
        intro p hp
        rcases List.mem_cons.1 hp with h | h
        · subst h
          have := ih q (by simp [hq])
          simp only [List.mem_cons, not_or]
          exact ⟨fun e => hc e.symm, this⟩
        · exact ih p (by simp [hq, h])

theorem parseArg_data_invalid (et : ErrorText) (a : embeddedArgs) (v : GoString)
    (hbad : b64Decode v = none) :
    parseArg et a (lit "data=" ++ v)
      = { a with data := some (lit "[err decoding data: " ++ et.base64 v ++ lit "]") } := by
  have e : lit "data=" ++ v = lit "data" ++ byteOf '=' :: v := rfl
  have hk : SplitN2 (lit "data=" ++ v) (byteOf '=') = [lit "data", v] := by
    rw [e]; exact SplitN2_append_sep _ _ _ (by decide)
  unfold parseArg
  rw [hk]
  have h1 : lit "data" ≠ lit "name" := by decide
  have h2 : lit "data" ≠ lit "type" := by decide
  simp only [h1, h2, if_false, if_true, hbad]

theorem parseArg_withoutData (et : ErrorText) (a b : embeddedArgs) (s : GoString)
    (h : withoutData a = withoutData b) :
    withoutData (parseArg et a s) = withoutData (parseArg et b s) := by
  have hd : a.download = b.download := by
    have := congrArg embeddedArgs.download h
    simpa [withoutData] using this
  unfold parseArg
  split
  · simp only [withoutData, embeddedArgs.mk.injEq, true_and] at h ⊢
    obtain ⟨h1, h2, h3, h4, h5, h6, h7⟩ := h
    split_ifs <;> (try split) <;> simp_all
  · exact h

theorem parseArg_data_other (et : ErrorText) (a : embeddedArgs) (s : GoString)
    (h : segKey s ≠ some (lit "data")) : (parseArg et a s).data = a.data := by
  unfold segKey at h
  unfold parseArg
  split
  · rename_i k v hk
    rw [hk] at h
    have hne : k ≠ lit "data" := fun e => h (by simp [e])
    split_ifs <;> (try split) <;> simp_all
  · rfl

theorem foldl_parseArg_withoutData (et : ErrorText) (l : List GoString) (a b : embeddedArgs)
    (h : withoutData a = withoutData b) :
    withoutData (l.foldl (parseArg et) a) = withoutData (l.foldl (parseArg et) b) := by
  induction l generalizing a b with
  | nil => exact h
  | cons s ss ih => exact ih _ _ (parseArg_withoutData et a b s h)

theorem foldl_parseArg_data_other (et : ErrorText) (l : List GoString) (a : embeddedArgs)
    (h : ∀ s ∈ l, segKey s ≠ some (lit "data")) : (l.foldl (parseArg et) a).data = a.data := by
  induction l generalizing a with
  | nil => rfl
  | cons s ss ih =>
    rw [List.foldl_cons, ih _ (fun t ht => h t (by simp [ht])),
      parseArg_data_other et a s (h s (by simp))]

/-- The tag whose interior is the comma-joined list `segs` decodes to the fold
of `parseArg` over `segs`, when no segment holds a comma. -/
theorem parse_joined (et : ErrorText) (segs : List GoString)
    (h : ∀ s ∈ segs, byteOf ',' ∉ s) :
    parseEmbedArgs et (embedTag (Join segs (lit ","))) = some (segs.foldl (parseArg et) {}) := by
  rw [parseEmbedArgs_embedTag]
  cases segs with
  | nil =>
    have : parseArg et {} [] = {} := by simp [parseArg, SplitN2]
    simp [Join, Split, this]
  | cons p ps =>
    have : lit "," = [byteOf ','] := rfl
    rw [this, Split_Join _ _ (by simp) h]

/-- C4, confirmed: a tag whose data value `v` is not valid standard base64 is
decoded without failure; the payload of the result is the placeholder that
begins `[err decoding data:`, and every other field is what decoding gives for
the tag without that data segment.  The data value of a tag is the value of
its last data segment: `post`, the segments after it, holds no other. -/
theorem parse_invalid_data_placeholder (et : ErrorText) (i v : GoString)
    (pre post : List GoString)
    (hsplit : Split i (byteOf ',') = pre ++ [lit "data=" ++ v] ++ post)
    (hbad : b64Decode v = none)
    (hlast : ∀ s ∈ post, segKey s ≠ some (lit "data")) :
    ∃ r r0, parseEmbedArgs et (embedTag i) = some r
      ∧ parseEmbedArgs et (embedTag (Join (pre ++ post) (lit ","))) = some r0
      ∧ r.data = some (lit "[err decoding data: " ++ et.base64 v ++ lit "]")
      ∧ withoutData r = withoutData r0 := by
  have hno := Split_no_sep i (byteOf ',')
  rw [hsplit] at hno
  have hpp : ∀ s ∈ pre ++ post, byteOf ',' ∉ s := by
    intro s hs
    apply hno s
    rcases List.mem_append.1 hs with h | h
    · simp [h]
    · simp [h]
  refine ⟨_, _, parseEmbedArgs_embedTag et i, parse_joined et _ hpp, ?_, ?_⟩
  · rw [hsplit, List.foldl_append, List.foldl_append, List.foldl_cons, List.foldl_nil,
      foldl_parseArg_data_other et post _ hlast, parseArg_data_invalid et _ v hbad]
  · rw [hsplit, List.foldl_append, List.foldl_append, List.foldl_cons, List.foldl_nil,
      List.foldl_append]
    apply foldl_parseArg_withoutData
    rw [parseArg_data_invalid et _ v hbad]
    rfl

/-- A tag with an invalid data value between two other segments. -/
theorem parse_invalid_data_placeholder_witness :
    ∃ r r0, parseEmbedArgs sampleErrorText (embedTag (lit "type=image/png,data=!!,filename=x")) = some r
      ∧ parseEmbedArgs sampleErrorText
          (embedTag (Join ([lit "type=image/png"] ++ [lit "filename=x"]) (lit ","))) = some r0
      ∧ r.data = some (lit "[err decoding data: " ++ sampleErrorText.base64 (lit "!!") ++ lit "]")
      ∧ withoutData r = withoutData r0 :=
  parse_invalid_data_placeholder sampleErrorText (lit "type=image/png,data=!!,filename=x")
    (lit "!!") [lit "type=image/png"] [lit "filename=x"] (by decide) (by decide) (by decide)

/-! ## Properties: `replaceEmbeds` -/

theorem HasPrefix_close_straddle (c : Byte) (cs rest : GoString)
    (h : HasPrefix (c :: cs) (lit "]--") = false) :
    HasPrefix (c :: cs ++ lit "]--" ++ rest) (lit "]--") = false := by
  have e : lit "]--" = [93, 45, 45] := by decide
  rw [e] at h ⊢
  match cs with
  | [] =>
    simp only [List.cons_append, List.nil_append, HasPrefix, Bool.and_eq_false_imp]
    intro _ h2
    exact absurd h2 (by decide)
  | [d] =>
    simp only [List.cons_append, List.nil_append, HasPrefix, Bool.and_eq_false_imp]
    intro _ _ h3
    exact absurd h3 (by decide)
  | d :: e :: fs =>
    simpa [HasPrefix] using h

theorem lazyUntil_close (i rest : GoString) (hnl : newline ∉ i)
    (hc : Contains i (lit "]--") = false) :
    lazyUntil (lit "]--") (i ++ lit "]--" ++ rest) = some i.length := by
  induction i with
  | nil =>
    have e : lit "]--" = [93, 45, 45] := by decide
    simp [e, lazyUntil, HasPrefix]
  | cons c cs ih =>
    have hc1 : HasPrefix (c :: cs) (lit "]--") = false := by
      unfold Contains at hc
      simp only [Bool.or_eq_false_iff] at hc
      exact hc.1
    have hc2 : Contains cs (lit "]--") = false := by
      unfold Contains at hc
      simp only [Bool.or_eq_false_iff] at hc
      exact hc.2
    have hn1 : c ≠ newline := fun e => hnl (by simp [e])
    have hn2 : newline ∉ cs := fun e => hnl (by simp [e])
    have hs := HasPrefix_close_straddle c cs rest hc1
    have e : (c :: cs) ++ lit "]--" ++ rest = c :: (cs ++ lit "]--" ++ rest) := rfl
    rw [e] at hs ⊢
    rw [lazyUntil, hs, if_neg (by simp), if_neg hn1, ih hn2 hc2]
    simp

theorem length_embedTag (i : GoString) : (embedTag i).length = 8 + i.length + 3 := by
  simp [embedTag, List.length_append]
  rfl

/-- The pattern matches a tag at the start of a text with exactly the tag, when
the interior holds neither a line feed nor `]--`. -/
theorem embedRegexp_embedTag (i rest : GoString) (hnl : newline ∉ i)
    (hc : Contains i (lit "]--") = false) :
    embedRegexp (embedTag i ++ rest) = some (embedTag i).length := by
  have e : embedTag i ++ rest = lit "--embed[" ++ (i ++ lit "]--" ++ rest) := by
    simp [embedTag, List.append_assoc]
  have hp : HasPrefix (lit "--embed[" ++ (i ++ lit "]--" ++ rest)) (lit "--embed[") = true := by
    have e8 : lit "--embed[" = [45, 45, 101, 109, 98, 101, 100, 91] := by decide
    simp [e8, HasPrefix]
  have hd : (lit "--embed[" ++ (i ++ lit "]--" ++ rest)).drop 8 = i ++ lit "]--" ++ rest := by
    have e8 : lit "--embed[" = [45, 45, 101, 109, 98, 101, 100, 91] := by decide
    simp [e8]
  rw [e, embedRegexp, if_pos hp, hd, lazyUntil_close i rest hnl hc, length_embedTag]
  rfl

theorem ReplaceAllStringFunc_skip {σ : Type} (re : GoString → Option Nat)
    (repl : GoString → σ → Option (GoString × σ)) (a b : GoString) (st : σ) :
    ReplaceAllStringFunc re repl (a ++ b) a.length st = ReplaceAllStringFunc re repl b 0 st := by
  induction a with
  | nil => rfl
  | cons c cs ih =>
    have e : (c :: cs) ++ b = c :: (cs ++ b) := rfl
    rw [e, List.length_cons, ReplaceAllStringFunc, ih]

theorem ReplaceAllStringFunc_match {σ : Type} (re : GoString → Option Nat)
    (repl : GoString → σ → Option (GoString × σ)) (c : Byte) (ts rest r : GoString) (st st1 : σ)
    (hre : re (c :: ts ++ rest) = some (c :: ts).length)
    (hrepl : repl (c :: ts) st = some (r, st1)) :
    ReplaceAllStringFunc re repl (c :: ts ++ rest) 0 st
      = match ReplaceAllStringFunc re repl rest 0 st1 with
        | none => none
        | some (out, st2) => some (r ++ out, st2) := by
  have e : (c :: ts) ++ rest = c :: (ts ++ rest) := rfl
  have ht : List.take (ts.length + 1) (c :: (ts ++ rest)) = c :: ts := by
    simp
  rw [e] at hre ⊢
  rw [ReplaceAllStringFunc]
  simp only [hre, ht, hrepl, List.length_cons, Nat.add_sub_cancel]
  rw [ReplaceAllStringFunc_skip]

theorem replaceEmbeds_embedTag {σ : Type} (et : ErrorText) (i rest : GoString)
    (replF : embeddedArgs → σ → GoString × σ) (st : σ) (a : embeddedArgs)
    (hnl : newline ∉ i) (hc : Contains i (lit "]--") = false)
    (ha : parseEmbedArgs et (embedTag i) = some a) :
    replaceEmbeds et (embedTag i ++ rest) replF st
      = match replaceEmbeds et rest replF (replF a st).2 with
        | none => none
        | some (out, st2) => some ((replF a st).1 ++ out, st2) := by
  obtain ⟨c, ts, hct⟩ : ∃ c ts, embedTag i = c :: ts := ⟨45, _, rfl⟩
  have hre := embedRegexp_embedTag i rest hnl hc
  rw [hct] at hre ha ⊢
  unfold replaceEmbeds
  rw [ReplaceAllStringFunc_match embedRegexp _ c ts rest (replF a st).1 st (replF a st).2 hre
    (by simp [ha])]

/-- C3, confirmed: on two adjacent tags whose interiors hold neither `]--` nor a
line feed, `replaceEmbeds` calls the callback exactly twice, first on the
decoding of the first tag and then, in the state the first call left, on the
decoding of the second, and returns the two results joined. -/
theorem replaceEmbeds_two_adjacent {σ : Type} (et : ErrorText) (i1 i2 : GoString)
    (f : embeddedArgs → σ → GoString × σ) (st : σ)
    (hnl1 : newline ∉ i1) (hc1 : Contains i1 (lit "]--") = false)
    (hnl2 : newline ∉ i2) (hc2 : Contains i2 (lit "]--") = false) :
    ∃ a1 a2, parseEmbedArgs et (embedTag i1) = some a1
      ∧ parseEmbedArgs et (embedTag i2) = some a2
      ∧ replaceEmbeds et (embedTag i1 ++ embedTag i2) f st
        = some ((f a1 st).1 ++ (f a2 (f a1 st).2).1, (f a2 (f a1 st).2).2) := by
  obtain ⟨a1, h1⟩ : ∃ a, parseEmbedArgs et (embedTag i1) = some a :=
    ⟨_, parseEmbedArgs_embedTag et i1⟩
  obtain ⟨a2, h2⟩ : ∃ a, parseEmbedArgs et (embedTag i2) = some a :=
    ⟨_, parseEmbedArgs_embedTag et i2⟩
  refine ⟨a1, a2, h1, h2, ?_⟩
  rw [replaceEmbeds_embedTag et i1 _ f st a1 hnl1 hc1 h1]
  have h3 := replaceEmbeds_embedTag et i2 [] f (f a1 st).2 a2 hnl2 hc2 h2
  rw [List.append_nil] at h3
  rw [h3]
  simp [replaceEmbeds, ReplaceAllStringFunc]

/-- The text `--embed[type=a]----embed[type=b]--` is decoded as two descriptors,
of types `a` and `b`, handed to the callback in that order. -/
theorem replaceEmbeds_two_adjacent_witness :
    replaceEmbeds sampleErrorText (lit "--embed[type=a]----embed[type=b]--")
        (fun a (log : List embeddedArgs) => (lit "<" ++ a.typ ++ lit ">", log ++ [a])) []
      = some (lit "<a><b>", [{ typ := lit "a" }, { typ := lit "b" }]) := by
  obtain ⟨a1, a2, h1, h2, h3⟩ := replaceEmbeds_two_adjacent sampleErrorText (lit "type=a")
    (lit "type=b") (fun a (log : List embeddedArgs) => (lit "<" ++ a.typ ++ lit ">", log ++ [a]))
    [] (by decide) (by decide) (by decide) (by decide)
  have e1 : parseEmbedArgs sampleErrorText (embedTag (lit "type=a")) = some { typ := lit "a" } := by
    decide
  have e2 : parseEmbedArgs sampleErrorText (embedTag (lit "type=b")) = some { typ := lit "b" } := by
    decide
  rw [e1] at h1
  rw [e2] at h2
  cases h1
  cases h2
  exact h3

/-! ## Properties: the library codecs -/

theorem ofNat_eq_of_mod (a : Byte) (n : Nat) (h : n % 256 = a.val) : (Fin.ofNat n : Byte) = a := by
  apply Fin.ext
  simpa [Fin.ofNat] using h

theorem b64Val_b64Char_fin : ∀ i : Fin 64, b64Val (b64Char i.val) = some i.val := by decide

theorem b64Char_mem_fin : ∀ i : Fin 64, b64Char i.val ∈ b64Alphabet := by decide

theorem b64Char_mod (n : Nat) : b64Char (n % 64) = b64Char n := by simp [b64Char]

theorem b64Val_b64Char (n : Nat) : b64Val (b64Char n) = some (n % 64) := by
  have h := b64Val_b64Char_fin ⟨n % 64, Nat.mod_lt _ (by decide)⟩
  simpa [b64Char_mod] using h

theorem b64Char_mem (n : Nat) : b64Char n ∈ padByte :: b64Alphabet := by
  have h := b64Char_mem_fin ⟨n % 64, Nat.mod_lt _ (by decide)⟩
  rw [← b64Char_mod]
  exact List.mem_cons_of_mem _ h

theorem b64Val_pad : b64Val padByte = none := by decide

theorem b64Encode_mem (l : List Byte) : ∀ c ∈ b64Encode l, c ∈ padByte :: b64Alphabet := by
  induction l using b64Encode.induct with
  | case1 => simp [b64Encode]
  | case2 a =>
    intro c hc
    simp only [b64Encode, List.mem_cons, List.mem_singleton, List.not_mem_nil, or_false] at hc
    rcases hc with h | h | h | h <;> subst h <;> first | exact b64Char_mem _ | simp
  | case3 a b =>
    intro c hc
    simp only [b64Encode, List.mem_cons, List.mem_singleton, List.not_mem_nil, or_false] at hc
    rcases hc with h | h | h | h <;> subst h <;> first | exact b64Char_mem _ | simp
  | case4 a b c rest ih =>
    intro x hx
    simp only [b64Encode, List.mem_cons] at hx
    rcases hx with h | h | h | h | h
    · subst h; exact b64Char_mem _
    · subst h; exact b64Char_mem _
    · subst h; exact b64Char_mem _
    · subst h; exact b64Char_mem _
    · exact ih x h

set_option maxRecDepth 100000 in
theorem b64_alphabet_plain :
    ∀ c ∈ padByte :: b64Alphabet, c ≠ byteOf ',' ∧ c ≠ byteOf '\n' ∧ c ≠ byteOf '\r' := by
  decide

theorem b64DecodeQuanta_b64Encode (l : List Byte) : b64DecodeQuanta (b64Encode l) = some l := by
  induction l using b64Encode.induct with
  | case1 => simp [b64Encode, b64DecodeQuanta]
  | case2 a =>
    simp only [b64Encode, b64DecodeQuanta, b64Val_b64Char, b64Val_pad, and_self, if_true,
      Option.some.injEq, List.cons.injEq, and_true]
    apply ofNat_eq_of_mod
    have := a.isLt
    omega
  | case3 a b =>
    simp only [b64Encode, b64DecodeQuanta, b64Val_b64Char, b64Val_pad, and_self, if_true,
      Option.some.injEq, List.cons.injEq, and_true]
    constructor <;> apply ofNat_eq_of_mod
    · have := a.isLt; have := b.isLt; omega
    · have := a.isLt; have := b.isLt; omega
  | case4 a b c rest ih =>
    simp only [b64Encode, b64DecodeQuanta, b64Val_b64Char, ih, Option.map_some',
      Option.some.injEq, List.cons.injEq, and_true]
    refine ⟨?_, ?_, ?_⟩ <;> apply ofNat_eq_of_mod
    · have := a.isLt; have := b.isLt; have := c.isLt; omega
    · have := a.isLt; have := b.isLt; have := c.isLt; omega
    · have := a.isLt; have := b.isLt; have := c.isLt; omega

/-- Standard base64 round trip: decoding the encoding of `l` gives `l`. -/
theorem b64Decode_b64Encode (l : List Byte) : b64Decode (b64Encode l) = some l := by
  unfold b64Decode
  have hf : (b64Encode l).filter (fun c => c ≠ byteOf '\n' ∧ c ≠ byteOf '\r') = b64Encode l := by
    apply List.filter_eq_self.2
    intro c hc
    have := b64_alphabet_plain c (b64Encode_mem l c hc)
    simp [this.2.1, this.2.2]
  rw [hf, b64DecodeQuanta_b64Encode]

theorem b64Encode_no_comma (l : List Byte) : byteOf ',' ∉ b64Encode l := fun h =>
  (b64_alphabet_plain _ (b64Encode_mem l _ h)).1 rfl

theorem unhex_hexChar_fin : ∀ d : Fin 16, unhex (hexChar d.val) = some d.val := by decide

theorem hexChar_no_comma_fin : ∀ d : Fin 16, hexChar d.val ≠ byteOf ',' := by decide

theorem hexChar_mod (n : Nat) : hexChar (n % 16) = hexChar n := by simp [hexChar]

theorem unhex_hexChar (n : Nat) : unhex (hexChar n) = some (n % 16) := by
  have h := unhex_hexChar_fin ⟨n % 16, Nat.mod_lt _ (by decide)⟩
  simpa [hexChar_mod] using h

theorem hexChar_no_comma (n : Nat) : hexChar n ≠ byteOf ',' := by
  have h := hexChar_no_comma_fin ⟨n % 16, Nat.mod_lt _ (by decide)⟩
  simpa [hexChar_mod] using h

/-- Hexadecimal round trip. -/
theorem hexDecode_hexEncode (l : List Byte) : hexDecode (hexEncode l) = some l := by
  induction l with
  | nil => simp [hexEncode, hexDecode]
  | cons b bs ih =>
    simp only [hexEncode, hexDecode, unhex_hexChar, ih, Option.map_some', Option.some.injEq,
      List.cons.injEq, and_true]
    apply ofNat_eq_of_mod
    have := b.isLt
    omega

theorem hexEncode_no_comma (l : List Byte) : byteOf ',' ∉ hexEncode l := by
  induction l with
  | nil => simp [hexEncode]
  | cons b bs ih =>
    simp only [hexEncode, List.mem_cons, not_or]
    exact ⟨fun e => hexChar_no_comma _ e.symm, fun e => hexChar_no_comma _ e.symm, ih⟩

/-- `FromString` undoes `String` on a `ShortID`. -/
theorem ShortID_FromString_String (u v : ShortID) : u.FromString v.String = v := by
  unfold ShortID.FromString ShortID.String
  rw [hexDecode_hexEncode]
  simp [v.property]

theorem digitVal_digitByte (d : Nat) (h : d < 10) : digitVal (digitByte d) = some d := by
  have hv : (digitByte d).val = 48 + d := by
    simp only [digitByte, Fin.ofNat, Nat.mod_eq_of_lt h]
    omega
  unfold digitVal
  rw [hv]
  simp
  omega

theorem digitByte_ne_comma (d : Nat) : digitByte d ≠ byteOf ',' := by
  intro e
  have hv : (digitByte d).val = 48 + d % 10 := by
    simp only [digitByte, Fin.ofNat]
    omega
  have hc : (byteOf ',').val = 44 := by decide
  rw [e, hc] at hv
  omega

theorem parseLoop_formatAux (fuel n : Nat) (acc : GoString) (hf : n < fuel)
    (hn : n ≤ maxUint64) : parseLoop 0 (formatAux fuel n acc) = parseLoop n acc := by
  induction fuel generalizing n acc with
  | zero => omega
  | succ fuel ih =>
    have hm : maxUint64 = 18446744073709551615 := by decide
    unfold formatAux
    split
    · rename_i h10
      rw [parseLoop, digitVal_digitByte n h10]
      simp only [hm]
      rw [if_neg (by omega), if_neg (by omega)]
      simp
    · rename_i h10
      rw [ih (n / 10) _ (by omega) (by omega), parseLoop,
        digitVal_digitByte (n % 10) (Nat.mod_lt _ (by decide))]
      simp only [hm] at hn ⊢
      rw [if_neg (by omega), if_neg (by omega)]
      congr 1
      omega

theorem formatAux_ne_nil (fuel n : Nat) (acc : GoString) (h : acc ≠ [] ∨ 0 < fuel) :
    formatAux fuel n acc ≠ [] := by
  induction fuel generalizing n acc with
  | zero =>
    rcases h with h | h
    · simpa [formatAux] using h
    · omega
  | succ fuel ih =>
    unfold formatAux
    split
    · simp
    · exact ih _ _ (Or.inl (by simp))

theorem formatAux_no_comma (fuel n : Nat) (acc : GoString) (h : byteOf ',' ∉ acc) :
    byteOf ',' ∉ formatAux fuel n acc := by
  induction fuel generalizing n acc with
  | zero => simpa [formatAux] using h
  | succ fuel ih =>
    unfold formatAux
    split
    · simp only [List.mem_cons, not_or]
      exact ⟨fun e => digitByte_ne_comma _ e.symm, h⟩
    · apply ih
      simp only [List.mem_cons, not_or]
      exact ⟨fun e => digitByte_ne_comma _ e.symm, h⟩

/-- Decimal round trip on `uint64`. -/
theorem ParseUint_FormatUint (n : Nat) (hn : n ≤ maxUint64) :
    ParseUint (FormatUint n) = (n, true) := by
  unfold ParseUint FormatUint
  rw [if_neg (formatAux_ne_nil _ _ _ (Or.inr (by omega))),
    parseLoop_formatAux _ _ _ (by omega) hn]
  rfl

theorem FormatUint_no_comma (n : Nat) : byteOf ',' ∉ FormatUint n :=
  formatAux_no_comma _ _ _ (by simp)

/-- Without a `%` there is nothing to unescape. -/
theorem PathUnescape_plain (v : GoString) (h : byteOf '%' ∉ v) : PathUnescape v = some v := by
  induction v with
  | nil => simp [PathUnescape]
  | cons c cs ih =>
    have hc : c ≠ byteOf '%' := fun e => h (by simp [e])
    have hcs : byteOf '%' ∉ cs := fun e => h (by simp [e])
    unfold PathUnescape
    rw [if_neg hc, ih hcs]
    rfl

/-! ## Properties: the round trip of the embed tag -/

theorem Split_append_sep_any (a b : GoString) (sep : Byte) :
    Split (a ++ sep :: b) sep = Split a sep ++ Split b sep := by
  induction a with
  | nil => simp [Split]
  | cons c cs ih =>
    have e : (c :: cs) ++ sep :: b = c :: (cs ++ sep :: b) := rfl
    rw [e]
    by_cases hc : c = sep
    · simp [Split, hc, ih]
    · have l1 : Split (c :: (cs ++ sep :: b)) sep
          = match Split (cs ++ sep :: b) sep with
            | [] => [[c]]
            | p :: ps => (c :: p) :: ps := by
        rw [Split, if_neg hc]
      have l2 : Split (c :: cs) sep
          = match Split cs sep with
            | [] => [[c]]
            | p :: ps => (c :: p) :: ps := by
        rw [Split, if_neg hc]
      rw [l1, l2, ih]
      cases h : Split cs sep with
      | nil => exact absurd h (Split_ne_nil cs sep)
      | cons q qs => simp

theorem Join_cons_cons (p q : GoString) (qs : List GoString) (sep : GoString) :
    Join (p :: q :: qs) sep = p ++ sep ++ Join (q :: qs) sep := rfl

/-- Decoding the tag of the segments `p :: segs`, where only `p` may hold
commas: the fold over `segs`, started from what the pieces of `p` give. -/
theorem parse_joined_cons (et : ErrorText) (p : GoString) (segs : List GoString)
    (h : ∀ s ∈ segs, byteOf ',' ∉ s) :
    parseEmbedArgs et (embedTag (Join (p :: segs) (lit ",")))
      = some (segs.foldl (parseArg et) ((Split p (byteOf ',')).foldl (parseArg et) {})) := by
  rw [parseEmbedArgs_embedTag]
  cases segs with
  | nil => simp [Join]
  | cons q qs =>
    have e : lit "," = [byteOf ','] := rfl
    have e2 : p ++ [byteOf ','] ++ Join (q :: qs) [byteOf ','] =
        p ++ byteOf ',' :: Join (q :: qs) [byteOf ','] := by simp
    rw [Join_cons_cons, e, e2, Split_append_sep_any, Split_Join _ _ (by simp) h,
      List.foldl_append]

theorem foldl_optSeg (et : ErrorText) (a : embeddedArgs) (k v : GoString) (c : Bool)
    (rest : List GoString) :
    (optSeg k v c ++ rest).foldl (parseArg et) a
      = rest.foldl (parseArg et) (if c then parseArg et a (k ++ lit "=" ++ v) else a) := by
  cases c <;> simp [optSeg]

theorem foldl_optSeg_last (et : ErrorText) (a : embeddedArgs) (k v : GoString) (c : Bool) :
    (optSeg k v c).foldl (parseArg et) a
      = if c then parseArg et a (k ++ lit "=" ++ v) else a := by
  cases c <;> simp [optSeg]

theorem SplitN2_key_value (k v : GoString) (hk : byteOf '=' ∉ k) :
    SplitN2 (k ++ lit "=" ++ v) (byteOf '=') = [k, v] := by
  have e : k ++ lit "=" ++ v = k ++ byteOf '=' :: v := by
    rw [List.append_assoc]; rfl
  rw [e, SplitN2_append_sep k v _ hk]

theorem parseArg_alt (et : ErrorText) (a : embeddedArgs) (v : GoString) (h : byteOf '%' ∉ v) :
    parseArg et a (lit "alt" ++ lit "=" ++ v) = { a with alt := v } := by
  unfold parseArg
  rw [SplitN2_key_value _ _ (by decide)]
  have h1 : lit "alt" ≠ lit "name" := by decide
  have h2 : lit "alt" ≠ lit "type" := by decide
  have h3 : lit "alt" ≠ lit "data" := by decide
  simp only [h1, h2, h3, if_false, if_true, PathUnescape_plain v h]

theorem parseArg_type (et : ErrorText) (a : embeddedArgs) (v : GoString) :
    parseArg et a (lit "type" ++ lit "=" ++ v) = { a with typ := v } := by
  unfold parseArg
  rw [SplitN2_key_value _ _ (by decide)]
  have h1 : lit "type" ≠ lit "name" := by decide
  simp only [h1, if_false, if_true]

theorem parseArg_download (et : ErrorText) (a : embeddedArgs) (u : ShortID) :
    parseArg et a (lit "download" ++ lit "=" ++ u.String) = { a with download := u } := by
  unfold parseArg
  rw [SplitN2_key_value _ _ (by decide)]
  have h1 : lit "download" ≠ lit "name" := by decide
  have h2 : lit "download" ≠ lit "type" := by decide
  have h3 : lit "download" ≠ lit "data" := by decide
  have h4 : lit "download" ≠ lit "alt" := by decide
  simp only [h1, h2, h3, h4, if_false, if_true, ShortID_FromString_String]

theorem parseArg_filename (et : ErrorText) (a : embeddedArgs) (v : GoString) :
    parseArg et a (lit "filename" ++ lit "=" ++ v) = { a with filename := v } := by
  unfold parseArg
  rw [SplitN2_key_value _ _ (by decide)]
  have h1 : lit "filename" ≠ lit "name" := by decide
  have h2 : lit "filename" ≠ lit "type" := by decide
  have h3 : lit "filename" ≠ lit "data" := by decide
  have h4 : lit "filename" ≠ lit "alt" := by decide
  have h5 : lit "filename" ≠ lit "download" := by decide
  simp only [h1, h2, h3, h4, h5, if_false, if_true]

theorem parseArg_size (et : ErrorText) (a : embeddedArgs) (n : Nat) (hn : n ≤ maxUint64) :
    parseArg et a (lit "size" ++ lit "=" ++ FormatUint n) = { a with size := n } := by
  unfold parseArg
  rw [SplitN2_key_value _ _ (by decide)]
  have h1 : lit "size" ≠ lit "name" := by decide
  have h2 : lit "size" ≠ lit "type" := by decide
  have h3 : lit "size" ≠ lit "data" := by decide
  have h4 : lit "size" ≠ lit "alt" := by decide
  have h5 : lit "size" ≠ lit "download" := by decide
  have h6 : lit "size" ≠ lit "filename" := by decide
  simp only [h1, h2, h3, h4, h5, h6, if_false, if_true, ParseUint_FormatUint n hn]

theorem parseArg_cost (et : ErrorText) (a : embeddedArgs) (n : Nat) (hn : n ≤ maxUint64) :
    parseArg et a (lit "cost" ++ lit "=" ++ FormatUint n) = { a with cost := n } := by
  unfold parseArg
  rw [SplitN2_key_value _ _ (by decide)]
  have h1 : lit "cost" ≠ lit "name" := by decide
  have h2 : lit "cost" ≠ lit "type" := by decide
  have h3 : lit "cost" ≠ lit "data" := by decide
  have h4 : lit "cost" ≠ lit "alt" := by decide
  have h5 : lit "cost" ≠ lit "download" := by decide
  have h6 : lit "cost" ≠ lit "filename" := by decide
  have h7 : lit "cost" ≠ lit "size" := by decide
  simp only [h1, h2, h3, h4, h5, h6, h7, if_false, if_true, ParseUint_FormatUint n hn]

theorem parseArg_data (et : ErrorText) (a : embeddedArgs) (b : List Byte) :
    parseArg et a (lit "data" ++ lit "=" ++ b64Encode b) = { a with data := some b } := by
  unfold parseArg
  rw [SplitN2_key_value _ _ (by decide)]
  have h1 : lit "data" ≠ lit "name" := by decide
  have h2 : lit "data" ≠ lit "type" := by decide
  simp only [h1, h2, if_false, if_true, b64Decode_b64Encode]

theorem optSeg_no_comma (k v : GoString) (c : Bool) (hk : byteOf ',' ∉ k)
    (hv : byteOf ',' ∉ v) : ∀ s ∈ optSeg k v c, byteOf ',' ∉ s := by
  intro s hs
  cases c
  · simp [optSeg] at hs
  · simp only [optSeg, if_true, List.mem_singleton] at hs
    subst hs
    simp only [List.mem_append, not_or]
    exact ⟨⟨hk, by decide⟩, hv⟩

theorem tagSegments_eq (d : embeddedArgs) :
    tagSegments d d.data.isSome
      = optSeg (lit "part") d.name (d.name ≠ []) ++ tailSegments d := by
  simp [tagSegments, tailSegments, List.append_assoc]

theorem tailSegments_no_comma (d : embeddedArgs) (halt : byteOf ',' ∉ d.alt)
    (htyp : byteOf ',' ∉ d.typ) (hfn : byteOf ',' ∉ d.filename) :
    ∀ s ∈ tailSegments d, byteOf ',' ∉ s := by
  intro s hs
  simp only [tailSegments, List.mem_append] at hs
  rcases hs with h | h | h | h | h | h | h
  · exact optSeg_no_comma _ _ _ (by decide) halt s h
  · exact optSeg_no_comma _ _ _ (by decide) htyp s h
  · exact optSeg_no_comma _ _ _ (by decide) (hexEncode_no_comma _) s h
  · exact optSeg_no_comma _ _ _ (by decide) hfn s h
  · exact optSeg_no_comma _ _ _ (by decide) (FormatUint_no_comma _) s h
  · exact optSeg_no_comma _ _ _ (by decide) (FormatUint_no_comma _) s h
  · exact optSeg_no_comma _ _ _ (by decide) (b64Encode_no_comma _) s h

theorem ite_mk_alt (c : Bool) (n : GoString) (dt : Option (List Byte)) (v al t : GoString)
    (dl : ShortID) (f : GoString) (s co : Nat) :
    (if c = true then (⟨n, dt, v, t, dl, f, s, co⟩ : embeddedArgs) else ⟨n, dt, al, t, dl, f, s, co⟩)
      = ⟨n, dt, if c = true then v else al, t, dl, f, s, co⟩ := by
  cases c <;> rfl

theorem ite_mk_typ (c : Bool) (n : GoString) (dt : Option (List Byte)) (al v t : GoString)
    (dl : ShortID) (f : GoString) (s co : Nat) :
    (if c = true then (⟨n, dt, al, v, dl, f, s, co⟩ : embeddedArgs) else ⟨n, dt, al, t, dl, f, s, co⟩)
      = ⟨n, dt, al, if c = true then v else t, dl, f, s, co⟩ := by
  cases c <;> rfl

theorem ite_mk_download (c : Bool) (n : GoString) (dt : Option (List Byte)) (al t : GoString)
    (v dl : ShortID) (f : GoString) (s co : Nat) :
    (if c = true then (⟨n, dt, al, t, v, f, s, co⟩ : embeddedArgs) else ⟨n, dt, al, t, dl, f, s, co⟩)
      = ⟨n, dt, al, t, if c = true then v else dl, f, s, co⟩ := by
  cases c <;> rfl

theorem ite_mk_filename (c : Bool) (n : GoString) (dt : Option (List Byte)) (al t : GoString)
    (dl : ShortID) (v f : GoString) (s co : Nat) :
    (if c = true then (⟨n, dt, al, t, dl, v, s, co⟩ : embeddedArgs) else ⟨n, dt, al, t, dl, f, s, co⟩)
      = ⟨n, dt, al, t, dl, if c = true then v else f, s, co⟩ := by
  cases c <;> rfl

theorem ite_mk_size (c : Bool) (n : GoString) (dt : Option (List Byte)) (al t : GoString)
    (dl : ShortID) (f : GoString) (v s co : Nat) :
    (if c = true then (⟨n, dt, al, t, dl, f, v, co⟩ : embeddedArgs) else ⟨n, dt, al, t, dl, f, s, co⟩)
      = ⟨n, dt, al, t, dl, f, if c = true then v else s, co⟩ := by
  cases c <;> rfl

theorem ite_mk_cost (c : Bool) (n : GoString) (dt : Option (List Byte)) (al t : GoString)
    (dl : ShortID) (f : GoString) (s v co : Nat) :
    (if c = true then (⟨n, dt, al, t, dl, f, s, v⟩ : embeddedArgs) else ⟨n, dt, al, t, dl, f, s, co⟩)
      = ⟨n, dt, al, t, dl, f, s, if c = true then v else co⟩ := by
  cases c <;> rfl

theorem ite_mk_data (c : Bool) (n : GoString) (v dt : Option (List Byte)) (al t : GoString)
    (dl : ShortID) (f : GoString) (s co : Nat) :
    (if c = true then (⟨n, v, al, t, dl, f, s, co⟩ : embeddedArgs) else ⟨n, dt, al, t, dl, f, s, co⟩)
      = ⟨n, if c = true then v else dt, al, t, dl, f, s, co⟩ := by
  cases c <;> rfl

/-- Whatever the descriptor `a0` the fold starts from, folding `parseArg` over
the segments after `part` sets every field that is not default in `d`. -/
theorem foldl_tailSegments (et : ErrorText) (d a0 : embeddedArgs) (hpct : byteOf '%' ∉ d.alt)
    (hsize : d.size ≤ maxUint64) (hcost : d.cost ≤ maxUint64) :
    agreesButName ((tailSegments d).foldl (parseArg et) a0) d := by
  obtain ⟨n, dt, al, t, dl, f, s, co⟩ := a0
  unfold tailSegments
  simp only [foldl_optSeg, foldl_optSeg_last, parseArg_alt et _ _ hpct, parseArg_type,
    parseArg_download, parseArg_filename, parseArg_size et _ _ hsize,
    parseArg_cost et _ _ hcost, parseArg_data, ite_mk_alt, ite_mk_typ, ite_mk_download,
    ite_mk_filename, ite_mk_size, ite_mk_cost, ite_mk_data]
  unfold agreesButName
  refine ⟨?_, ?_, ?_, ?_, ?_, ?_, ?_⟩
  · intro h; simp [h]
  · intro h; simp [h]
  · intro h; simp [h]
  · intro h; simp [h]
  · intro h; simp [h]
  · intro h; simp [h]
  · intro h
    cases hd : d.data with
    | none => exact absurd hd h
    | some b => simp

/-- The tag of a descriptor decodes to the fold of `parseArg` over its segments
after `part`, started from some descriptor (what the `part` segment gave). -/
theorem parse_String (et : ErrorText) (d : embeddedArgs) (halt : byteOf ',' ∉ d.alt)
    (htyp : byteOf ',' ∉ d.typ) (hfn : byteOf ',' ∉ d.filename) :
    ∃ a0, parseEmbedArgs et d.String = some ((tailSegments d).foldl (parseArg et) a0) := by
  have hc := tailSegments_no_comma d halt htyp hfn
  rw [String_eq_tagSegments, tagSegments_eq]
  by_cases hn : d.name = []
  · refine ⟨{}, ?_⟩
    simp only [optSeg, hn, ne_eq, not_true_eq_false, decide_False, Bool.false_eq_true, if_false,
      List.nil_append]
    exact parse_joined et _ hc
  · refine ⟨(Split (lit "part" ++ lit "=" ++ d.name) (byteOf ',')).foldl (parseArg et) {}, ?_⟩
    simp only [optSeg, hn, ne_eq, not_false_eq_true, decide_True, if_true, List.singleton_append]
    exact parse_joined_cons et _ _ hc

/-- The round trip of the tag on the fields other than the name. -/
theorem parse_String_agrees (et : ErrorText) (d : embeddedArgs) (halt : byteOf ',' ∉ d.alt)
    (hpct : byteOf '%' ∉ d.alt) (htyp : byteOf ',' ∉ d.typ) (hfn : byteOf ',' ∉ d.filename)
    (hsize : d.size ≤ maxUint64) (hcost : d.cost ≤ maxUint64) :
    ∃ r, parseEmbedArgs et d.String = some r ∧ agreesButName r d := by
  obtain ⟨a0, h⟩ := parse_String et d halt htyp hfn
  exact ⟨_, h, foldl_tailSegments et d a0 hpct hsize hcost⟩

/-- C2, as amended: for every descriptor `d` whose alt, type and file name hold
no comma and whose alt holds no `%` (size and cost being `uint64`),
`parseEmbedArgs(d.String())` does not fail and agrees with `d` on every field
among alt, type, download, filename, size, cost and data that is not default
in `d`. -/
theorem embed_round_trip (et : ErrorText) (d : embeddedArgs) (halt : byteOf ',' ∉ d.alt)
    (hpct : byteOf '%' ∉ d.alt) (htyp : byteOf ',' ∉ d.typ) (hfn : byteOf ',' ∉ d.filename)
    (hsize : d.size ≤ maxUint64) (hcost : d.cost ≤ maxUint64) :
    ∃ r, parseEmbedArgs et d.String = some r ∧ agreesButName r d :=
  parse_String_agrees et d halt hpct htyp hfn hsize hcost

/-- The descriptor of the specification, with type, data and file name, makes
the round trip. -/
theorem embed_round_trip_witness :
    ∃ r, parseEmbedArgs sampleErrorText
        ({ typ := lit "image/png", data := some (lit "hi"), filename := lit "x.png" } :
          embeddedArgs).String = some r
      ∧ agreesButName r { typ := lit "image/png", data := some (lit "hi"), filename := lit "x.png" } :=
  embed_round_trip sampleErrorText
    { typ := lit "image/png", data := some (lit "hi"), filename := lit "x.png" }
    (by decide) (by decide) (by decide) (by decide) (by decide) (by decide)

/-- C2, as stated, fails: a file name, a type or an alt text with a comma is cut
at the comma, an alt text `%41` comes back as `A`, and a name does not come
back at all. -/
theorem embed_round_trip_fails :
    (parseEmbedArgs sampleErrorText ({ filename := lit "a,b" } : embeddedArgs).String
        = some { filename := lit "a" }
      ∧ ¬ agreesNonDefault { filename := lit "a" } { filename := lit "a,b" })
    ∧ (parseEmbedArgs sampleErrorText ({ typ := lit "a,b" } : embeddedArgs).String
        = some { typ := lit "a" }
      ∧ ¬ agreesNonDefault { typ := lit "a" } { typ := lit "a,b" })
    ∧ (parseEmbedArgs sampleErrorText ({ alt := lit "a,b" } : embeddedArgs).String
        = some { alt := lit "a" }
      ∧ ¬ agreesNonDefault { alt := lit "a" } { alt := lit "a,b" })
    ∧ (parseEmbedArgs sampleErrorText ({ alt := lit "%41" } : embeddedArgs).String
        = some { alt := lit "A" }
      ∧ ¬ agreesNonDefault { alt := lit "A" } { alt := lit "%41" })
    ∧ (parseEmbedArgs sampleErrorText ({ name := lit "n" } : embeddedArgs).String = some {}
      ∧ ¬ agreesNonDefault {} { name := lit "n" }) := by
  decide

/-! ## Properties: the bridge map of `loadConfig` -/

theorem GoMap_get_filter (m : GoMap) (k r : GoString) (h : k ≠ r) :
    GoMap.get (m.filter fun kv => kv.1 ≠ k) r = GoMap.get m r := by
  induction m with
  | nil => rfl
  | cons kv rest ih =>
    obtain ⟨k1, v1⟩ := kv
    simp only [List.filter_cons]
    by_cases hk : k1 = k
    · subst hk
      simp only [ne_eq, not_true_eq_false, decide_False, Bool.false_eq_true, if_false]
      rw [ih, GoMap.get, if_neg h]
    · simp only [ne_eq, hk, not_false_eq_true, decide_True, if_true]
      rw [GoMap.get, GoMap.get, ih]

theorem GoMap_get_set (m : GoMap) (k v r : GoString) :
    (m.set k v).get r = if k = r then some v else m.get r := by
  unfold GoMap.set
  by_cases h : k = r
  · simp [GoMap.get, h]
  · rw [GoMap.get, if_neg h, if_neg h, GoMap_get_filter m k r h]

theorem GoMap_get_set_set_none (m : GoMap) (a b r : GoString) :
    ((m.set a b).set b a).get r = none ↔ r ≠ a ∧ r ≠ b ∧ m.get r = none := by
  rw [GoMap_get_set, GoMap_get_set]
  by_cases hb : b = r
  · simp [hb]
  · by_cases ha : a = r
    · simp [hb, ha]
    · simp [hb, ha, Ne.symm ha, Ne.symm hb]

/-- The bridge loop succeeds exactly when no room of the pairs is in the map
already and no two of the pairs share a room. -/
theorem buildBridges_ok_iff (bs : List (GoString × GoString)) (m : GoMap) :
    isError (buildBridges bs m) = false
      ↔ (∀ p ∈ bs, m.get p.1 = none ∧ m.get p.2 = none)
        ∧ bs.Pairwise fun p q => ¬ sharesRoom p q := by
  induction bs generalizing m with
  | nil => simp [buildBridges, isError]
  | cons p rest ih =>
    obtain ⟨a, b⟩ := p
    unfold buildBridges
    by_cases ha : (m.get a).isSome
    · have hne : m.get a ≠ none := by
        intro e; simp [e] at ha
      simp [ha, isError, hne]
    · have ha0 : m.get a = none := by simpa using ha
      by_cases hb : (m.get b).isSome
      · have hne : m.get b ≠ none := by
          intro e; simp [e] at hb
        simp [ha, hb, isError, hne]
      · have hb0 : m.get b = none := by simpa using hb
        rw [if_neg ha, if_neg hb, ih]
        simp only [GoMap_get_set_set_none, List.mem_cons, forall_eq_or_imp, ha0, hb0, and_self,
          true_and, List.pairwise_cons, sharesRoom, not_or]
        constructor
        · rintro ⟨h1, h2⟩
          refine ⟨fun q hq => ⟨(h1 q hq).1.2.2, (h1 q hq).2.2.2⟩, fun q hq => ?_, h2⟩
          have := h1 q hq
          exact ⟨Ne.symm this.1.1, Ne.symm this.2.1, Ne.symm this.1.2.1, Ne.symm this.2.2.1⟩
        · rintro ⟨h1, h2, h3⟩
          refine ⟨fun q hq => ?_, h3⟩
          have := h2 q hq
          exact ⟨⟨Ne.symm this.1, Ne.symm this.2.2.1, (h1 q hq).1⟩,
            ⟨Ne.symm this.2.1, Ne.symm this.2.2.2, (h1 q hq).2⟩⟩

theorem not_pairwise_iff_roomInTwoPairs (bs : List (GoString × GoString)) :
    ¬ bs.Pairwise (fun p q => ¬ sharesRoom p q) ↔ roomInTwoPairs bs := by
  rw [List.pairwise_iff_getElem]
  unfold roomInTwoPairs
  constructor
  · intro h
    by_contra hc
    apply h
    intro i j hi hj hij hs
    exact hc ⟨i, j, hi, hj, hij, hs⟩
  · rintro ⟨i, j, hi, hj, hij, hs⟩ h
    exact h i j hi hj hij hs

theorem validateConfig_isError (env : ConfigEnv) (cfg : config) (hv : validSettings cfg)
    (hne : cfg.Bridges ≠ []) :
    isError (validateConfig env cfg) = isError (buildBridges cfg.Bridges []) := by
  obtain ⟨h1, h2, h3, h4, h5⟩ := hv
  have hlen : cfg.Bridges.length ≠ 0 := by simpa using hne
  unfold validateConfig
  simp only []
  split_ifs <;> simp_all [isError] <;>
    (cases buildBridges cfg.Bridges [] <;> simp [isError])

/-- In a surrounding whose file decodes to valid settings with at least one
bridge pair, `loadConfig` fails exactly when a room is in two pairs. -/
theorem loadConfig_isError_iff (env : ConfigEnv) (file : GoString) (cfg : config)
    (hread : env.readFile = .ok file)
    (hyaml : env.unmarshalStrict file { DataDir := env.defaultHomeDir } = .ok cfg)
    (hv : validSettings cfg) (hne : cfg.Bridges ≠ []) :
    isError (loadConfig env) = true ↔ roomInTwoPairs cfg.Bridges := by
  unfold loadConfig
  rw [hread]
  simp only [hyaml]
  rw [validateConfig_isError env cfg hv hne, ← not_pairwise_iff_roomInTwoPairs]
  have := buildBridges_ok_iff cfg.Bridges []
  simp only [GoMap.get, and_self, implies_true, true_and] at this
  rw [← this]
  simp

/-- C5, confirmed: given a configuration file that decodes to valid settings
with a non-empty list of bridge pairs, `loadConfig` fails if and only if some
room identifier appears in two different bridge pairs. -/
theorem loadConfig_fails_iff_room_twice (env : ConfigEnv) (file : GoString) (cfg : config)
    (hread : env.readFile = .ok file)
    (hyaml : env.unmarshalStrict file { DataDir := env.defaultHomeDir } = .ok cfg)
    (hv : validSettings cfg) (hne : cfg.Bridges ≠ []) :
    isError (loadConfig env) = true ↔ roomInTwoPairs cfg.Bridges :=
  loadConfig_isError_iff env file cfg hread hyaml hv hne

/-- The pairs `(A,B),(A,C)` are rejected. -/
theorem loadConfig_fails_iff_room_twice_witness :
    (isError (loadConfig (ConfigEnv.ofConfig
        (sampleConfig [(lit "A", lit "B"), (lit "A", lit "C")]))) = true
      ↔ roomInTwoPairs (sampleConfig [(lit "A", lit "B"), (lit "A", lit "C")]).Bridges)
    ∧ isError (loadConfig (ConfigEnv.ofConfig
        (sampleConfig [(lit "A", lit "B"), (lit "A", lit "C")]))) = true :=
  ⟨loadConfig_fails_iff_room_twice
      (ConfigEnv.ofConfig (sampleConfig [(lit "A", lit "B"), (lit "A", lit "C")])) []
      (sampleConfig [(lit "A", lit "B"), (lit "A", lit "C")]) rfl rfl (by decide) (by decide),
    by decide⟩

/-! ## Properties: the notification loops -/

theorem enqueueRightAfterAck_append (tr ext : List NtfnEvent) (h : enqueueRightAfterAck tr)
    (hext : ∀ pm, .enqueue pm ∉ ext) : enqueueRightAfterAck (tr ++ ext) := by
  intro i pm hi
  by_cases hlt : i < tr.length
  · rw [List.getElem?_append_left hlt] at hi
    obtain ⟨k, hk, hk2⟩ := h i pm hi
    refine ⟨k, hk, ?_⟩
    rw [List.getElem?_append_left (by omega)]
    exact hk2
  · rw [List.getElem?_append_right (by omega)] at hi
    exact absurd (List.getElem?_mem hi) (hext pm)

theorem enqueueRightAfterAck_append_enqueue (tr : List NtfnEvent) (pm : GCReceivedMsg)
    (x : NtfnEvent) (h : enqueueRightAfterAck tr) (hx : ∀ q, x ≠ .enqueue q) :
    enqueueRightAfterAck (tr ++ [x, .ack pm.SequenceId none, .enqueue pm]) := by
  intro i q hi
  by_cases hlt : i < tr.length
  · rw [List.getElem?_append_left hlt] at hi
    obtain ⟨k, hk, hk2⟩ := h i q hi
    refine ⟨k, hk, ?_⟩
    rw [List.getElem?_append_left (by omega)]
    exact hk2
  · rw [List.getElem?_append_right (by omega)] at hi
    obtain ⟨d, hd⟩ : ∃ d, i = tr.length + d := ⟨i - tr.length, by omega⟩
    subst hd
    simp only [Nat.add_sub_cancel_left] at hi
    match d, hi with
    | 0, hi => simp at hi; exact absurd hi (hx q)
    | 1, hi => simp at hi
    | 2, hi =>
      simp only [List.getElem?_cons_succ, List.getElem?_cons_zero, Option.some.injEq,
        NtfnEvent.enqueue.injEq] at hi
      subst hi
      refine ⟨tr.length + 1, rfl, ?_⟩
      rw [List.getElem?_append_right (by omega)]
      simp
    | d + 3, hi => simp at hi

/-- The order of acknowledgment and enqueue holds along every run of the loop,
from any trace that has it. -/
theorem gcNtfns_enqueueRightAfterAck {S : Type} (svc : Service S) (fuel : Nat) (inner : Bool)
    (seq : Nat) (s : S) (tr : List NtfnEvent) (h : enqueueRightAfterAck tr) :
    enqueueRightAfterAck (gcNtfns svc fuel inner seq s tr).trace := by
  induction fuel generalizing inner seq s tr with
  | zero => simpa [gcNtfns] using h
  | succ fuel ih =>
    cases inner with
    | false =>
      rw [gcNtfns]
      split
      · exact enqueueRightAfterAck_append _ _ h (by simp)
      · exact ih _ _ _ _ (enqueueRightAfterAck_append _ _ h (by simp))
      · exact ih _ _ _ _ (enqueueRightAfterAck_append _ _ h (by simp))
    | true =>
      rw [gcNtfns]
      split
      · exact h
      · exact enqueueRightAfterAck_append _ _ h (by simp)
      · exact ih _ _ _ _ (enqueueRightAfterAck_append _ _ h (by simp))
      · dsimp only
        split
        · exact ih _ _ _ _ (enqueueRightAfterAck_append _ _ h (by simp))
        · exact ih _ _ _ _ (enqueueRightAfterAck_append_enqueue _ _ _ h (by simp))

theorem kxNtfns_enqueueRightAfterAck {S : Type} (svc : Service S) (fuel : Nat) (inner : Bool)
    (unackedFrom seq : Nat) (s : S) (tr : List NtfnEvent) (h : enqueueRightAfterAck tr) :
    enqueueRightAfterAck (kxNtfns svc fuel inner unackedFrom seq s tr).trace := by
  induction fuel generalizing inner unackedFrom seq s tr with
  | zero => simpa [kxNtfns] using h
  | succ fuel ih =>
    cases inner with
    | false =>
      rw [kxNtfns]
      split
      · exact enqueueRightAfterAck_append _ _ h (by simp)
      · exact ih _ _ _ _ _ (enqueueRightAfterAck_append _ _ h (by simp))
      · exact ih _ _ _ _ _ (enqueueRightAfterAck_append _ _ h (by simp))
    | true =>
      rw [kxNtfns]
      split
      · exact h
      · exact enqueueRightAfterAck_append _ _ h (by simp)
      · exact ih _ _ _ _ _ (enqueueRightAfterAck_append _ _ h (by simp))
      · dsimp only
        split
        · exact ih _ _ _ _ _ (enqueueRightAfterAck_append _ _ h (by simp))
        · exact ih _ _ _ _ _ (enqueueRightAfterAck_append_enqueue _ _ _ h (by simp))

/-- C6, as amended: in every execution of a notification loop (of the shape of
`gcNtfns` or of the shape of `kxNtfns`), against every remote side and for
every number of steps, each message handed to the output queue is handed over
directly after the acknowledgment request carrying its sequence number was
issued and succeeded (the acknowledgment comes first). -/
theorem ntfns_enqueue_follows_ack {S : Type} (svc : Service S) (fuel : Nat) (s : S) :
    enqueueRightAfterAck (gcNtfns svc fuel false 0 s []).trace
      ∧ enqueueRightAfterAck (kxNtfns svc fuel false 0 0 s []).trace :=
  ⟨gcNtfns_enqueueRightAfterAck svc fuel false 0 s [] (by intro i pm hi; simp at hi),
    kxNtfns_enqueueRightAfterAck svc fuel false 0 0 s [] (by intro i pm hi; simp at hi)⟩

/-- C6, as stated, fails: with one message of sequence number 5 on the stream,
the loop opens the stream, receives the message, acknowledges 5 and only then
puts the message on the queue. -/
theorem gcNtfns_acks_before_enqueue :
    (gcNtfns Server.service 2 false 0 ⟨[sampleMsg 5], [], []⟩ []).trace
        = [.stream 0 none, .recv (.inr (sampleMsg 5)), .ack 5 none, .enqueue (sampleMsg 5)]
      ∧ ¬ ackNeverBeforeEnqueue
          (gcNtfns Server.service 2 false 0 ⟨[sampleMsg 5], [], []⟩ []).trace := by
  have ht : (gcNtfns Server.service 2 false 0 ⟨[sampleMsg 5], [], []⟩ []).trace
      = [.stream 0 none, .recv (.inr (sampleMsg 5)), .ack 5 none, .enqueue (sampleMsg 5)] := by
    decide
  refine ⟨ht, ?_⟩
  rw [ht]
  intro h
  obtain ⟨j, pm, hj, hget, _⟩ := h 2 5 none (by decide)
  match j, hj, hget with
  | 0, _, hget => simp at hget
  | 1, _, hget => simp at hget

/-- C7, the failing run: the remote side holds the messages 1 and 2 and the
third call, the acknowledgment of message 1, fails.  The loop then asks for the
messages after 1, so that message 1 never reaches the queue: whatever the
number of steps allowed beyond five, the queue holds message 2 alone. -/
theorem gcNtfns_loses_unacked_message (n : Nat) :
    (gcNtfns Server.service 5 false 0
        ⟨[sampleMsg 1, sampleMsg 2], [], [false, false, true]⟩ []).trace
      = [.stream 0 none, .recv (.inr (sampleMsg 1)), .ack 1 (some .other), .stream 1 none,
          .recv (.inr (sampleMsg 2)), .ack 2 none, .enqueue (sampleMsg 2)]
    ∧ queued (gcNtfns Server.service (n + 5) false 0
        ⟨[sampleMsg 1, sampleMsg 2], [], [false, false, true]⟩ []).trace
      = [sampleMsg 2] :=
  ⟨by decide, rfl⟩

theorem inviteNtfns_eq_gcNtfns {S : Type} (svc : Service S) (fuel : Nat) (inner : Bool)
    (seq : Nat) (s : S) (tr : List NtfnEvent) :
    inviteNtfns svc fuel inner seq s tr = gcNtfns svc fuel inner seq s tr := by
  induction fuel generalizing inner seq s tr with
  | zero => rfl
  | succ fuel ih =>
    cases inner with
    | false => rw [inviteNtfns, gcNtfns]; simp only [ih]
    | true => rw [inviteNtfns, gcNtfns]; simp only [ih]

theorem pmNtfns_eq_gcNtfns {S : Type} (svc : Service S) (fuel : Nat) (inner : Bool)
    (seq : Nat) (s : S) (tr : List NtfnEvent) :
    pmNtfns svc fuel inner seq s tr = gcNtfns svc fuel inner seq s tr := by
  induction fuel generalizing inner seq s tr with
  | zero => rfl
  | succ fuel ih =>
    cases inner with
    | false => rw [pmNtfns, gcNtfns]; simp only [ih]
    | true => rw [pmNtfns, gcNtfns]; simp only [ih]

/-- A loop with a stream request of its own runs as `gcNtfns` does, as long as
the `UnackedFrom` of the request equals `ackReq.SequenceId`, which the loop
keeps true. -/
theorem kxNtfns_eq_gcNtfns {S : Type} (svc : Service S) (fuel : Nat) (inner : Bool)
    (seq : Nat) (s : S) (tr : List NtfnEvent) :
    kxNtfns svc fuel inner seq seq s tr = gcNtfns svc fuel inner seq s tr := by
  induction fuel generalizing inner seq s tr with
  | zero => rfl
  | succ fuel ih =>
    cases inner with
    | false => rw [kxNtfns, gcNtfns]; simp only [ih]
    | true => rw [kxNtfns, gcNtfns]; simp only [ih]

theorem postNtfns_eq_kxNtfns {S : Type} (svc : Service S) (fuel : Nat) (inner : Bool)
    (unackedFrom seq : Nat) (s : S) (tr : List NtfnEvent) :
    postNtfns svc fuel inner unackedFrom seq s tr = kxNtfns svc fuel inner unackedFrom seq s tr := by
  induction fuel generalizing inner unackedFrom seq s tr with
  | zero => rfl
  | succ fuel ih =>
    cases inner with
    | false => rw [postNtfns, kxNtfns]; simp only [ih]
    | true => rw [postNtfns, kxNtfns]; simp only [ih]

theorem postStatusNtfns_eq_kxNtfns {S : Type} (svc : Service S) (fuel : Nat) (inner : Bool)
    (unackedFrom seq : Nat) (s : S) (tr : List NtfnEvent) :
    postStatusNtfns svc fuel inner unackedFrom seq s tr
      = kxNtfns svc fuel inner unackedFrom seq s tr := by
  induction fuel generalizing inner unackedFrom seq s tr with
  | zero => rfl
  | succ fuel ih =>
    cases inner with
    | false => rw [postStatusNtfns, kxNtfns]; simp only [ih]
    | true => rw [postStatusNtfns, kxNtfns]; simp only [ih]

theorem tipProgress_eq_kxNtfns {S : Type} (svc : Service S) (fuel : Nat) (inner : Bool)
    (unackedFrom seq : Nat) (s : S) (tr : List NtfnEvent) :
    tipProgress svc fuel inner unackedFrom seq s tr
      = kxNtfns svc fuel inner unackedFrom seq s tr := by
  induction fuel generalizing inner unackedFrom seq s tr with
  | zero => rfl
  | succ fuel ih =>
    cases inner with
    | false => rw [tipProgress, kxNtfns]; simp only [ih]
    | true => rw [tipProgress, kxNtfns]; simp only [ih]

/-- C18, confirmed: against the same remote side, that is for the same outcomes
of the open, receive and acknowledge calls and the same received messages, and
for every number of steps, the seven loops make the same run: the same
sequence of opens, receives, acknowledgments, enqueues and sleeps with the same
sequence numbers, and the same return. -/
theorem ntfns_loops_same_run {S : Type} (svc : Service S) (fuel : Nat) (s : S) :
    inviteNtfns svc fuel false 0 s [] = gcNtfns svc fuel false 0 s []
      ∧ pmNtfns svc fuel false 0 s [] = gcNtfns svc fuel false 0 s []
      ∧ kxNtfns svc fuel false 0 0 s [] = gcNtfns svc fuel false 0 s []
      ∧ postNtfns svc fuel false 0 0 s [] = gcNtfns svc fuel false 0 s []
      ∧ postStatusNtfns svc fuel false 0 0 s [] = gcNtfns svc fuel false 0 s []
      ∧ tipProgress svc fuel false 0 0 s [] = gcNtfns svc fuel false 0 s [] :=
  ⟨inviteNtfns_eq_gcNtfns svc fuel false 0 s [], pmNtfns_eq_gcNtfns svc fuel false 0 s [],
    kxNtfns_eq_gcNtfns svc fuel false 0 s [],
    (postNtfns_eq_kxNtfns svc fuel false 0 0 s []).trans (kxNtfns_eq_gcNtfns svc fuel false 0 s []),
    (postStatusNtfns_eq_kxNtfns svc fuel false 0 0 s []).trans
      (kxNtfns_eq_gcNtfns svc fuel false 0 s []),
    (tipProgress_eq_kxNtfns svc fuel false 0 0 s []).trans
      (kxNtfns_eq_gcNtfns svc fuel false 0 s [])⟩

/-- An open that fails with the cancellation error ends the loop at once. -/
theorem gcNtfns_cancel_stream {S : Type} (svc : Service S) (fuel seq : Nat) (s s1 : S)
    (tr : List NtfnEvent) (h : svc.stream seq s = (some .canceled, s1)) :
    gcNtfns svc (fuel + 1) false seq s tr
      = ⟨some .canceled, seq, tr ++ [.stream seq (some .canceled)]⟩ := by
  rw [gcNtfns, h]

/-- A receive that fails with the cancellation error ends the loop at once. -/
theorem gcNtfns_cancel_recv {S : Type} (svc : Service S) (fuel seq : Nat) (s s1 : S)
    (tr : List NtfnEvent) (h : svc.recv s = some (.inl .canceled, s1)) :
    gcNtfns svc (fuel + 1) true seq s tr
      = ⟨some .canceled, seq, tr ++ [.recv (.inl .canceled)]⟩ := by
  rw [gcNtfns, h]

/-- An acknowledgment that fails, with the cancellation error or any other,
does not end the loop: control goes back to the outer loop, which opens a
stream again. -/
theorem gcNtfns_failed_ack {S : Type} (svc : Service S) (fuel seq : Nat) (s s1 s2 : S)
    (tr : List NtfnEvent) (pm : GCReceivedMsg) (e : Err)
    (hr : svc.recv s = some (.inr pm, s1)) (ha : svc.ack pm.SequenceId s1 = (some e, s2)) :
    gcNtfns svc (fuel + 1) true seq s tr
      = gcNtfns svc fuel false pm.SequenceId s2
          (tr ++ [.recv (.inr pm), .ack pm.SequenceId (some e)]) := by
  rw [gcNtfns, hr]
  simp only [ha]

/-- C11, the failing run: the stream opens, message 5 is received and its
acknowledgment fails with the cancellation error.  The loop does not return
there: it opens a stream again, from 5.  When that open is cancelled too the
loop returns only then, one remote call late; when the open succeeds the loop
receives message 6, acknowledges it, puts it on the queue and is still
running. -/
theorem gcNtfns_goes_on_after_canceled_ack :
    gcNtfns Script.service 3 false 0
        { streams := [none, some .canceled], recvs := [.inr (sampleMsg 5)],
          acks := [some .canceled] } []
      = ⟨some .canceled, 5,
          [.stream 0 none, .recv (.inr (sampleMsg 5)), .ack 5 (some .canceled),
            .stream 5 (some .canceled)]⟩
    ∧ ¬ stopsAtCancel (gcNtfns Script.service 3 false 0
        { streams := [none, some .canceled], recvs := [.inr (sampleMsg 5)],
          acks := [some .canceled] } [])
    ∧ gcNtfns Script.service 4 false 0
        { streams := [none, none], recvs := [.inr (sampleMsg 5), .inr (sampleMsg 6)],
          acks := [some .canceled, none] } []
      = ⟨none, 6,
          [.stream 0 none, .recv (.inr (sampleMsg 5)), .ack 5 (some .canceled), .stream 5 none,
            .recv (.inr (sampleMsg 6)), .ack 6 none, .enqueue (sampleMsg 6)]⟩ := by
  have ht : gcNtfns Script.service 3 false 0
        { streams := [none, some .canceled], recvs := [.inr (sampleMsg 5)],
          acks := [some .canceled] } []
      = ⟨some .canceled, 5,
          [.stream 0 none, .recv (.inr (sampleMsg 5)), .ack 5 (some .canceled),
            .stream 5 (some .canceled)]⟩ := by
    decide
  refine ⟨ht, ?_, by decide⟩
  rw [ht]
  intro h
  have := (h 2 (.ack 5 (some .canceled)) (by decide) (by decide)).1
  simp at this

/-- C12, the failing run: the remote side holds the messages 1 and 2 and the
acknowledgment of message 1 fails.  The next open, in `gcNtfns` as in
`kxNtfns`, carries `UnackedFrom` 1, although no acknowledgment has succeeded
yet. -/
theorem ntfns_open_from_unacked :
    (gcNtfns Server.service 3 false 0
        ⟨[sampleMsg 1, sampleMsg 2], [], [false, false, true]⟩ []).trace
      = [.stream 0 none, .recv (.inr (sampleMsg 1)), .ack 1 (some .other), .stream 1 none]
    ∧ (kxNtfns Server.service 3 false 0 0
        ⟨[sampleMsg 1, sampleMsg 2], [], [false, false, true]⟩ []).trace
      = [.stream 0 none, .recv (.inr (sampleMsg 1)), .ack 1 (some .other), .stream 1 none]
    ∧ lastAcked [.stream 0 none, .recv (.inr (sampleMsg 1)), .ack 1 (some .other)] 0 = 0
    ∧ ¬ opensFromLastAcked (gcNtfns Server.service 3 false 0
        ⟨[sampleMsg 1, sampleMsg 2], [], [false, false, true]⟩ []).trace
    ∧ ¬ opensFromLastAcked (kxNtfns Server.service 3 false 0 0
        ⟨[sampleMsg 1, sampleMsg 2], [], [false, false, true]⟩ []).trace := by
  have hg : (gcNtfns Server.service 3 false 0
        ⟨[sampleMsg 1, sampleMsg 2], [], [false, false, true]⟩ []).trace
      = [.stream 0 none, .recv (.inr (sampleMsg 1)), .ack 1 (some .other), .stream 1 none] := by
    decide
  have hk : (kxNtfns Server.service 3 false 0 0
        ⟨[sampleMsg 1, sampleMsg 2], [], [false, false, true]⟩ []).trace
      = [.stream 0 none, .recv (.inr (sampleMsg 1)), .ack 1 (some .other), .stream 1 none] := by
    decide
  have hbad : ¬ opensFromLastAcked
      [.stream 0 none, .recv (.inr (sampleMsg 1)), .ack 1 (some .other), .stream 1 none] := by
    intro h
    have := h 3 1 none (by decide)
    revert this
    decide
  refine ⟨hg, hk, by decide, ?_, ?_⟩
  · rw [hg]; exact hbad
  · rw [hk]; exact hbad

/-! ## Properties: the source-to-target handler -/

/-- C1, the failing run: on the message of the scenario the handler uploads the
picture, sends the image event to room `B`, and then sends a text message to
room `B` whose body is the prefix, the nick and the original text, raw tag
included: the stripped text is only tested for emptiness. -/
theorem handleGC_sends_raw_tag :
    (handleGC (sampleEnv none none) scenarioConfig scenarioMsg scenarioWorld).map (fun w => w.trace)
      = some [
          .http ⟨lit "POST", uploadURL (lit "image_r1.png"), .bytes (lit "hi")⟩,
          .http ⟨lit "PUT", roomSendURL (lit "B") (lit "tx1"),
            .roomMsg { Body := lit "image_r1.png", MsgType := lit "m.image",
                       URL := lit "mxc://decred.org/abc",
                       Info := some ⟨1, 1, 2, lit "image/png"⟩ }⟩,
          .http ⟨lit "PUT", roomSendURL (lit "B") (lit "tx2"),
            .roomMsg { Body := lit "[br] <alice> hello --embed[type=image/png,data=aGk=]--",
                       MsgType := lit "m.text" }⟩] := by
  decide

/-! ## Properties: the sync loop -/

theorem noWrite_nil : noWrite [] := by
  intro e he; simp at he

theorem Extends.refl (w : World) : Extends w w := ⟨[], by simp, noWrite_nil⟩

theorem Extends.trans {w1 w2 w3 : World} (h12 : Extends w1 w2) (h23 : Extends w2 w3) :
    Extends w1 w3 := by
  obtain ⟨e1, h1, n1⟩ := h12
  obtain ⟨e2, h2, n2⟩ := h23
  refine ⟨e1 ++ e2, by rw [h2, h1, List.append_assoc], ?_⟩
  intro e he
  rcases List.mem_append.1 he with h | h
  · exact n1 e h
  · exact n2 e h

theorem Extends_doHttp (w : World) (req : Request) : Extends w (w.doHttp req).2 :=
  ⟨[.http req], rfl, by intro e he; simp at he; subst he; intro p c; simp⟩

theorem Extends_send (w : World) (msg : mtrxMsg) : Extends w (w.send msg) :=
  ⟨[.chanSend msg], rfl, by intro e he; simp at he; subst he; intro p c; simp⟩

theorem Extends_doSleep (w : World) (n : Nat) : Extends w (w.doSleep n) :=
  ⟨[.sleep n], rfl, by intro e he; simp at he; subst he; intro p c; simp⟩

theorem Extends_ctxErr (w : World) : Extends w w.ctxErr.2 := ⟨[], by simp [World.ctxErr], noWrite_nil⟩

theorem Extends_of_doHttp {w w1 : World} {req : Request} {r : HttpResult}
    (h : w.doHttp req = (r, w1)) : Extends w w1 := by
  have := Extends_doHttp w req
  rw [h] at this
  exact this

theorem SendReadReceipt_extends (env : Env) (room eventID : GoString) (w : World) :
    Extends w (MatrixClient.SendReadReceipt env room eventID w) := by
  unfold MatrixClient.SendReadReceipt
  dsimp only
  split
  · exact Extends.refl w
  · exact Extends_doHttp w _

theorem getDisplayName_extends (env : Env) (m : MatrixClient) (nick : GoString) (w : World) :
    Extends w (MatrixClient.getDisplayName env m nick w).2.2
      ∧ (MatrixClient.getDisplayName env m nick w).2.1.sincePath = m.sincePath := by
  unfold MatrixClient.getDisplayName
  split
  · exact ⟨Extends.refl w, rfl⟩
  · dsimp only
    split
    · exact ⟨Extends.refl w, rfl⟩
    · split
      · rename_i h; exact ⟨Extends_of_doHttp h, rfl⟩
      · rename_i h; exact ⟨Extends_of_doHttp h, rfl⟩
      · rename_i h
        split
        · exact ⟨Extends_of_doHttp h, rfl⟩
        · split
          · exact ⟨Extends_of_doHttp h, rfl⟩
          · exact ⟨Extends_of_doHttp h, rfl⟩

theorem encodeEmbeds_extends (env : Env) (event : MsgClientEventWithoutRoomID) (w : World) :
    Extends w (MatrixClient.encodeEmbeds env event w).2 := by
  unfold MatrixClient.encodeEmbeds
  split
  · dsimp only
    split
    · exact Extends.refl w
    · split
      · exact Extends.refl w
      · split
        · rename_i h; exact Extends_of_doHttp h
        · rename_i h; exact Extends_of_doHttp h
        · rename_i h
          split
          · exact Extends_of_doHttp h
          · split
            · exact Extends_of_doHttp h
            · exact Extends_of_doHttp h
  · exact Extends.refl w

theorem HasPrefix_length (s p : GoString) (h : HasPrefix s p = true) : p.length ≤ s.length := by
  induction p generalizing s with
  | nil => simp
  | cons c cs ih =>
    cases s with
    | nil => simp [HasPrefix] at h
    | cons d ds =>
      simp only [HasPrefix, Bool.and_eq_true] at h
      have := ih ds h.2
      simp only [List.length_cons]
      omega

theorem replyRegexp_take_length (body : GoString) (n : Nat) (h : replyRegexp body = some n) :
    4 ≤ (body.take n).length := by
  unfold replyRegexp at h
  split at h
  · rename_i hp
    have hl := HasPrefix_length _ _ hp
    have h4 : (lit "> <@").length = 4 := by decide
    rw [h4] at hl
    cases hk : lazyUntil (lit ">") (body.drop 4) with
    | none => simp [hk] at h
    | some k =>
      simp only [hk, Option.map_some', Option.some.injEq] at h
      subst h
      rw [List.length_take]
      omega
  · simp at h

/-- The rewriting of a quoted reply never panics: the slice that extracts the
quoted identifier is within bounds. -/
theorem rewriteReply_total (env : Env) (m : MatrixClient) (body : GoString) (w : World) :
    ∃ b m1 w1, rewriteReply env m body w = some (b, m1, w1) ∧ Extends w w1
      ∧ m1.sincePath = m.sincePath := by
  unfold rewriteReply
  cases hr : replyRegexp body with
  | none => exact ⟨body, m, w, by simp, Extends.refl w, rfl⟩
  | some n =>
    have hlen := replyRegexp_take_length body n hr
    dsimp only
    have hne : body.take n ≠ [] := by
      intro e; rw [e] at hlen; simp at hlen
    rw [if_pos hne]
    have hs : slice (body.take n) 3 (((body.take n).length : Int) - 1)
        = some (((body.take n).drop 3).take ((((body.take n).length : Int) - 1).toNat - 3)) := by
      unfold slice
      rw [if_pos (by omega)]
      rfl
    rw [hs]
    dsimp only
    have hg := getDisplayName_extends env m
      (((body.take n).drop 3).take ((((body.take n).length : Int) - 1).toNat - 3)) w
    split
    · exact ⟨_, _, _, rfl, hg.1, hg.2⟩
    · exact ⟨_, _, _, rfl, hg.1, hg.2⟩

theorem processEvent_total (env : Env) (channel : GoString)
    (event : MsgClientEventWithoutRoomID) (m : MatrixClient) (w : World) :
    ∃ m1 w1, processEvent env channel event m w = some (m1, w1) ∧ Extends w w1
      ∧ m1.sincePath = m.sincePath := by
  unfold processEvent
  split
  · dsimp only
    have hg := getDisplayName_extends env m event.Sender w
    obtain ⟨b, m1, w1, hr, he, hp⟩ := rewriteReply_total env
      (MatrixClient.getDisplayName env m event.Sender w).2.1 event.Content.Body
      (MatrixClient.getDisplayName env m event.Sender w).2.2
    rw [hr]
    dsimp only
    have hx := encodeEmbeds_extends env
      { event with Content := { event.Content with Body := b } } w1
    split
    · rename_i h
      rw [h] at hx
      exact ⟨_, _, rfl, (hg.1.trans he).trans hx, hp.trans hg.2⟩
    · rename_i h
      rw [h] at hx
      exact ⟨_, _, rfl, ((hg.1.trans he).trans hx).trans (Extends_send _ _), hp.trans hg.2⟩
  · split
    · exact ⟨_, _, rfl, Extends.refl w, rfl⟩
    · exact ⟨_, _, rfl, Extends.refl w, rfl⟩

theorem processEvents_total (env : Env) (channel : GoString)
    (events : List MsgClientEventWithoutRoomID) (bestTS : Int) (bestEvent : GoString)
    (m : MatrixClient) (w : World) :
    ∃ be m1 w1, processEvents env channel events bestTS bestEvent m w = some (be, m1, w1)
      ∧ Extends w w1 ∧ m1.sincePath = m.sincePath := by
  induction events generalizing bestTS bestEvent m w with
  | nil => exact ⟨_, _, _, rfl, Extends.refl w, rfl⟩
  | cons event rest ih =>
    obtain ⟨m1, w1, h1, e1, p1⟩ := processEvent_total env channel event m w
    rw [processEvents, h1]
    dsimp only
    obtain ⟨be, m2, w2, h2, e2, p2⟩ := ih
      (if event.OriginServerTS > bestTS then (event.OriginServerTS, event.EventID)
        else (bestTS, bestEvent)).1
      (if event.OriginServerTS > bestTS then (event.OriginServerTS, event.EventID)
        else (bestTS, bestEvent)).2 m1 w1
    exact ⟨be, m2, w2, h2, e1.trans e2, p2.trans p1⟩

theorem processRooms_total (env : Env) (rooms : List (GoString × MsgJoinedRoom))
    (m : MatrixClient) (w : World) :
    ∃ m1 w1, processRooms env rooms m w = some (m1, w1) ∧ Extends w w1
      ∧ m1.sincePath = m.sincePath := by
  induction rooms generalizing m w with
  | nil => exact ⟨_, _, rfl, Extends.refl w, rfl⟩
  | cons room rest ih =>
    obtain ⟨channel, v⟩ := room
    obtain ⟨be, m1, w1, h1, e1, p1⟩ := processEvents_total env channel v.Timeline.Events 0 [] m w
    rw [processRooms, h1]
    dsimp only
    have hr : Extends w1
        (if be ≠ [] then MatrixClient.SendReadReceipt env channel be w1 else w1) := by
      split
      · exact SendReadReceipt_extends env channel be w1
      · exact Extends.refl w1
    obtain ⟨m2, w2, h2, e2, p2⟩ := ih m1
      (if be ≠ [] then MatrixClient.SendReadReceipt env channel be w1 else w1)
    exact ⟨m2, w2, h2, (e1.trans hr).trans e2, p2.trans p1⟩

/-- The loop over the rooms of a reply: it never panics, it writes no file, it
keeps the path of the cursor file, and it reaches its end exactly when every
`join` entry decodes (otherwise `Sync` returns the decoding error). -/
theorem processReply_spec (env : Env) (rooms : List (GoString × GoString)) (m : MatrixClient)
    (w : World) :
    Extends w (processReply env rooms m w).2.2
      ∧ (processReply env rooms m w).2.1.sincePath = m.sincePath
      ∧ (if rooms.all fun kv => kv.1 ≠ lit "join" ∨ (env.unmarshalJoined kv.2).isSome
          then (processReply env rooms m w).1 = .next
          else (processReply env rooms m w).1 = .ret) := by
  induction rooms generalizing m w with
  | nil => exact ⟨Extends.refl w, rfl, by simp [processReply]⟩
  | cons kv rest ih =>
    obtain ⟨key, v⟩ := kv
    rw [processReply]
    by_cases hk : key = lit "join"
    · rw [if_pos hk]
      cases hj : env.unmarshalJoined v with
      | none =>
        dsimp only
        exact ⟨Extends.refl w, rfl, by simp [hk, hj]⟩
      | some joined =>
        dsimp only
        obtain ⟨m1, w1, h1, e1, p1⟩ := processRooms_total env joined m w
        rw [h1]
        dsimp only
        obtain ⟨e2, p2, h2⟩ := ih m1 w1
        refine ⟨e1.trans e2, p2.trans p1, ?_⟩
        have hd : decide ((key, v).1 ≠ lit "join" ∨ (env.unmarshalJoined (key, v).2).isSome)
            = true := by simp [hj]
        rw [List.all_cons, hd, Bool.true_and]
        exact h2
    · rw [if_neg hk]
      obtain ⟨e2, p2, h2⟩ := ih m w
      refine ⟨e2, p2, ?_⟩
      have hd : decide ((key, v).1 ≠ lit "join" ∨ (env.unmarshalJoined (key, v).2).isSome)
          = true := by simp [hk]
      rw [List.all_cons, hd, Bool.true_and]
      exact h2

theorem noWrite_append_singleton (pre : List Effect) (e : Effect) (h : noWrite pre)
    (he : ∀ path content, e ≠ Effect.writeFile path content) : noWrite (pre ++ [e]) := by
  intro x hx
  rcases List.mem_append.1 hx with h1 | h1
  · exact h x h1
  · simp only [List.mem_singleton] at h1
    subst h1
    exact he

theorem noWrite_cons (e : Effect) (ext : List Effect)
    (he : ∀ path content, e ≠ Effect.writeFile path content) (h : noWrite ext) :
    noWrite (e :: ext) := by
  intro x hx
  rcases List.mem_cons.1 hx with h1 | h1
  · subst h1; exact he
  · exact h x h1

/-- One turn of the loop of `Sync`, in full: what it adds to the trace, the
cursor it leaves, and the request it starts with. -/
theorem syncIteration_spec (env : Env) (st : SyncState) :
    (∃ ext, (syncIteration env st).2.w.trace = st.w.trace ++ ext
      ∧ match pollDecodes env st with
        | some reply =>
          ∃ pre, ext = pre ++ [.writeFile st.m.sincePath (env.marshalString reply.NextBatch)]
            ∧ noWrite pre
        | none => noWrite ext)
    ∧ ((syncIteration env st).1 = .next → (syncIteration env st).2.since = nextCursor env st)
    ∧ (st.w.ctxDone.headD false = false → env.validURL (syncURL st.since) = true →
        ∃ rest, (syncIteration env st).2.w.trace
          = st.w.trace ++ .http ⟨lit "GET", syncURL st.since, .empty⟩ :: rest) := by
  unfold syncIteration pollDecodes nextCursor pollDecodes
  simp only [World.ctxErr, World.doHttp]
  cases hc : st.w.ctxDone.headD false with
  | true =>
    simp only [if_true]
    exact ⟨⟨[], by simp, noWrite_nil⟩, by simp, by simp⟩
  | false =>
    simp only [Bool.false_eq_true, if_false]
    cases hv : env.validURL (syncURL st.since) with
    | false =>
      simp only [Bool.not_false, if_true]
      exact ⟨⟨[.sleep 2], rfl, noWrite_cons _ _ (by simp) noWrite_nil⟩, by simp, by simp⟩
    | true =>
      simp only [Bool.not_true, Bool.false_eq_true, if_false]
      cases hh : st.w.http.headD .err with
      | err =>
        simp only []
        exact ⟨⟨[.http ⟨lit "GET", syncURL st.since, .empty⟩, .sleep 2],
            by simp [World.doSleep],
            noWrite_cons _ _ (by simp) (noWrite_cons _ _ (by simp) noWrite_nil)⟩,
          by simp, fun _ _ => ⟨[.sleep 2], by simp [World.doSleep]⟩⟩
      | resp status body =>
        cases body with
        | none =>
          simp only []
          exact ⟨⟨[.http ⟨lit "GET", syncURL st.since, .empty⟩], rfl,
              noWrite_cons _ _ (by simp) noWrite_nil⟩,
            by simp, fun _ _ => ⟨[], rfl⟩⟩
        | some b =>
          simp only []
          by_cases hs : status = 200
          · subst hs
            simp only [ne_eq, not_true_eq_false, if_false]
            cases hu : env.unmarshalSync b with
            | none =>
              simp only []
              exact ⟨⟨[.http ⟨lit "GET", syncURL st.since, .empty⟩], rfl,
                  noWrite_cons _ _ (by simp) noWrite_nil⟩,
                by simp, fun _ _ => ⟨[], rfl⟩⟩
            | some reply =>
              simp only []
              have key := processReply_spec env reply.Rooms st.m
                { st.w with
                  http := st.w.http.tail
                  ctxDone := st.w.ctxDone.tail
                  trace := st.w.trace ++ [.http ⟨lit "GET", syncURL st.since, .empty⟩] }
              obtain ⟨⟨ext1, ht1, hn1⟩, hpath, hres⟩ := key
              rcases hpr : processReply env reply.Rooms st.m
                { st.w with
                  http := st.w.http.tail
                  ctxDone := st.w.ctxDone.tail
                  trace := st.w.trace ++ [.http ⟨lit "GET", syncURL st.since, .empty⟩] }
                with ⟨r, m1, w2⟩
              rw [hpr] at ht1 hpath hres
              simp only at ht1 hpath hres
              have hreq : ∀ path content,
                  (Effect.http ⟨lit "GET", syncURL st.since, .empty⟩) ≠ .writeFile path content := by
                simp
              cases hall : reply.Rooms.all
                  fun kv => decide (kv.1 ≠ lit "join" ∨ (env.unmarshalJoined kv.2).isSome) with
              | true =>
                rw [hall] at hres
                simp only [if_true] at hres
                subst hres
                simp only [World.doWrite, hpath]
                simp only [ne_eq] at hall
                simp only [hall, if_true]
                cases hwo : w2.writeOk.headD true with
                | true =>
                  simp only [ht1]
                  refine ⟨⟨_ :: ext1 ++ [_], by simp, _ :: ext1, rfl, noWrite_cons _ _ hreq hn1⟩,
                    fun _ => rfl, fun _ _ =>
                      ⟨ext1 ++ [.writeFile st.m.sincePath (env.marshalString reply.NextBatch)],
                        by simp⟩⟩
                | false =>
                  simp only [ht1]
                  refine ⟨⟨_ :: ext1 ++ [_], by simp, _ :: ext1, rfl, noWrite_cons _ _ hreq hn1⟩,
                    by simp, fun _ _ =>
                      ⟨ext1 ++ [.writeFile st.m.sincePath (env.marshalString reply.NextBatch)],
                        by simp⟩⟩
              | false =>
                rw [hall] at hres
                simp only [Bool.false_eq_true, if_false] at hres
                subst hres
                simp only [ne_eq] at hall
                simp only [hall, Bool.false_eq_true, if_false, ht1]
                refine ⟨⟨_ :: ext1, by simp, noWrite_cons _ _ hreq hn1⟩,
                  by simp, fun _ _ => ⟨ext1, by simp⟩⟩
          · simp only [ne_eq, hs, not_false_eq_true, if_true]
            exact ⟨⟨[.http ⟨lit "GET", syncURL st.since, .empty⟩, .sleep 5],
                by simp [World.doSleep],
                noWrite_cons _ _ (by simp) (noWrite_cons _ _ (by simp) noWrite_nil)⟩,
              by simp, fun _ _ => ⟨[.sleep 5], by simp [World.doSleep]⟩⟩

/-- Once the loop has ended, more turns change nothing. -/
theorem syncLoop_ended (env : Env) (k : Nat) (st : SyncState) (r : IterResult)
    (h : (syncLoop env k st).1 = some r) : syncLoop env (k + 1) st = syncLoop env k st := by
  induction k generalizing st with
  | zero => cases h
  | succ k ih =>
    have e1 : syncLoop env (k + 1) st
        = match syncIteration env st with
          | (.next, st1) => syncLoop env k st1
          | (r, st1) => (some r, st1) := by rw [syncLoop]
    have e2 : syncLoop env (k + 1 + 1) st
        = match syncIteration env st with
          | (.next, st1) => syncLoop env (k + 1) st1
          | (r, st1) => (some r, st1) := by rw [syncLoop]
    rcases hit : syncIteration env st with ⟨r0, st1⟩
    rw [hit] at e1 e2
    cases r0 with
    | next =>
      simp only [] at e1 e2
      rw [e1] at h ⊢
      rw [e2]
      exact ih st1 h
    | ret =>
      simp only [] at e1 e2
      rw [e1, e2]
    | panicked =>
      simp only [] at e1 e2
      rw [e1, e2]

/-- While the loop is running after `k` turns, turn `k + 1` is one turn of the
loop body in the state reached: the loop goes on when the turn ends with
`continue` or at the end of the body, and ends with the turn otherwise. -/
theorem syncLoop_step (env : Env) (k : Nat) (st : SyncState)
    (h : (syncLoop env k st).1 = none) :
    (syncLoop env (k + 1) st).2 = (syncIteration env (syncLoop env k st).2).2
      ∧ (syncLoop env (k + 1) st).1
          = if (syncIteration env (syncLoop env k st).2).1 = .next then none
            else some (syncIteration env (syncLoop env k st).2).1 := by
  induction k generalizing st with
  | zero =>
    rw [syncLoop]
    rcases hit : syncIteration env st with ⟨r0, st1⟩
    cases r0 <;> simp [syncLoop, hit]
  | succ k ih =>
    have e1 : syncLoop env (k + 1) st
        = match syncIteration env st with
          | (.next, st1) => syncLoop env k st1
          | (r, st1) => (some r, st1) := by rw [syncLoop]
    have e2 : syncLoop env (k + 1 + 1) st
        = match syncIteration env st with
          | (.next, st1) => syncLoop env (k + 1) st1
          | (r, st1) => (some r, st1) := by rw [syncLoop]
    rcases hit : syncIteration env st with ⟨r0, st1⟩
    rw [hit] at e1 e2
    cases r0 with
    | next =>
      simp only [] at e1 e2
      rw [e1] at h ⊢
      rw [e2]
      exact ih st1 h
    | ret =>
      simp only [] at e1
      rw [e1] at h
      cases h
    | panicked =>
      simp only [] at e1
      rw [e1] at h
      cases h

/-- A loop that is running after `k + 1` turns was running after `k` turns. -/
theorem syncLoop_running_prev (env : Env) (k : Nat) (st : SyncState)
    (h : (syncLoop env (k + 1) st).1 = none) : (syncLoop env k st).1 = none := by
  cases hk : (syncLoop env k st).1 with
  | none => rfl
  | some r =>
    rw [syncLoop_ended env k st r hk, hk] at h
    cases h

/-- While the loop is running, its cursor is the one of the rule. -/
theorem syncLoop_cursor (env : Env) (k : Nat) (st : SyncState)
    (h : (syncLoop env k st).1 = none) :
    (syncLoop env k st).2.since = cursorByRule env st k := by
  induction k with
  | zero => rfl
  | succ k ih =>
    have hp := syncLoop_running_prev env k st h
    obtain ⟨s1, s2⟩ := syncLoop_step env k st hp
    rw [s2] at h
    have hn : (syncIteration env (syncLoop env k st).2).1 = .next := by
      by_contra hc
      rw [if_neg hc] at h
      cases h
    rw [s1, (syncIteration_spec env _).2.1 hn, nextCursor, cursorByRule, ih hp]

/-- The request of turn `k + 1` is the sync request for the cursor in force. -/
theorem syncLoop_request (env : Env) (k : Nat) (st : SyncState)
    (h : (syncLoop env k st).1 = none)
    (hctx : (syncLoop env k st).2.w.ctxDone.headD false = false)
    (hurl : env.validURL (syncURL (syncLoop env k st).2.since) = true) :
    ∃ rest, (syncLoop env (k + 1) st).2.w.trace
      = (syncLoop env k st).2.w.trace
        ++ .http ⟨lit "GET", syncURL (syncLoop env k st).2.since, .empty⟩ :: rest := by
  rw [(syncLoop_step env k st h).1]
  exact (syncIteration_spec env _).2.2 hctx hurl

/-- A turn on the sample state: the poll with the cursor `s1`, the lookup of the
sender's name, the message on the output channel, the read receipt, and last
the write of the new cursor `s2`. -/
theorem syncIteration_sample :
    (syncIteration (sampleEnv (some sampleReply) (some sampleJoined)) sampleSyncState).2.w.trace
      = [.http ⟨lit "GET",
            lit "https://matrix.decred.org:8448/_matrix/client/v3/sync?timeout=30000&since=s1",
            .empty⟩,
          .http ⟨lit "GET",
            lit "https://matrix.decred.org:8448/_matrix/client/v3/profile/@carol:decred.org/displayname",
            .empty⟩,
          .chanSend ⟨networkMatrix, lit "Carol", lit "hi", lit "B"⟩,
          .http ⟨lit "POST",
            lit "https://matrix.decred.org:8448/_matrix/client/r0/rooms/B/read_markers",
            .readReceipt (lit "$e1")⟩,
          .writeFile (lit "since.json") (lit "s2")] := by
  decide

/-- A turn that fails in a way that is retried: the loop goes on, the cursor
stays, and the turn has made the request (if it could be built) and the sleep. -/
theorem syncIteration_transient (env : Env) (st : SyncState) (effs : List Effect)
    (h : transientFailure env st = some effs) :
    (syncIteration env st).1 = .next ∧ (syncIteration env st).2.since = st.since
      ∧ (syncIteration env st).2.w.trace = st.w.trace ++ effs := by
  unfold transientFailure at h
  unfold syncIteration
  simp only [World.ctxErr, World.doHttp]
  cases hc : st.w.ctxDone.headD false with
  | true => rw [hc] at h; simp at h
  | false =>
    rw [hc] at h
    simp only [Bool.false_eq_true, if_false] at h ⊢
    cases hv : env.validURL (syncURL st.since) with
    | false =>
      rw [hv] at h
      simp only [if_true, Option.some.injEq] at h
      subst h
      simp [World.doSleep]
    | true =>
      rw [hv] at h
      simp only [Bool.true_eq_false, if_false, Bool.not_true, Bool.false_eq_true] at h ⊢
      cases hh : st.w.http.headD .err with
      | err =>
        rw [hh] at h
        simp only [Option.some.injEq] at h
        subst h
        simp [World.doSleep]
      | resp status body =>
        rw [hh] at h
        cases body with
        | none => simp at h
        | some b =>
          simp only [] at h ⊢
          by_cases hs : status ≠ 200
          · rw [if_pos hs] at h ⊢
            simp only [Option.some.injEq] at h
            subst h
            simp [World.doSleep]
          · rw [if_neg hs] at h
            cases h

theorem Sync_loaded (env : Env) (m : MatrixClient) (b c : GoString) (w : World) (k : Nat)
    (h : env.unmarshalString b = some c) :
    MatrixClient.Sync env m (.ok b) w k = syncLoop env k ⟨m, c, w⟩ := by
  simp [MatrixClient.Sync, loadSince, h]

theorem syncURL_nonempty (c : GoString) (hc : c ≠ []) :
    syncURL c
      = lit "https://matrix.decred.org:8448/_matrix/client/v3/sync?timeout=30000&since=" ++ c := by
  simp only [syncURL, hc, ne_eq, not_false_eq_true, if_true]
  rw [← List.append_assoc]
  rfl

theorem Sync_run (env : Env) (m : MatrixClient) (b c : GoString) (w : World)
    (hload : env.unmarshalString b = some c) (hc : c ≠ []) :
    (w.ctxDone.headD false = false → env.validURL (syncURL c) = true →
      ∃ rest, (MatrixClient.Sync env m (.ok b) w 1).2.w.trace
        = w.trace ++ .http ⟨lit "GET",
            lit "https://matrix.decred.org:8448/_matrix/client/v3/sync?timeout=30000&since=" ++ c,
            .empty⟩ :: rest)
    ∧ (∀ k, (MatrixClient.Sync env m (.ok b) w k).1 = none →
        (MatrixClient.Sync env m (.ok b) w k).2.since = cursorByRule env ⟨m, c, w⟩ k
        ∧ ((MatrixClient.Sync env m (.ok b) w k).2.w.ctxDone.headD false = false →
            env.validURL (syncURL (cursorByRule env ⟨m, c, w⟩ k)) = true →
            ∃ rest, (MatrixClient.Sync env m (.ok b) w (k + 1)).2.w.trace
              = (MatrixClient.Sync env m (.ok b) w k).2.w.trace
                ++ .http ⟨lit "GET", syncURL (cursorByRule env ⟨m, c, w⟩ k), .empty⟩ :: rest)
        ∧ (∀ effs, transientFailure env (MatrixClient.Sync env m (.ok b) w k).2 = some effs →
            (MatrixClient.Sync env m (.ok b) w (k + 1)).1 = none
            ∧ (MatrixClient.Sync env m (.ok b) w (k + 1)).2.since
                = (MatrixClient.Sync env m (.ok b) w k).2.since
            ∧ (MatrixClient.Sync env m (.ok b) w (k + 1)).2.w.trace
                = (MatrixClient.Sync env m (.ok b) w k).2.w.trace ++ effs))
    ∧ (∀ c1 : GoString, c1 ≠ [] →
        syncURL c1
          = lit "https://matrix.decred.org:8448/_matrix/client/v3/sync?timeout=30000&since="
            ++ c1) := by
  refine ⟨?_, ?_, syncURL_nonempty⟩
  · intro hctx hurl
    rw [Sync_loaded env m b c w 1 hload, ← syncURL_nonempty c hc]
    exact syncLoop_request env 0 ⟨m, c, w⟩ rfl hctx hurl
  · intro k
    rw [Sync_loaded env m b c w k hload, Sync_loaded env m b c w (k + 1) hload]
    intro hk
    have hcur := syncLoop_cursor env k ⟨m, c, w⟩ hk
    refine ⟨hcur, ?_, ?_⟩
    · intro hctx hurl
      rw [← hcur] at hurl ⊢
      exact syncLoop_request env k ⟨m, c, w⟩ hk hctx hurl
    · intro effs he
      obtain ⟨s1, s2⟩ := syncLoop_step env k ⟨m, c, w⟩ hk
      obtain ⟨t1, t2, t3⟩ := syncIteration_transient env _ effs he
      rw [s1, s2, if_pos t1]
      exact ⟨rfl, t2, t3⟩

/-- C9, confirmed: with a non-empty cursor `c` decoded from the cursor file, the
first request of `Sync` is the sync request with `since=c`.  As long as the
loop is running after `k` turns, its cursor is the `next_batch` of the reply of
the most recent turn whose poll succeeded and decoded, `c` when there is none,
and turn `k + 1` starts with the sync request for that cursor.  A turn that
fails in a way that is retried (the request cannot be built, the transport
fails, the status is not 200) makes its request and its sleep, leaves the
cursor as it was, and the loop goes on, so the next request carries the same
cursor. -/
theorem sync_requests_carry_cursor (env : Env) (m : MatrixClient) (b c : GoString) (w : World)
    (hload : env.unmarshalString b = some c) (hc : c ≠ []) :
    (w.ctxDone.headD false = false → env.validURL (syncURL c) = true →
      ∃ rest, (MatrixClient.Sync env m (.ok b) w 1).2.w.trace
        = w.trace ++ .http ⟨lit "GET",
            lit "https://matrix.decred.org:8448/_matrix/client/v3/sync?timeout=30000&since=" ++ c,
            .empty⟩ :: rest)
    ∧ (∀ k, (MatrixClient.Sync env m (.ok b) w k).1 = none →
        (MatrixClient.Sync env m (.ok b) w k).2.since = cursorByRule env ⟨m, c, w⟩ k
        ∧ ((MatrixClient.Sync env m (.ok b) w k).2.w.ctxDone.headD false = false →
            env.validURL (syncURL (cursorByRule env ⟨m, c, w⟩ k)) = true →
            ∃ rest, (MatrixClient.Sync env m (.ok b) w (k + 1)).2.w.trace
              = (MatrixClient.Sync env m (.ok b) w k).2.w.trace
                ++ .http ⟨lit "GET", syncURL (cursorByRule env ⟨m, c, w⟩ k), .empty⟩ :: rest)
        ∧ (∀ effs, transientFailure env (MatrixClient.Sync env m (.ok b) w k).2 = some effs →
            (MatrixClient.Sync env m (.ok b) w (k + 1)).1 = none
            ∧ (MatrixClient.Sync env m (.ok b) w (k + 1)).2.since
                = (MatrixClient.Sync env m (.ok b) w k).2.since
            ∧ (MatrixClient.Sync env m (.ok b) w (k + 1)).2.w.trace
                = (MatrixClient.Sync env m (.ok b) w k).2.w.trace ++ effs))
    ∧ (∀ c1 : GoString, c1 ≠ [] →
        syncURL c1
          = lit "https://matrix.decred.org:8448/_matrix/client/v3/sync?timeout=30000&since="
            ++ c1) :=
  Sync_run env m b c w hload hc

set_option maxRecDepth 100000 in
/-- Four turns from the cursor `s1`: the first poll fails in transport and is
retried with `since=s1`; the second is processed and leaves the cursor `s2`;
the third, with `since=s2`, is answered with status 503 and is retried with
`since=s2`. -/
theorem sync_requests_carry_cursor_witness :
    (sampleEnv (some sampleReply) (some sampleJoined)).unmarshalString (lit "s1")
        = some (lit "s1")
    ∧ lit "s1" ≠ []
    ∧ ((MatrixClient.Sync (sampleEnv (some sampleReply) (some sampleJoined)) sampleSyncState.m
          (.ok (lit "s1")) retryWorld 1).1 = none
      ∧ (MatrixClient.Sync (sampleEnv (some sampleReply) (some sampleJoined)) sampleSyncState.m
          (.ok (lit "s1")) retryWorld 1).2.since
        = (MatrixClient.Sync (sampleEnv (some sampleReply) (some sampleJoined)) sampleSyncState.m
          (.ok (lit "s1")) retryWorld 0).2.since
      ∧ (MatrixClient.Sync (sampleEnv (some sampleReply) (some sampleJoined)) sampleSyncState.m
          (.ok (lit "s1")) retryWorld 1).2.w.trace
        = (MatrixClient.Sync (sampleEnv (some sampleReply) (some sampleJoined)) sampleSyncState.m
            (.ok (lit "s1")) retryWorld 0).2.w.trace
          ++ [.http ⟨lit "GET", syncURL (lit "s1"), .empty⟩, .sleep 2])
    ∧ (∃ rest,
        (MatrixClient.Sync (sampleEnv (some sampleReply) (some sampleJoined)) sampleSyncState.m
          (.ok (lit "s1")) retryWorld 2).2.w.trace
        = (MatrixClient.Sync (sampleEnv (some sampleReply) (some sampleJoined)) sampleSyncState.m
            (.ok (lit "s1")) retryWorld 1).2.w.trace
          ++ .http ⟨lit "GET",
              syncURL (cursorByRule (sampleEnv (some sampleReply) (some sampleJoined))
                ⟨sampleSyncState.m, lit "s1", retryWorld⟩ 1), .empty⟩ :: rest)
    ∧ cursorByRule (sampleEnv (some sampleReply) (some sampleJoined))
        ⟨sampleSyncState.m, lit "s1", retryWorld⟩ 1 = lit "s1"
    ∧ cursorByRule (sampleEnv (some sampleReply) (some sampleJoined))
        ⟨sampleSyncState.m, lit "s1", retryWorld⟩ 2 = lit "s2"
    ∧ (MatrixClient.Sync (sampleEnv (some sampleReply) (some sampleJoined)) sampleSyncState.m
        (.ok (lit "s1")) retryWorld 4).2.w.trace
      = [.http ⟨lit "GET",
            lit "https://matrix.decred.org:8448/_matrix/client/v3/sync?timeout=30000&since=s1",
            .empty⟩,
          .sleep 2,
          .http ⟨lit "GET",
            lit "https://matrix.decred.org:8448/_matrix/client/v3/sync?timeout=30000&since=s1",
            .empty⟩,
          .http ⟨lit "GET",
            lit "https://matrix.decred.org:8448/_matrix/client/v3/profile/@carol:decred.org/displayname",
            .empty⟩,
          .chanSend ⟨networkMatrix, lit "Carol", lit "hi", lit "B"⟩,
          .http ⟨lit "POST",
            lit "https://matrix.decred.org:8448/_matrix/client/r0/rooms/B/read_markers",
            .readReceipt (lit "$e1")⟩,
          .writeFile (lit "since.json") (lit "s2"),
          .http ⟨lit "GET",
            lit "https://matrix.decred.org:8448/_matrix/client/v3/sync?timeout=30000&since=s2",
            .empty⟩,
          .sleep 5,
          .http ⟨lit "GET",
            lit "https://matrix.decred.org:8448/_matrix/client/v3/sync?timeout=30000&since=s2",
            .empty⟩,
          .sleep 2] :=
  ⟨rfl, by decide,
    ((sync_requests_carry_cursor (sampleEnv (some sampleReply) (some sampleJoined))
      sampleSyncState.m (lit "s1") (lit "s1") retryWorld rfl (by decide)).2.1 0
        (by decide)).2.2 _ (by decide),
    ((sync_requests_carry_cursor (sampleEnv (some sampleReply) (some sampleJoined))
      sampleSyncState.m (lit "s1") (lit "s1") retryWorld rfl (by decide)).2.1 1
        (by decide)).2.1 (by decide) (by decide),
    by decide, by decide, by decide⟩

/-! ## Properties: messages without a body -/

theorem handleGC_nil (env : Env) (cfg : config) (pm : GCReceivedMsg) (w : World)
    (h : pm.Msg = none) : handleGC env cfg pm w = some w := by
  simp only [handleGC, h]

theorem handleGC_empty (env : Env) (cfg : config) (pm : GCReceivedMsg) (w : World)
    (h : pm.Msg = some []) :
    handleGC env cfg pm w
      = if findRoom cfg pm.GcAlias = [] then some w
        else (MatrixClient.SendMessage env (findRoom cfg pm.GcAlias)
          (lit "[br] <" ++ env.escapeNick pm.Nick ++ lit ">") w).map fun r => r.2 := by
  simp only [handleGC, h, replaceEmbeds, ReplaceAllStringFunc]
  split
  · rfl
  · simp

theorem handleGC_nil_or_empty_aux (env : Env) (cfg : config) (pm : GCReceivedMsg) (w : World)
    (h : pm.Msg = none ∨ pm.Msg = some []) :
    handleGC env cfg pm w
      = if pm.Msg = none ∨ findRoom cfg pm.GcAlias = [] then some w
        else (MatrixClient.SendMessage env (findRoom cfg pm.GcAlias)
          (lit "[br] <" ++ env.escapeNick pm.Nick ++ lit ">") w).map fun r => r.2 := by
  rcases h with h | h
  · rw [handleGC_nil env cfg pm w h, if_pos (Or.inl h)]
  · rw [handleGC_empty env cfg pm w h]
    have hn : pm.Msg ≠ none := by rw [h]; exact Option.some_ne_none _
    by_cases hr : findRoom cfg pm.GcAlias = []
    · rw [if_pos hr, if_pos (Or.inr hr)]
    · rw [if_neg hr, if_neg (by rintro (h1 | h1); exact hn h1; exact hr h1)]

set_option maxRecDepth 100000 in
/-- C13, counterexample: a message with the empty string as its body, from a
bridged room, is not dropped: the handler sends the text `[br] <alice>` to
the bridged room. -/
theorem handleGC_empty_body_sends :
    (handleGC (sampleEnv none none) scenarioConfig emptyBodyMsg scenarioWorld).map
        (fun w => w.trace)
      = some [.http ⟨lit "PUT", roomSendURL (lit "B") (lit "r1"),
          .roomMsg { MsgType := lit "m.text", Body := lit "[br] <alice>" }⟩] := by
  decide

/-- C13, amended: a message whose body is nil or the empty string makes no
upload.  It is dropped, the handler doing nothing at all, when the body is nil
or the room is not bridged; an empty body from a bridged room makes the one
call `SendMessage(room, "[br] <nick>")`. -/
theorem handleGC_nil_or_empty (env : Env) (cfg : config) (pm : GCReceivedMsg) (w : World)
    (h : pm.Msg = none ∨ pm.Msg = some []) :
    handleGC env cfg pm w
      = if pm.Msg = none ∨ findRoom cfg pm.GcAlias = [] then some w
        else (MatrixClient.SendMessage env (findRoom cfg pm.GcAlias)
          (lit "[br] <" ++ env.escapeNick pm.Nick ++ lit ">") w).map fun r => r.2 :=
  handleGC_nil_or_empty_aux env cfg pm w h

theorem handleGC_nil_or_empty_witness :
    (emptyBodyMsg.Msg = none ∨ emptyBodyMsg.Msg = some [])
    ∧ handleGC (sampleEnv none none) scenarioConfig emptyBodyMsg scenarioWorld
      = if emptyBodyMsg.Msg = none ∨ findRoom scenarioConfig emptyBodyMsg.GcAlias = [] then
          some scenarioWorld
        else (MatrixClient.SendMessage (sampleEnv none none)
          (findRoom scenarioConfig emptyBodyMsg.GcAlias)
          (lit "[br] <" ++ (sampleEnv none none).escapeNick emptyBodyMsg.Nick ++ lit ">")
          scenarioWorld).map fun r => r.2 :=
  ⟨Or.inr rfl, handleGC_nil_or_empty (sampleEnv none none) scenarioConfig emptyBodyMsg
    scenarioWorld (Or.inr rfl)⟩

/-! ## Properties: the bridge map -/

/-- After the bridge loop both directions of every pair are in the map, and
the rooms of no pair are as they were before. -/
theorem buildBridges_ok_get (bs : List (GoString × GoString)) (m0 m : GoMap)
    (h : buildBridges bs m0 = .ok m) :
    (∀ p ∈ bs, m.get p.1 = some p.2 ∧ m.get p.2 = some p.1)
      ∧ (∀ r, (∀ p ∈ bs, r ≠ p.1 ∧ r ≠ p.2) → m.get r = m0.get r) := by
  induction bs generalizing m0 with
  | nil =>
    simp only [buildBridges, Except.ok.injEq] at h
    subst h
    simp
  | cons p rest ih =>
    obtain ⟨a, b⟩ := p
    rw [buildBridges] at h
    by_cases ha : (m0.get a).isSome
    · rw [if_pos ha] at h; cases h
    rw [if_neg ha] at h
    by_cases hb : (m0.get b).isSome
    · rw [if_pos hb] at h; cases h
    rw [if_neg hb] at h
    obtain ⟨ih1, ih2⟩ := ih _ h
    have hok : isError (buildBridges rest ((m0.set a b).set b a)) = false := by rw [h]; rfl
    have hfresh := ((buildBridges_ok_iff rest _).1 hok).1
    have hga : ((m0.set a b).set b a).get a = some b := by
      rw [GoMap_get_set, GoMap_get_set]
      by_cases hab : b = a
      · rw [if_pos hab, hab]
      · rw [if_neg hab, if_pos rfl]
    have hgb : ((m0.set a b).set b a).get b = some a := by
      rw [GoMap_get_set, if_pos rfl]
    have hna : ∀ q ∈ rest, a ≠ q.1 ∧ a ≠ q.2 := by
      intro q hq
      obtain ⟨h1, h2⟩ := hfresh q hq
      constructor
      · intro e; rw [← e, hga] at h1; cases h1
      · intro e; rw [← e, hga] at h2; cases h2
    have hnb : ∀ q ∈ rest, b ≠ q.1 ∧ b ≠ q.2 := by
      intro q hq
      obtain ⟨h1, h2⟩ := hfresh q hq
      constructor
      · intro e; rw [← e, hgb] at h1; cases h1
      · intro e; rw [← e, hgb] at h2; cases h2
    constructor
    · intro q hq
      rcases List.mem_cons.1 hq with e | hq
      · subst e
        exact ⟨(ih2 a hna).trans hga, (ih2 b hnb).trans hgb⟩
      · exact ih1 q hq
    · intro r hr
      have h0 := hr (a, b) (List.mem_cons_self _ _)
      rw [ih2 r fun q hq => hr q (List.mem_cons_of_mem _ hq), GoMap_get_set, GoMap_get_set,
        if_neg (Ne.symm h0.2), if_neg (Ne.symm h0.1)]

theorem buildBridges_symmetric (bs : List (GoString × GoString)) (m : GoMap)
    (h : buildBridges bs [] = .ok m) : symmetricAssociation bs m := by
  obtain ⟨h1, h2⟩ := buildBridges_ok_get bs [] m h
  have hkeys : ∀ r, (m.get r).isSome = true ↔ ∃ p ∈ bs, r = p.1 ∨ r = p.2 := by
    intro r
    constructor
    · intro hs
      by_contra hc
      have hnone : m.get r = none := by
        rw [h2 r]
        · rfl
        · intro p hp
          constructor
          · intro e; exact hc ⟨p, hp, Or.inl e⟩
          · intro e; exact hc ⟨p, hp, Or.inr e⟩
      rw [hnone] at hs
      cases hs
    · rintro ⟨p, hp, e | e⟩
      · rw [e, (h1 p hp).1]; rfl
      · rw [e, (h1 p hp).2]; rfl
  refine ⟨h1, hkeys, ?_⟩
  intro r v hv
  obtain ⟨p, hp, e | e⟩ := (hkeys r).1 (by rw [hv]; rfl)
  · subst e
    rw [(h1 p hp).1] at hv
    cases hv
    exact (h1 p hp).2
  · subst e
    rw [(h1 p hp).2] at hv
    cases hv
    exact (h1 p hp).1

/-- A configuration that passes the checks holds the map that the bridge loop
builds from its pairs. -/
theorem validateConfig_ok (env : ConfigEnv) (cfg c : config)
    (h : validateConfig env cfg = .ok c) : buildBridges c.Bridges [] = .ok c.bridges := by
  unfold validateConfig at h
  simp only [] at h
  split_ifs at h <;>
  · cases hb : buildBridges cfg.Bridges [] with
    | error e => simp only [hb] at h; cases h
    | ok m => simp only [hb, Except.ok.injEq] at h; subst h; exact hb

theorem loadConfig_ok (env : ConfigEnv) (c : config) (h : loadConfig env = .ok c) :
    buildBridges c.Bridges [] = .ok c.bridges := by
  unfold loadConfig at h
  cases hr : env.readFile with
  | error e => rw [hr] at h; cases h
  | ok file =>
    rw [hr] at h
    cases hy : env.unmarshalStrict file { DataDir := env.defaultHomeDir } with
    | error e => simp only [hy] at h; cases h
    | ok cfg => simp only [hy] at h; exact validateConfig_ok env cfg c h

theorem loadConfig_symmetric (env : ConfigEnv) (c : config) (h : loadConfig env = .ok c) :
    symmetricAssociation c.Bridges c.bridges
      ∧ ∀ r, (c.bridges.get r).isSome = true → findRoom c (findRoom c r) = r := by
  have hs := buildBridges_symmetric c.Bridges c.bridges (loadConfig_ok env c h)
  refine ⟨hs, ?_⟩
  intro r hr
  obtain ⟨v, hv⟩ := Option.isSome_iff_exists.1 hr
  have hv2 := hs.2.2 r v hv
  simp only [findRoom, GoMap.getD, hv, hv2, Option.getD_some]

/-- C17, confirmed: whenever `loadConfig` succeeds, the bridge map of the
configuration it returns is a symmetric one-to-one association of the rooms of
the configured pairs: `map[a] = b` and `map[b] = a` for every pair `(a,b)`, the
keys are exactly the configured rooms, `map[map[r]] = r` for every key `r`, and
so `findRoom(findRoom(r)) = r`. -/
theorem loadConfig_map_symmetric (env : ConfigEnv) (c : config) (h : loadConfig env = .ok c) :
    symmetricAssociation c.Bridges c.bridges
      ∧ ∀ r, (c.bridges.get r).isSome = true → findRoom c (findRoom c r) = r :=
  loadConfig_symmetric env c h

/-- The pairs `(A,B)` and `(C,D)` are loaded into a symmetric map. -/
theorem loadConfig_map_symmetric_witness :
    loadConfig (ConfigEnv.ofConfig (sampleConfig [(lit "A", lit "B"), (lit "C", lit "D")]))
        = .ok loadedSample
      ∧ symmetricAssociation loadedSample.Bridges loadedSample.bridges
      ∧ ∀ r, (loadedSample.bridges.get r).isSome = true
          → findRoom loadedSample (findRoom loadedSample r) = r :=
  ⟨rfl, loadConfig_map_symmetric
    (ConfigEnv.ofConfig (sampleConfig [(lit "A", lit "B"), (lit "C", lit "D")])) loadedSample
    rfl⟩

/-! ## Properties: a poll response that does not decode -/

theorem processReply_join_fails (env : Env) (rooms : List (GoString × GoString))
    (m : MatrixClient) (w : World) (v : GoString) (hnd : (rooms.map Prod.fst).Nodup)
    (hmem : (lit "join", v) ∈ rooms) (hj : env.unmarshalJoined v = none) :
    processReply env rooms m w = (.ret, m, w) := by
  induction rooms with
  | nil => cases hmem
  | cons kv rest ih =>
    obtain ⟨key, x⟩ := kv
    rw [List.map_cons, List.nodup_cons] at hnd
    rw [processReply]
    by_cases hk : key = lit "join"
    · rw [if_pos hk]
      have hx : x = v := by
        rcases List.mem_cons.1 hmem with e | hr
        · exact (Prod.mk.inj e).2.symm
        · exact absurd (List.mem_map.2 ⟨(lit "join", v), hr, hk.symm⟩) hnd.1
      rw [hx, hj]
    · rw [if_neg hk]
      rcases List.mem_cons.1 hmem with e | hr
      · exact absurd (Prod.mk.inj e).1.symm hk
      · exact ih hnd.2 hr

/-- A turn whose poll is answered with status 200 and a body that does not
decode: `Sync` returns; the turn made the poll and nothing else, and the cursor
is the one of before. -/
theorem syncIteration_decode_fails (env : Env) (st : SyncState) (b : GoString)
    (hctx : st.w.ctxDone.headD false = false) (hurl : env.validURL (syncURL st.since) = true)
    (hresp : st.w.http.headD .err = .resp 200 (some b)) (hdec : decodeFails env b) :
    (syncIteration env st).1 = .ret
      ∧ (syncIteration env st).2.since = st.since
      ∧ (syncIteration env st).2.w.trace
          = st.w.trace ++ [.http ⟨lit "GET", syncURL st.since, .empty⟩] := by
  unfold syncIteration
  simp only [World.ctxErr, World.doHttp, hctx, hurl, hresp, Bool.not_true, Bool.false_eq_true,
    if_false, ne_eq, not_true_eq_false]
  rcases hdec with h | ⟨reply, v, h, hnd, hmem, hj⟩
  · simp only [h]
    exact ⟨trivial, trivial, trivial⟩
  · simp only [h, processReply_join_fails env reply.Rooms _ _ v hnd hmem hj]
    exact ⟨trivial, trivial, trivial⟩

theorem syncLoop_decode_fails (env : Env) (st : SyncState) (b : GoString)
    (hctx : st.w.ctxDone.headD false = false) (hurl : env.validURL (syncURL st.since) = true)
    (hresp : st.w.http.headD .err = .resp 200 (some b)) (hdec : decodeFails env b) :
    (syncIteration env st).1 = .ret
      ∧ (syncIteration env st).2.since = st.since
      ∧ (syncIteration env st).2.w.trace
          = st.w.trace ++ [.http ⟨lit "GET", syncURL st.since, .empty⟩]
      ∧ ∀ fuel, syncLoop env (fuel + 1) st = (some .ret, (syncIteration env st).2) := by
  obtain ⟨h1, h2, h3⟩ := syncIteration_decode_fails env st b hctx hurl hresp hdec
  refine ⟨h1, h2, h3, ?_⟩
  intro fuel
  rw [syncLoop]
  generalize syncIteration env st = r at h1
  obtain ⟨r1, st1⟩ := r
  cases h1
  rfl

set_option maxRecDepth 100000 in
/-- C14, counterexample: with the poll answered by status 200 and a body that
does not decode as the sync reply, or whose joined rooms do not decode, `Sync`
returns in that very turn: it made the poll and nothing else, no sleep and no
second poll. -/
theorem sync_returns_on_decode_failure :
    (MatrixClient.Sync (sampleEnv none none) sampleSyncState.m (.ok (lit "s1"))
        sampleSyncState.w 5).1 = some .ret
    ∧ (MatrixClient.Sync (sampleEnv none none) sampleSyncState.m (.ok (lit "s1"))
        sampleSyncState.w 5).2.w.trace
      = [.http ⟨lit "GET",
          lit "https://matrix.decred.org:8448/_matrix/client/v3/sync?timeout=30000&since=s1",
          .empty⟩]
    ∧ (MatrixClient.Sync (sampleEnv (some sampleReply) none) sampleSyncState.m (.ok (lit "s1"))
        sampleSyncState.w 5).1 = some .ret
    ∧ (MatrixClient.Sync (sampleEnv (some sampleReply) none) sampleSyncState.m (.ok (lit "s1"))
        sampleSyncState.w 5).2.w.trace
      = [.http ⟨lit "GET",
          lit "https://matrix.decred.org:8448/_matrix/client/v3/sync?timeout=30000&since=s1",
          .empty⟩] := by
  decide

/-- C14, amended: a turn of `Sync` whose poll is answered with status 200 and a
body that fails to decode, as the sync reply or as its joined rooms, ends
`Sync`: the loop returns (the decoding error) in that turn, however many turns
it is allowed, having made the poll and nothing else (no sleep, no write of
the cursor), with the cursor unchanged. -/
theorem sync_decode_failure_is_fatal (env : Env) (st : SyncState) (b : GoString)
    (hctx : st.w.ctxDone.headD false = false) (hurl : env.validURL (syncURL st.since) = true)
    (hresp : st.w.http.headD .err = .resp 200 (some b)) (hdec : decodeFails env b) :
    (syncIteration env st).1 = .ret
      ∧ (syncIteration env st).2.since = st.since
      ∧ (syncIteration env st).2.w.trace
          = st.w.trace ++ [.http ⟨lit "GET", syncURL st.since, .empty⟩]
      ∧ ∀ fuel, syncLoop env (fuel + 1) st = (some .ret, (syncIteration env st).2) :=
  syncLoop_decode_fails env st b hctx hurl hresp hdec

/-- The joined rooms of the sample reply do not decode. -/
theorem sync_decode_failure_is_fatal_witness :
    decodeFails (sampleEnv (some sampleReply) none) (lit "sync")
    ∧ (syncIteration (sampleEnv (some sampleReply) none) sampleSyncState).1 = .ret
    ∧ (syncIteration (sampleEnv (some sampleReply) none) sampleSyncState).2.since
        = sampleSyncState.since
    ∧ (syncIteration (sampleEnv (some sampleReply) none) sampleSyncState).2.w.trace
        = sampleSyncState.w.trace
          ++ [.http ⟨lit "GET", syncURL sampleSyncState.since, .empty⟩]
    ∧ ∀ fuel, syncLoop (sampleEnv (some sampleReply) none) (fuel + 1) sampleSyncState
        = (some .ret, (syncIteration (sampleEnv (some sampleReply) none) sampleSyncState).2) :=
  have hd : decodeFails (sampleEnv (some sampleReply) none) (lit "sync") :=
    Or.inr ⟨sampleReply, lit "rooms", rfl, by decide, by decide, rfl⟩
  ⟨hd, sync_decode_failure_is_fatal (sampleEnv (some sampleReply) none) sampleSyncState
    (lit "sync") rfl rfl rfl hd⟩

/-! ## Properties: images from the target network -/

theorem String_image (filename mimeType : GoString) (content : List Byte) :
    embeddedArgs.String { filename := filename, typ := mimeType, data := some content }
      = imageTag filename mimeType content := by
  rw [String_eq_tagSegments]
  unfold imageTag tagSegments optSeg
  simp
  rfl

theorem encodeEmbeds_image_aux (env : Env) (event : MsgClientEventWithoutRoomID) (w : World)
    (content : List Byte) (himg : event.Content.MsgType = lit "m.image")
    (hpre : HasPrefix event.Content.URL (lit "mxc://decred.org/") = true)
    (hurl : env.validURL
      (lit "https://matrix.decred.org:8448/_matrix/media/r0/download/decred.org/"
        ++ event.Content.URL.drop (lit "mxc://decred.org/").length) = true)
    (hresp : w.http.headD .err = .resp 200 (some content)) :
    (MatrixClient.encodeEmbeds env event w).1
      = if content.length > 1048576 then ([], true)
        else (imageTag event.Content.Body (infoMimeType event) content, false) := by
  unfold MatrixClient.encodeEmbeds
  simp only [himg, if_true, hpre, hurl, World.doHttp, hresp, Bool.not_true, Bool.false_eq_true,
    if_false, ne_eq, not_true_eq_false]
  by_cases hl : content.length > 1048576
  · rw [if_pos (by omega), if_pos hl]
  · rw [if_neg (by omega), if_neg hl, String_image]
    rfl

theorem encodeEmbeds_other (env : Env) (event : MsgClientEventWithoutRoomID) (w : World)
    (h : event.Content.MsgType ≠ lit "m.image") :
    MatrixClient.encodeEmbeds env event w = ((event.Content.Body, false), w) := by
  unfold MatrixClient.encodeEmbeds
  rw [if_neg h]

/-- C15, confirmed: for an `m.image` event whose content URL is valid (it has
the prefix `mxc://decred.org/` and the download request can be built) and whose
download is answered with status 200 and the content `content`,
`encodeEmbeds` returns an error and the empty string when the content is longer
than 1,048,576 bytes, and otherwise, without error, the tag whose file name is
the body of the event, whose type is the MIME type of its `info` and whose data
is the base64 text of the whole content, which decodes to the content again.
For every event that is not an image it returns the body unchanged, without
error and without any effect. -/
theorem encodeEmbeds_image_or_body (env : Env) (event : MsgClientEventWithoutRoomID) (w : World)
    (content : List Byte) (himg : event.Content.MsgType = lit "m.image")
    (hpre : HasPrefix event.Content.URL (lit "mxc://decred.org/") = true)
    (hurl : env.validURL
      (lit "https://matrix.decred.org:8448/_matrix/media/r0/download/decred.org/"
        ++ event.Content.URL.drop (lit "mxc://decred.org/").length) = true)
    (hresp : w.http.headD .err = .resp 200 (some content)) :
    (MatrixClient.encodeEmbeds env event w).1
        = (if content.length > 1048576 then ([], true)
          else (imageTag event.Content.Body (infoMimeType event) content, false))
      ∧ b64Decode (b64Encode content) = some content
      ∧ ∀ (other : MsgClientEventWithoutRoomID) (w1 : World),
          other.Content.MsgType ≠ lit "m.image" →
          MatrixClient.encodeEmbeds env other w1 = ((other.Content.Body, false), w1) :=
  ⟨encodeEmbeds_image_aux env event w content himg hpre hurl hresp, b64Decode_b64Encode content,
    fun other w1 h => encodeEmbeds_other env other w1 h⟩

/-- The picture `cat.png` with the content `hi` becomes a tag. -/
theorem encodeEmbeds_image_or_body_witness :
    (MatrixClient.encodeEmbeds (sampleEnv none none) sampleImageEvent
        { http := [.resp 200 (some (lit "hi"))] }).1
        = (if (lit "hi").length > 1048576 then ([], true)
          else (imageTag sampleImageEvent.Content.Body (infoMimeType sampleImageEvent) (lit "hi"),
            false))
      ∧ b64Decode (b64Encode (lit "hi")) = some (lit "hi")
      ∧ ∀ (other : MsgClientEventWithoutRoomID) (w1 : World),
          other.Content.MsgType ≠ lit "m.image" →
          MatrixClient.encodeEmbeds (sampleEnv none none) other w1
            = ((other.Content.Body, false), w1) :=
  encodeEmbeds_image_or_body (sampleEnv none none) sampleImageEvent
    { http := [.resp 200 (some (lit "hi"))] } (lit "hi") rfl rfl rfl rfl

set_option maxRecDepth 100000 in
/-- The tag of the picture `cat.png` with the content `hi`, in full. -/
theorem encodeEmbeds_sample :
    (MatrixClient.encodeEmbeds (sampleEnv none none) sampleImageEvent
        { http := [.resp 200 (some (lit "hi"))] }).1
      = (lit "--embed[type=image/png,filename=cat.png,data=aGk=]--", false) := by
  decide

/-! ## Properties: the alt text -/

/-- The alt text is written into the tag as it is. -/
theorem String_alt_raw (a : GoString) (h : a ≠ []) :
    embeddedArgs.String { alt := a } = embedTag (lit "alt=" ++ a) := by
  rw [String_eq_tagSegments]
  unfold tagSegments optSeg
  simp [h, Join]
  rfl

set_option maxRecDepth 100000 in
/-- C16, the failing inputs: `String()` writes the alt text `%41` as `alt=%41`,
not percent-escaped, and the decoder, which unescapes, returns `A`; the alt
text `100%` is written as `alt=100%` and comes back as the placeholder of a
failed unescaping; the alt text `a,b` is written as `alt=a,b` and comes back
as `a`. -/
theorem String_alt_not_escaped :
    (({ alt := lit "%41" } : embeddedArgs).String = lit "--embed[alt=%41]--"
      ∧ (parseEmbedArgs sampleErrorText ({ alt := lit "%41" } : embeddedArgs).String).map
          (fun r => r.alt) = some (lit "A"))
    ∧ (({ alt := lit "100%" } : embeddedArgs).String = lit "--embed[alt=100%]--"
      ∧ (parseEmbedArgs sampleErrorText ({ alt := lit "100%" } : embeddedArgs).String).map
          (fun r => r.alt) = some (lit "[err processing alt: invalid URL escape]"))
    ∧ (({ alt := lit "a,b" } : embeddedArgs).String = lit "--embed[alt=a,b]--"
      ∧ (parseEmbedArgs sampleErrorText ({ alt := lit "a,b" } : embeddedArgs).String).map
          (fun r => r.alt) = some (lit "a")) := by
  decide

/-! ## Properties: the read receipt -/

theorem ExtendsNoReceipt_refl (w : World) : ExtendsNoReceipt w w :=
  ⟨[], by simp, by intro e he; cases he⟩

theorem ExtendsNoReceipt_trans {w1 w2 w3 : World} (h12 : ExtendsNoReceipt w1 w2)
    (h23 : ExtendsNoReceipt w2 w3) : ExtendsNoReceipt w1 w3 := by
  obtain ⟨e1, h1, n1⟩ := h12
  obtain ⟨e2, h2, n2⟩ := h23
  refine ⟨e1 ++ e2, by rw [h2, h1, List.append_assoc], ?_⟩
  intro e he
  rcases List.mem_append.1 he with h | h
  · exact n1 e h
  · exact n2 e h

theorem ExtendsNoReceipt_send (w : World) (msg : mtrxMsg) : ExtendsNoReceipt w (w.send msg) :=
  ⟨[.chanSend msg], rfl, by intro e he; simp at he; subst he; rfl⟩

theorem ExtendsNoReceipt_of_get {w w1 : World} {url : GoString} {r : HttpResult}
    (h : w.doHttp ⟨lit "GET", url, .empty⟩ = (r, w1)) : ExtendsNoReceipt w w1 := by
  have : ExtendsNoReceipt w (w.doHttp ⟨lit "GET", url, .empty⟩).2 :=
    ⟨[.http ⟨lit "GET", url, .empty⟩], rfl, by intro e he; simp at he; subst he; rfl⟩
  rw [h] at this
  exact this

theorem getDisplayName_noReceipt (env : Env) (m : MatrixClient) (nick : GoString) (w : World) :
    ExtendsNoReceipt w (MatrixClient.getDisplayName env m nick w).2.2 := by
  unfold MatrixClient.getDisplayName
  split
  · exact ExtendsNoReceipt_refl w
  · dsimp only
    split
    · exact ExtendsNoReceipt_refl w
    · split
      · rename_i h; exact ExtendsNoReceipt_of_get h
      · rename_i h; exact ExtendsNoReceipt_of_get h
      · rename_i h
        split
        · exact ExtendsNoReceipt_of_get h
        · split
          · exact ExtendsNoReceipt_of_get h
          · exact ExtendsNoReceipt_of_get h

theorem encodeEmbeds_noReceipt (env : Env) (event : MsgClientEventWithoutRoomID) (w : World) :
    ExtendsNoReceipt w (MatrixClient.encodeEmbeds env event w).2 := by
  unfold MatrixClient.encodeEmbeds
  split
  · dsimp only
    split
    · exact ExtendsNoReceipt_refl w
    · split
      · exact ExtendsNoReceipt_refl w
      · split
        · rename_i h; exact ExtendsNoReceipt_of_get h
        · rename_i h; exact ExtendsNoReceipt_of_get h
        · rename_i h
          split
          · exact ExtendsNoReceipt_of_get h
          · split
            · exact ExtendsNoReceipt_of_get h
            · exact ExtendsNoReceipt_of_get h
  · exact ExtendsNoReceipt_refl w

theorem rewriteReply_noReceipt (env : Env) (m : MatrixClient) (body : GoString) (w : World)
    (b : GoString) (m1 : MatrixClient) (w1 : World)
    (h : rewriteReply env m body w = some (b, m1, w1)) : ExtendsNoReceipt w w1 := by
  unfold rewriteReply at h
  dsimp only at h
  split at h
  · split at h
    · cases h
    · rename_i rawArgs hs
      have hg := getDisplayName_noReceipt env m rawArgs w
      split at h
      · cases h; exact hg
      · cases h; exact hg
  · cases h; exact ExtendsNoReceipt_refl w

theorem processEvent_noReceipt (env : Env) (channel : GoString)
    (event : MsgClientEventWithoutRoomID) (m : MatrixClient) (w : World) (m1 : MatrixClient)
    (w1 : World) (h : processEvent env channel event m w = some (m1, w1)) :
    ExtendsNoReceipt w w1 := by
  unfold processEvent at h
  split at h
  · dsimp only at h
    have hg := getDisplayName_noReceipt env m event.Sender w
    split at h
    · cases h
    · rename_i b m2 w2 hr
      have he := rewriteReply_noReceipt env _ _ _ b m2 w2 hr
      have hx := encodeEmbeds_noReceipt env
        { event with Content := { event.Content with Body := b } } w2
      split at h
      · rename_i hh
        rw [hh] at hx
        cases h
        exact ExtendsNoReceipt_trans (ExtendsNoReceipt_trans hg he) hx
      · rename_i hh
        rw [hh] at hx
        cases h
        exact ExtendsNoReceipt_trans (ExtendsNoReceipt_trans (ExtendsNoReceipt_trans hg he) hx)
          (ExtendsNoReceipt_send _ _)
  · split at h
    · cases h; exact ExtendsNoReceipt_refl w
    · cases h; exact ExtendsNoReceipt_refl w

theorem latestEvent_ne_nil (events : List MsgClientEventWithoutRoomID) (h : events ≠ []) :
    ∃ e, latestEvent events = some e := by
  cases events with
  | nil => exact absurd rfl h
  | cons a rest =>
    rw [latestEvent]
    cases latestEvent rest with
    | none => exact ⟨a, rfl⟩
    | some x =>
      dsimp only
      split
      · exact ⟨x, rfl⟩
      · exact ⟨a, rfl⟩

/-- The event of `latestEvent` stands in the timeline after events with a
smaller stamp only and before events with a stamp that is not greater. -/
theorem latestEvent_spec (events : List MsgClientEventWithoutRoomID)
    (e : MsgClientEventWithoutRoomID) (h : latestEvent events = some e) :
    ∃ pre post, events = pre ++ e :: post
      ∧ (∀ x ∈ pre, x.OriginServerTS < e.OriginServerTS)
      ∧ (∀ x ∈ post, x.OriginServerTS ≤ e.OriginServerTS) := by
  induction events generalizing e with
  | nil => cases h
  | cons a rest ih =>
    rw [latestEvent] at h
    cases hl : latestEvent rest with
    | none =>
      rw [hl] at h
      cases h
      cases rest with
      | nil => exact ⟨[], [], rfl, by simp, by simp⟩
      | cons b bs =>
        obtain ⟨y, hy⟩ := latestEvent_ne_nil (b :: bs) (by simp)
        rw [hy] at hl
        cases hl
    | some x =>
      rw [hl] at h
      dsimp only at h
      obtain ⟨pre, post, hd, hpre, hpost⟩ := ih x hl
      by_cases hx : x.OriginServerTS > a.OriginServerTS
      · rw [if_pos hx] at h
        cases h
        refine ⟨a :: pre, post, by rw [hd]; rfl, ?_, hpost⟩
        intro y hy
        rcases List.mem_cons.1 hy with e1 | h1
        · rw [e1]; exact hx
        · exact hpre y h1
      · rw [if_neg hx] at h
        cases h
        refine ⟨[], rest, rfl, by simp, ?_⟩
        intro y hy
        rw [hd] at hy
        have hle : y.OriginServerTS ≤ x.OriginServerTS := by
          rcases List.mem_append.1 hy with h1 | h1
          · exact le_of_lt (hpre y h1)
          · rcases List.mem_cons.1 h1 with e1 | h2
            · rw [e1]
            · exact hpost y h2
        omega

/-- The running best event of the loop, started with `(ts, id)`, ends as the
event of `latestEvent` when that has a greater stamp than `ts`, and as it
started otherwise. -/
theorem foldl_best_latestEvent (events : List MsgClientEventWithoutRoomID) (ts : Int)
    (id : GoString) :
    events.foldl (fun (b : Int × GoString) e =>
        if e.OriginServerTS > b.1 then (e.OriginServerTS, e.EventID) else b) (ts, id)
      = match latestEvent events with
        | some x => if x.OriginServerTS > ts then (x.OriginServerTS, x.EventID) else (ts, id)
        | none => (ts, id) := by
  induction events generalizing ts id with
  | nil => rfl
  | cons a rest ih =>
    rw [List.foldl_cons, latestEvent]
    by_cases ha : a.OriginServerTS > ts
    · rw [if_pos ha, ih]
      cases latestEvent rest with
      | none => simp only [if_pos ha]
      | some x =>
        dsimp only
        by_cases hx : x.OriginServerTS > a.OriginServerTS
        · rw [if_pos hx, if_pos hx]
          dsimp only
          rw [if_pos (by omega)]
        · rw [if_neg hx, if_neg hx]
          dsimp only
          rw [if_pos ha]
    · rw [if_neg ha, ih]
      cases latestEvent rest with
      | none => simp only [if_neg ha]
      | some x =>
        dsimp only
        by_cases hx : x.OriginServerTS > ts
        · rw [if_pos hx, if_pos (by omega)]
          dsimp only
          rw [if_pos hx]
        · rw [if_neg hx]
          by_cases hxa : x.OriginServerTS > a.OriginServerTS
          · rw [if_pos hxa]
            dsimp only
            rw [if_neg hx]
          · rw [if_neg hxa]
            dsimp only
            rw [if_neg ha]

/-- The loop over a timeline returns the identifier of the running best event,
and no effect of it is a read receipt. -/
theorem processEvents_best (env : Env) (channel : GoString)
    (events : List MsgClientEventWithoutRoomID) (bestTS : Int) (bestEvent : GoString)
    (m : MatrixClient) (w : World) :
    ∃ m1 w1, processEvents env channel events bestTS bestEvent m w
        = some ((events.foldl (fun (b : Int × GoString) e =>
            if e.OriginServerTS > b.1 then (e.OriginServerTS, e.EventID) else b)
            (bestTS, bestEvent)).2, m1, w1)
      ∧ ExtendsNoReceipt w w1 := by
  induction events generalizing bestTS bestEvent m w with
  | nil => exact ⟨m, w, rfl, ExtendsNoReceipt_refl w⟩
  | cons event rest ih =>
    obtain ⟨m1, w1, h1, _, _⟩ := processEvent_total env channel event m w
    have q1 := processEvent_noReceipt env channel event m w m1 w1 h1
    rw [processEvents, h1, List.foldl_cons]
    dsimp only
    obtain ⟨m2, w2, h2, q2⟩ := ih
      (if event.OriginServerTS > bestTS then (event.OriginServerTS, event.EventID)
        else (bestTS, bestEvent)).1
      (if event.OriginServerTS > bestTS then (event.OriginServerTS, event.EventID)
        else (bestTS, bestEvent)).2 m1 w1
    exact ⟨m2, w2, h2, ExtendsNoReceipt_trans q1 q2⟩

theorem SendReadReceipt_trace (env : Env) (room eventID : GoString) (w : World)
    (h : env.validURL (receiptURL room) = true) :
    (MatrixClient.SendReadReceipt env room eventID w).trace
      = w.trace ++ [.http ⟨lit "POST", receiptURL room, .readReceipt eventID⟩] := by
  unfold MatrixClient.SendReadReceipt
  unfold receiptURL at h
  simp only [h, Bool.not_true, Bool.false_eq_true, if_false]
  rfl

theorem processRooms_empty_timeline (env : Env) (channel : GoString) (v : MsgJoinedRoom)
    (rest : List (GoString × MsgJoinedRoom)) (m : MatrixClient) (w : World)
    (h : v.Timeline.Events = []) :
    processRooms env ((channel, v) :: rest) m w = processRooms env rest m w := by
  rw [processRooms, h, processEvents]
  simp

theorem processRooms_receipt_aux (env : Env) (channel : GoString) (v : MsgJoinedRoom)
    (rest : List (GoString × MsgJoinedRoom)) (m : MatrixClient) (w : World)
    (hne : v.Timeline.Events ≠ [])
    (hts : ∀ e ∈ v.Timeline.Events, 0 < e.OriginServerTS)
    (hid : ∀ e ∈ v.Timeline.Events, e.EventID ≠ []) :
    ∃ best pre post m1 w1 ext,
      latestEvent v.Timeline.Events = some best
      ∧ v.Timeline.Events = pre ++ best :: post
      ∧ (∀ x ∈ pre, x.OriginServerTS < best.OriginServerTS)
      ∧ (∀ x ∈ post, x.OriginServerTS ≤ best.OriginServerTS)
      ∧ processEvents env channel v.Timeline.Events 0 [] m w = some (best.EventID, m1, w1)
      ∧ w1.trace = w.trace ++ ext ∧ (∀ e ∈ ext, e.isReceipt = false)
      ∧ processRooms env ((channel, v) :: rest) m w
          = processRooms env rest m1 (MatrixClient.SendReadReceipt env channel best.EventID w1)
      ∧ (env.validURL (receiptURL channel) = true →
          (MatrixClient.SendReadReceipt env channel best.EventID w1).trace
            = w.trace ++ ext
              ++ [.http ⟨lit "POST", receiptURL channel, .readReceipt best.EventID⟩]) := by
  obtain ⟨best, hb⟩ := latestEvent_ne_nil v.Timeline.Events hne
  obtain ⟨pre, post, hd, hpre, hpost⟩ := latestEvent_spec v.Timeline.Events best hb
  have hmem : best ∈ v.Timeline.Events := by rw [hd]; simp
  obtain ⟨m1, w1, h1, ext, hext, hq⟩ := processEvents_best env channel v.Timeline.Events 0 [] m w
  rw [foldl_best_latestEvent, hb] at h1
  dsimp only at h1
  rw [if_pos (hts best hmem)] at h1
  dsimp only at h1
  refine ⟨best, pre, post, m1, w1, ext, hb, hd, hpre, hpost, h1, hext, hq, ?_, ?_⟩
  · rw [processRooms, h1]
    dsimp only
    rw [if_pos (hid best hmem)]
  · intro hv
    rw [SendReadReceipt_trace env channel best.EventID w1 hv, hext]

/-- C20, confirmed: for a joined room whose timeline is not empty and whose
events all have a positive stamp and a non-empty identifier, the loop over the
rooms first processes all events of the room, with no read receipt among the
effects, and then makes exactly one call of `SendReadReceipt`, for the event
with the greatest `origin_server_ts` of the timeline, the earliest one when
several share it; the call adds one request, the read receipt for that event,
to the trace (when the request can be built).  For an empty timeline the room
is passed over without any effect. -/
theorem sync_one_read_receipt (env : Env) (channel : GoString) (v : MsgJoinedRoom)
    (rest : List (GoString × MsgJoinedRoom)) (m : MatrixClient) (w : World)
    (hne : v.Timeline.Events ≠ [])
    (hts : ∀ e ∈ v.Timeline.Events, 0 < e.OriginServerTS)
    (hid : ∀ e ∈ v.Timeline.Events, e.EventID ≠ []) :
    (∃ best pre post m1 w1 ext,
      latestEvent v.Timeline.Events = some best
      ∧ v.Timeline.Events = pre ++ best :: post
      ∧ (∀ x ∈ pre, x.OriginServerTS < best.OriginServerTS)
      ∧ (∀ x ∈ post, x.OriginServerTS ≤ best.OriginServerTS)
      ∧ processEvents env channel v.Timeline.Events 0 [] m w = some (best.EventID, m1, w1)
      ∧ w1.trace = w.trace ++ ext ∧ (∀ e ∈ ext, e.isReceipt = false)
      ∧ processRooms env ((channel, v) :: rest) m w
          = processRooms env rest m1 (MatrixClient.SendReadReceipt env channel best.EventID w1)
      ∧ (env.validURL (receiptURL channel) = true →
          (MatrixClient.SendReadReceipt env channel best.EventID w1).trace
            = w.trace ++ ext
              ++ [.http ⟨lit "POST", receiptURL channel, .readReceipt best.EventID⟩]))
    ∧ ∀ (v0 : MsgJoinedRoom) (m0 : MatrixClient) (w0 : World), v0.Timeline.Events = [] →
        processRooms env ((channel, v0) :: rest) m0 w0 = processRooms env rest m0 w0 :=
  ⟨processRooms_receipt_aux env channel v rest m w hne hts hid,
    fun v0 m0 w0 h => processRooms_empty_timeline env channel v0 rest m0 w0 h⟩

set_option maxRecDepth 100000 in
/-- The room with the stamps 7, 9, 9: the receipt names the second event. -/
theorem sync_one_read_receipt_witness :
    (∃ best pre post m1 w1 ext,
      latestEvent sampleRoom.Timeline.Events = some best
      ∧ sampleRoom.Timeline.Events = pre ++ best :: post
      ∧ (∀ x ∈ pre, x.OriginServerTS < best.OriginServerTS)
      ∧ (∀ x ∈ post, x.OriginServerTS ≤ best.OriginServerTS)
      ∧ processEvents (sampleEnv none none) (lit "B") sampleRoom.Timeline.Events 0 []
          sampleSyncState.m {} = some (best.EventID, m1, w1)
      ∧ w1.trace = ({} : World).trace ++ ext ∧ (∀ e ∈ ext, e.isReceipt = false)
      ∧ processRooms (sampleEnv none none) ((lit "B", sampleRoom) :: []) sampleSyncState.m {}
          = processRooms (sampleEnv none none) [] m1
              (MatrixClient.SendReadReceipt (sampleEnv none none) (lit "B") best.EventID w1)
      ∧ ((sampleEnv none none).validURL (receiptURL (lit "B")) = true →
          (MatrixClient.SendReadReceipt (sampleEnv none none) (lit "B") best.EventID w1).trace
            = ({} : World).trace ++ ext
              ++ [.http ⟨lit "POST", receiptURL (lit "B"), .readReceipt best.EventID⟩]))
    ∧ ∀ (v0 : MsgJoinedRoom) (m0 : MatrixClient) (w0 : World), v0.Timeline.Events = [] →
        processRooms (sampleEnv none none) ((lit "B", v0) :: []) m0 w0
          = processRooms (sampleEnv none none) [] m0 w0 :=
  sync_one_read_receipt (sampleEnv none none) (lit "B") sampleRoom [] sampleSyncState.m {}
    (by decide) (by decide) (by decide)

set_option maxRecDepth 100000 in
/-- The room with the stamps 7, 9, 9, evaluated: one request, the read receipt
for the event `$e2`. -/
theorem processRooms_sample :
    (processRooms (sampleEnv none none) [(lit "B", sampleRoom)] sampleSyncState.m {}).map
        (fun r => r.2.trace)
      = some [.http ⟨lit "POST",
          lit "https://matrix.decred.org:8448/_matrix/client/r0/rooms/B/read_markers",
          .readReceipt (lit "$e2")⟩]
    ∧ (latestEvent sampleRoom.Timeline.Events).map (fun e => e.EventID) = some (lit "$e2") := by
  decide

/-! ## Properties: quoted replies -/

/-- A template without `$` is copied as it is. -/
theorem regexpExpand_literal (whole template : GoString) (h : byteOf '$' ∉ template) :
    regexpExpand whole template 0 = template := by
  induction template with
  | nil => rfl
  | cons c cs ih =>
    rw [regexpExpand, if_pos (fun e => h (by rw [e]; exact List.mem_cons_self _ _)),
      ih (fun hc => h (List.mem_cons_of_mem _ hc))]

/-- A body that does not begin with the pattern is left as it is. -/
theorem rewriteReply_no_match (env : Env) (m : MatrixClient) (body : GoString) (w : World)
    (h : replyRegexp body = none) : rewriteReply env m body w = some (body, m, w) := by
  unfold rewriteReply
  simp [h]

/-- A body that begins with the pattern, when the quoted identifier resolves to
a display name that is not empty, differs from the identifier and holds no
`$`: the match is replaced by `> <`, the name and `>`, the rest is kept. -/
theorem rewriteReply_literal (env : Env) (m : MatrixClient) (body : GoString) (w : World)
    (n : Nat) (hr : replyRegexp body = some n)
    (hexp : env.expand = fun template whole => regexpExpand whole template 0)
    (hne : (MatrixClient.getDisplayName env m
      (((body.take n).drop 3).take ((((body.take n).length : Int) - 1).toNat - 3)) w).1.1 ≠ [])
    (hid : (MatrixClient.getDisplayName env m
      (((body.take n).drop 3).take ((((body.take n).length : Int) - 1).toNat - 3)) w).1.1
        ≠ ((body.take n).drop 3).take ((((body.take n).length : Int) - 1).toNat - 3))
    (hd : byteOf '$' ∉ (MatrixClient.getDisplayName env m
      (((body.take n).drop 3).take ((((body.take n).length : Int) - 1).toNat - 3)) w).1.1) :
    rewriteReply env m body w
      = some (lit "> <" ++ (MatrixClient.getDisplayName env m
            (((body.take n).drop 3).take ((((body.take n).length : Int) - 1).toNat - 3)) w).1.1
          ++ lit ">" ++ body.drop (body.take n).length,
        (MatrixClient.getDisplayName env m
          (((body.take n).drop 3).take ((((body.take n).length : Int) - 1).toNat - 3)) w).2) := by
  have hlen := replyRegexp_take_length body n hr
  have hnil : body.take n ≠ [] := by
    intro e; rw [e] at hlen; simp at hlen
  have hs : slice (body.take n) 3 (((body.take n).length : Int) - 1)
      = some (((body.take n).drop 3).take ((((body.take n).length : Int) - 1).toNat - 3)) := by
    unfold slice
    rw [if_pos (by omega)]
    rfl
  have ht : byteOf '$' ∉ lit "> <" ++ (MatrixClient.getDisplayName env m
      (((body.take n).drop 3).take ((((body.take n).length : Int) - 1).toNat - 3)) w).1.1
        ++ lit ">" := by
    intro hm
    rcases List.mem_append.1 hm with h1 | h1
    · rcases List.mem_append.1 h1 with h2 | h2
      · revert h2; decide
      · exact hd h2
    · revert h1; decide
  unfold rewriteReply
  rw [hr]
  dsimp only
  rw [if_pos hnil, hs]
  dsimp only
  rw [if_pos ⟨hne, hid⟩, hexp]
  dsimp only
  rw [regexpExpand_literal _ _ ht]

set_option maxRecDepth 100000 in
/-- C19, the failing input: the body `> <@bob:decred.org> hi`, the quoted
identifier resolving to the display name `Big$Bob`.  The body put on the
output channel is `> <Big> hi`, not `> <Big$Bob> hi`: the display name is
used as a template, in which `$Bob` is a variable. -/
theorem sync_reply_name_expanded :
    (syncIteration quoteEnv quoteSyncState).2.w.trace
      = [.http ⟨lit "GET",
            lit "https://matrix.decred.org:8448/_matrix/client/v3/sync?timeout=30000&since=s1",
            .empty⟩,
          .http ⟨lit "GET",
            lit "https://matrix.decred.org:8448/_matrix/client/v3/profile/@carol:decred.org/displayname",
            .empty⟩,
          .http ⟨lit "GET",
            lit "https://matrix.decred.org:8448/_matrix/client/v3/profile/@bob:decred.org/displayname",
            .empty⟩,
          .chanSend ⟨networkMatrix, lit "Carol", lit "> <Big> hi", lit "B"⟩,
          .http ⟨lit "POST",
            lit "https://matrix.decred.org:8448/_matrix/client/r0/rooms/B/read_markers",
            .readReceipt (lit "$e1")⟩,
          .writeFile (lit "since.json") (lit "s2")]
    ∧ regexpExpand (lit "> <@bob:decred.org>") (lit "> <Big$Bob>") 0 = lit "> <Big>"
    ∧ regexpExpand (lit "> <@bob:decred.org>") (lit "> <$0>") 0 = lit "> <> <@bob:decred.org>>"
    ∧ regexpExpand (lit "> <@bob:decred.org>") (lit "> <a$$b>") 0 = lit "> <a$b>" := by
  decide

/-! ## Properties: the slice of `parseEmbedArgs` -/

theorem HasPrefix_eq_append (s p : GoString) (h : HasPrefix s p = true) :
    s = p ++ s.drop p.length := by
  induction p generalizing s with
  | nil => rfl
  | cons c cs ih =>
    cases s with
    | nil => simp [HasPrefix] at h
    | cons d ds =>
      simp only [HasPrefix, Bool.and_eq_true, beq_iff_eq] at h
      have e := ih ds h.2
      rw [h.1]
      simp only [List.length_cons, List.drop_succ_cons, List.cons_append]
      rw [← e]

/-- What the lazy `.*?` takes holds no line feed, and the closing literal
follows it. -/
theorem lazyUntil_spec (close s : GoString) (k : Nat) (h : lazyUntil close s = some k) :
    newline ∉ s.take k ∧ HasPrefix (s.drop k) close = true := by
  induction s generalizing k with
  | nil =>
    rw [lazyUntil] at h
    split at h
    · rename_i hp
      cases h
      exact ⟨by simp, hp⟩
    · cases h
  | cons c cs ih =>
    rw [lazyUntil] at h
    split at h
    · rename_i hp
      cases h
      exact ⟨by simp, hp⟩
    · split at h
      · cases h
      · rename_i hnl
        cases hk : lazyUntil close cs with
        | none => rw [hk] at h; cases h
        | some k1 =>
          rw [hk] at h
          simp only [Option.map_some', Option.some.injEq] at h
          subst h
          obtain ⟨h1, h2⟩ := ih k1 hk
          refine ⟨?_, h2⟩
          simp only [List.take_succ_cons, List.mem_cons, not_or]
          exact ⟨fun e => hnl e.symm, h1⟩

/-- Every match of the pattern is a tag: `--embed[`, an interior without line
feed, `]--`. -/
theorem embedRegexp_take (s : GoString) (n : Nat) (h : embedRegexp s = some n) :
    ∃ i, newline ∉ i ∧ s.take n = embedTag i := by
  unfold embedRegexp at h
  split at h
  · rename_i hp
    cases hk : lazyUntil (lit "]--") (s.drop 8) with
    | none => rw [hk] at h; cases h
    | some k =>
      rw [hk] at h
      simp only [Option.map_some', Option.some.injEq] at h
      subst h
      obtain ⟨hnl, hc⟩ := lazyUntil_spec _ _ k hk
      have e1 := HasPrefix_eq_append s _ hp
      have e2 := HasPrefix_eq_append _ _ hc
      have hl := HasPrefix_length _ _ hc
      have h8 : (lit "--embed[").length = 8 := by decide
      have h3 : (lit "]--").length = 3 := by decide
      rw [h8] at e1
      rw [h3, List.length_drop, List.length_drop] at hl
      have et : s.drop 8 = (s.drop 8).take k ++ (s.drop 8).drop k := (List.take_append_drop k _).symm
      refine ⟨(s.drop 8).take k, hnl, ?_⟩
      have es : s = embedTag ((s.drop 8).take k) ++ ((s.drop 8).drop k).drop (lit "]--").length := by
        unfold embedTag
        rw [List.append_assoc, List.append_assoc, ← e2, ← et]
        exact e1
      have hlen : (embedTag ((s.drop 8).take k)).length = 8 + k + 3 := by
        rw [length_embedTag, List.length_take, List.length_drop]
        omega
      have key : ∀ t r : GoString, s = t ++ r → s.take t.length = t := by
        intro t r e
        rw [e, List.take_left']
        rfl
      have hk2 := key _ _ es
      rw [hlen] at hk2
      exact hk2
  · cases h

theorem Index_embedTag (i : GoString) : Index (embedTag i) (byteOf '[') = 7 := by
  have := Index_append_sep (lit "--embed") (i ++ lit "]--") (byteOf '[') (by decide)
  simpa [embedTag] using this

theorem LastIndex_embedTag (i : GoString) :
    LastIndex (embedTag i) (byteOf ']') = 8 + i.length := by
  have := LastIndex_append_sep (lit "--embed[" ++ i) (lit "--") (byteOf ']') (by decide)
  have e : embedTag i = (lit "--embed[" ++ i) ++ byteOf ']' :: lit "--" := by
    simp [embedTag]; rfl
  rw [e, this]
  simp; rfl

theorem slice_embedTag (i : GoString) :
    slice (embedTag i) (Index (embedTag i) (byteOf '[') + 1)
      (LastIndex (embedTag i) (byteOf ']')) = some i := by
  rw [Index_embedTag, LastIndex_embedTag]
  have := slice_middle (lit "--embed[") i (lit "]--")
  have e : ((lit "--embed[").length : Int) = 8 := by decide
  rw [e] at this
  simpa [embedTag] using this

/-- The replacement is total when the callback is defined on every match. -/
theorem ReplaceAllStringFunc_total {σ : Type} (re : GoString → Option Nat)
    (repl : GoString → σ → Option (GoString × σ))
    (h : ∀ s n st, re s = some n → ∃ r, repl (s.take n) st = some r)
    (src : GoString) (skip : Nat) (st : σ) :
    ∃ out st1, ReplaceAllStringFunc re repl src skip st = some (out, st1) := by
  induction src generalizing skip st with
  | nil => exact ⟨[], st, rfl⟩
  | cons c cs ih =>
    cases skip with
    | succ k =>
      rw [ReplaceAllStringFunc]
      exact ih k st
    | zero =>
      rw [ReplaceAllStringFunc]
      cases hre : re (c :: cs) with
      | none =>
        dsimp only
        obtain ⟨out, st1, e⟩ := ih 0 st
        rw [e]
        exact ⟨_, _, rfl⟩
      | some n =>
        dsimp only
        obtain ⟨⟨r, st1⟩, hr⟩ := h (c :: cs) n st hre
        rw [hr]
        dsimp only
        obtain ⟨out, st2, e⟩ := ih (n - 1) st1
        rw [e]
        exact ⟨_, _, rfl⟩

/-- Function `replaceEmbeds` never panics. -/
theorem replaceEmbeds_total {σ : Type} (et : ErrorText) (src : GoString)
    (replF : embeddedArgs → σ → GoString × σ) (st : σ) :
    ∃ out st1, replaceEmbeds et src replF st = some (out, st1) := by
  unfold replaceEmbeds
  apply ReplaceAllStringFunc_total
  intro s n st0 hre
  obtain ⟨i, _, hi⟩ := embedRegexp_take s n hre
  rw [hi, parseEmbedArgs_embedTag]
  exact ⟨_, rfl⟩

theorem parseEmbedArgs_match (et : ErrorText) (s : GoString) (n : Nat)
    (h : embedRegexp s = some n) :
    ∃ i, newline ∉ i ∧ s.take n = embedTag i
      ∧ Index (s.take n) (byteOf '[') = 7
      ∧ LastIndex (s.take n) (byteOf ']') = 8 + i.length
      ∧ Index (s.take n) (byteOf '[') < LastIndex (s.take n) (byteOf ']')
      ∧ slice (s.take n) (Index (s.take n) (byteOf '[') + 1)
          (LastIndex (s.take n) (byteOf ']')) = some i
      ∧ parseEmbedArgs et (s.take n)
          = some ((Split i (byteOf ',')).foldl (parseArg et) {}) := by
  obtain ⟨i, hnl, hi⟩ := embedRegexp_take s n h
  refine ⟨i, hnl, hi, ?_⟩
  rw [hi]
  refine ⟨Index_embedTag i, LastIndex_embedTag i, ?_, slice_embedTag i,
    parseEmbedArgs_embedTag et i⟩
  rw [Index_embedTag, LastIndex_embedTag]
  omega

/-- C21, confirmed: every match of the embed pattern is a tag, `--embed[`, an
interior `i` without line feed, `]--`; on it `parseEmbedArgs` makes no slice out
of range: the first `[` is at index 7, the last `]` at index `8 + len(i)`, so
the first index is strictly less than the second, and the argument list it
extracts is exactly the interior.  The same holds on a tag with any interior.
Hence `replaceEmbeds` returns on every text, for every callback. -/
theorem parseEmbedArgs_slice_in_range (et : ErrorText) (s : GoString) (n : Nat)
    (h : embedRegexp s = some n) :
    (∃ i, newline ∉ i ∧ s.take n = embedTag i
      ∧ Index (s.take n) (byteOf '[') = 7
      ∧ LastIndex (s.take n) (byteOf ']') = 8 + i.length
      ∧ Index (s.take n) (byteOf '[') < LastIndex (s.take n) (byteOf ']')
      ∧ slice (s.take n) (Index (s.take n) (byteOf '[') + 1)
          (LastIndex (s.take n) (byteOf ']')) = some i
      ∧ parseEmbedArgs et (s.take n)
          = some ((Split i (byteOf ',')).foldl (parseArg et) {}))
    ∧ (∀ i : GoString,
        slice (embedTag i) (Index (embedTag i) (byteOf '[') + 1)
          (LastIndex (embedTag i) (byteOf ']')) = some i
        ∧ parseEmbedArgs et (embedTag i)
          = some ((Split i (byteOf ',')).foldl (parseArg et) {}))
    ∧ ∀ (σ : Type) (src : GoString) (replF : embeddedArgs → σ → GoString × σ) (st : σ),
        ∃ out st1, replaceEmbeds et src replF st = some (out, st1) :=
  ⟨parseEmbedArgs_match et s n h,
    fun i => ⟨slice_embedTag i, parseEmbedArgs_embedTag et i⟩,
    fun _ src replF st => replaceEmbeds_total et src replF st⟩

set_option maxRecDepth 100000 in
/-- The pattern matches the first 17 bytes of `--embed[type=a]-- tail`. -/
theorem parseEmbedArgs_slice_in_range_witness :
    embedRegexp (lit "--embed[type=a]-- tail") = some 17
    ∧ (∃ i, newline ∉ i ∧ (lit "--embed[type=a]-- tail").take 17 = embedTag i
      ∧ Index ((lit "--embed[type=a]-- tail").take 17) (byteOf '[') = 7
      ∧ LastIndex ((lit "--embed[type=a]-- tail").take 17) (byteOf ']') = 8 + i.length
      ∧ Index ((lit "--embed[type=a]-- tail").take 17) (byteOf '[')
          < LastIndex ((lit "--embed[type=a]-- tail").take 17) (byteOf ']')
      ∧ slice ((lit "--embed[type=a]-- tail").take 17)
          (Index ((lit "--embed[type=a]-- tail").take 17) (byteOf '[') + 1)
          (LastIndex ((lit "--embed[type=a]-- tail").take 17) (byteOf ']')) = some i
      ∧ parseEmbedArgs sampleErrorText ((lit "--embed[type=a]-- tail").take 17)
          = some ((Split i (byteOf ',')).foldl (parseArg sampleErrorText) {})) :=
  ⟨by decide,
    (parseEmbedArgs_slice_in_range sampleErrorText (lit "--embed[type=a]-- tail") 17
      (by decide)).1⟩

/-! ## Properties: the allow-list -/

theorem WlMap_get_delete_ne (m : WlMap) (k r : GoString) (h : k ≠ r) :
    (m.delete k).get r = m.get r := by
  unfold WlMap.delete
  induction m with
  | nil => rfl
  | cons kv rest ih =>
    obtain ⟨k1, v1⟩ := kv
    simp only [List.filter_cons]
    by_cases hk : k1 = k
    · subst hk
      simp only [ne_eq, not_true_eq_false, decide_False, Bool.false_eq_true, if_false]
      rw [ih, WlMap.get, if_neg h]
    · simp only [ne_eq, hk, not_false_eq_true, decide_True, if_true]
      rw [WlMap.get, WlMap.get, ih]

theorem WlMap_get_delete_self (m : WlMap) (k : GoString) : (m.delete k).get k = none := by
  unfold WlMap.delete
  induction m with
  | nil => rfl
  | cons kv rest ih =>
    obtain ⟨k1, v1⟩ := kv
    simp only [List.filter_cons]
    by_cases hk : k1 = k
    · subst hk
      simp only [ne_eq, not_true_eq_false, decide_False, Bool.false_eq_true, if_false]
      exact ih
    · simp only [ne_eq, hk, not_false_eq_true, decide_True, if_true]
      rw [WlMap.get, if_neg hk]
      exact ih

theorem WlMap_get_set (m : WlMap) (k r : GoString) (v : Int) :
    (m.set k v).get r = if k = r then some v else m.get r := by
  unfold WlMap.set
  by_cases h : k = r
  · simp [WlMap.get, h]
  · rw [WlMap.get, if_neg h, if_neg h]
    exact WlMap_get_delete_ne m k r h

/-- The result of `WhitelistAdd`, case by case of the returned error. -/
theorem WhitelistAdd_error (marshalWl : WlMap → Option GoString) (now : Int) (b : Bot)
    (id : ShortID) (w : World) (e : WlError)
    (h : (b.WhitelistAdd marshalWl now id w).1 = some e) :
    (e = .alreadyWhitelisted ∧ b.IsWhitelisted id = true
        ∧ (b.WhitelistAdd marshalWl now id w).2.1 = b
        ∧ (b.WhitelistAdd marshalWl now id w).2.2 = w)
      ∨ ((e = .marshal ∨ e = .write) ∧ b.IsWhitelisted id = false
        ∧ (b.WhitelistAdd marshalWl now id w).2.1.wl = b.wl.set id.String now
        ∧ (b.WhitelistAdd marshalWl now id w).2.1.IsWhitelisted id = true) := by
  have hset : (b.wl.set id.String now).get id.String = some now := by
    rw [WlMap_get_set, if_pos rfl]
  unfold Bot.WhitelistAdd at h ⊢
  unfold Bot.IsWhitelisted
  by_cases hp : (b.wl.get id.String).isSome = true
  · rw [if_pos hp] at h ⊢
    cases h
    exact Or.inl ⟨rfl, hp, rfl, rfl⟩
  · rw [if_neg hp] at h ⊢
    have hf : (b.wl.get id.String).isSome = false := by simpa using hp
    dsimp only at h ⊢
    cases hm : marshalWl (b.wl.set id.String now) with
    | none =>
      rw [hm] at h
      cases h
      exact Or.inr ⟨Or.inl rfl, hf, rfl, by rw [hset]; rfl⟩
    | some raw =>
      rw [hm] at h
      dsimp only at h ⊢
      cases hw : (w.doWrite b.wlFile raw).1 with
      | false =>
        have hw2 : w.doWrite b.wlFile raw = (false, (w.doWrite b.wlFile raw).2) := by
          rw [← hw]
        rw [hw2] at h ⊢
        cases h
        exact Or.inr ⟨Or.inr rfl, hf, rfl, by rw [hset]; rfl⟩
      | true =>
        have hw2 : w.doWrite b.wlFile raw = (true, (w.doWrite b.wlFile raw).2) := by
          rw [← hw]
        rw [hw2] at h
        cases h

/-- The result of `WhitelistRemove`, case by case of the returned error. -/
theorem WhitelistRemove_error (marshalWl : WlMap → Option GoString) (b : Bot)
    (id : ShortID) (w : World) (e : WlError)
    (h : (b.WhitelistRemove marshalWl id w).1 = some e) :
    (e = .notWhitelisted ∧ b.IsWhitelisted id = false
        ∧ (b.WhitelistRemove marshalWl id w).2.1 = b
        ∧ (b.WhitelistRemove marshalWl id w).2.2 = w)
      ∨ ((e = .marshal ∨ e = .write) ∧ b.IsWhitelisted id = true
        ∧ (b.WhitelistRemove marshalWl id w).2.1.wl = b.wl.delete id.String
        ∧ (b.WhitelistRemove marshalWl id w).2.1.IsWhitelisted id = false) := by
  have hdel : (b.wl.delete id.String).get id.String = none := WlMap_get_delete_self _ _
  unfold Bot.WhitelistRemove at h ⊢
  unfold Bot.IsWhitelisted
  by_cases hp : (b.wl.get id.String).isSome = true
  · have hn : (!(b.wl.get id.String).isSome) = false := by rw [hp]; rfl
    rw [hn] at h ⊢
    simp only [Bool.false_eq_true, if_false] at h ⊢
    cases hm : marshalWl (b.wl.delete id.String) with
    | none =>
      rw [hm] at h
      cases h
      exact Or.inr ⟨Or.inl rfl, hp, rfl, by rw [hdel]; rfl⟩
    | some raw =>
      rw [hm] at h
      dsimp only at h ⊢
      cases hw : (w.doWrite b.wlFile raw).1 with
      | false =>
        have hw2 : w.doWrite b.wlFile raw = (false, (w.doWrite b.wlFile raw).2) := by
          rw [← hw]
        rw [hw2] at h ⊢
        cases h
        exact Or.inr ⟨Or.inr rfl, hp, rfl, by rw [hdel]; rfl⟩
      | true =>
        have hw2 : w.doWrite b.wlFile raw = (true, (w.doWrite b.wlFile raw).2) := by
          rw [← hw]
        rw [hw2] at h
        cases h
  · have hf : (b.wl.get id.String).isSome = false := by simpa using hp
    have hn : (!(b.wl.get id.String).isSome) = true := by rw [hf]; rfl
    rw [hn, if_pos rfl] at h
    rw [hn, if_pos rfl]
    cases h
    exact Or.inl ⟨rfl, hf, rfl, rfl⟩

set_option maxRecDepth 100000 in
/-- C22, counterexample: the write of the allow-list file fails.  `WhitelistAdd`
on the empty list returns the error of the write, and the identity is on the
list afterwards; `WhitelistRemove` on a list with the identity returns the
error of the write, and the identity is gone afterwards. -/
theorem whitelist_changed_on_write_error :
    ((emptyBot.WhitelistAdd sampleMarshalWl 200 ShortID.zero failingWriteWorld).1
        = some .write
      ∧ emptyBot.IsWhitelisted ShortID.zero = false
      ∧ (emptyBot.WhitelistAdd sampleMarshalWl 200 ShortID.zero
          failingWriteWorld).2.1.IsWhitelisted ShortID.zero = true
      ∧ (emptyBot.WhitelistAdd sampleMarshalWl 200 ShortID.zero
          failingWriteWorld).2.1.wl = [(ShortID.zero.String, 200)]
      ∧ ¬ atomicOnError emptyBot
          (emptyBot.WhitelistAdd sampleMarshalWl 200 ShortID.zero failingWriteWorld).1
          (emptyBot.WhitelistAdd sampleMarshalWl 200 ShortID.zero failingWriteWorld).2.1)
    ∧ ((zeroBot.WhitelistRemove sampleMarshalWl ShortID.zero failingWriteWorld).1
        = some .write
      ∧ zeroBot.IsWhitelisted ShortID.zero = true
      ∧ (zeroBot.WhitelistRemove sampleMarshalWl ShortID.zero
          failingWriteWorld).2.1.IsWhitelisted ShortID.zero = false
      ∧ (zeroBot.WhitelistRemove sampleMarshalWl ShortID.zero
          failingWriteWorld).2.1.WhitelistEntries = []
      ∧ ¬ atomicOnError zeroBot
          (zeroBot.WhitelistRemove sampleMarshalWl ShortID.zero failingWriteWorld).1
          (zeroBot.WhitelistRemove sampleMarshalWl ShortID.zero failingWriteWorld).2.1) := by
  decide

/-- C22, amended: when `WhitelistAdd` returns the error that the identity is
already on the list, or `WhitelistRemove` the error that it is not, the bot and
the world are as before the call.  Every other error (of `json.Marshal` or of
the write of the file) is returned after the map was changed: after
`WhitelistAdd` the identity, absent before, is on the list with the new
timestamp; after `WhitelistRemove` the identity, present before, is off the
list. -/
theorem whitelist_error_state (marshalWl : WlMap → Option GoString) (now : Int) (b : Bot)
    (id : ShortID) (w : World) :
    (∀ e, (b.WhitelistAdd marshalWl now id w).1 = some e →
      (e = .alreadyWhitelisted ∧ b.IsWhitelisted id = true
          ∧ (b.WhitelistAdd marshalWl now id w).2.1 = b
          ∧ (b.WhitelistAdd marshalWl now id w).2.2 = w)
        ∨ ((e = .marshal ∨ e = .write) ∧ b.IsWhitelisted id = false
          ∧ (b.WhitelistAdd marshalWl now id w).2.1.wl = b.wl.set id.String now
          ∧ (b.WhitelistAdd marshalWl now id w).2.1.IsWhitelisted id = true))
    ∧ (∀ e, (b.WhitelistRemove marshalWl id w).1 = some e →
      (e = .notWhitelisted ∧ b.IsWhitelisted id = false
          ∧ (b.WhitelistRemove marshalWl id w).2.1 = b
          ∧ (b.WhitelistRemove marshalWl id w).2.2 = w)
        ∨ ((e = .marshal ∨ e = .write) ∧ b.IsWhitelisted id = true
          ∧ (b.WhitelistRemove marshalWl id w).2.1.wl = b.wl.delete id.String
          ∧ (b.WhitelistRemove marshalWl id w).2.1.IsWhitelisted id = false)) :=
  ⟨fun e h => WhitelistAdd_error marshalWl now b id w e h,
    fun e h => WhitelistRemove_error marshalWl b id w e h⟩

set_option maxRecDepth 100000 in
/-- Adding an identity that is on the list already leaves the bot as it was;
removing it while the write fails takes it off the list. -/
theorem whitelist_error_state_witness :
    ((zeroBot.WhitelistAdd sampleMarshalWl 200 ShortID.zero failingWriteWorld).1
        = some .alreadyWhitelisted
      ∧ ((WlError.alreadyWhitelisted = .alreadyWhitelisted
          ∧ zeroBot.IsWhitelisted ShortID.zero = true
          ∧ (zeroBot.WhitelistAdd sampleMarshalWl 200 ShortID.zero failingWriteWorld).2.1
              = zeroBot
          ∧ (zeroBot.WhitelistAdd sampleMarshalWl 200 ShortID.zero failingWriteWorld).2.2
              = failingWriteWorld)
        ∨ ((WlError.alreadyWhitelisted = .marshal ∨ WlError.alreadyWhitelisted = .write)
          ∧ zeroBot.IsWhitelisted ShortID.zero = false
          ∧ (zeroBot.WhitelistAdd sampleMarshalWl 200 ShortID.zero failingWriteWorld).2.1.wl
              = zeroBot.wl.set ShortID.zero.String 200
          ∧ (zeroBot.WhitelistAdd sampleMarshalWl 200 ShortID.zero
              failingWriteWorld).2.1.IsWhitelisted ShortID.zero = true)))
    ∧ ((zeroBot.WhitelistRemove sampleMarshalWl ShortID.zero failingWriteWorld).1
        = some .write
      ∧ ((WlError.write = .notWhitelisted ∧ zeroBot.IsWhitelisted ShortID.zero = false
          ∧ (zeroBot.WhitelistRemove sampleMarshalWl ShortID.zero failingWriteWorld).2.1
              = zeroBot
          ∧ (zeroBot.WhitelistRemove sampleMarshalWl ShortID.zero failingWriteWorld).2.2
              = failingWriteWorld)
        ∨ ((WlError.write = .marshal ∨ WlError.write = .write)
          ∧ zeroBot.IsWhitelisted ShortID.zero = true
          ∧ (zeroBot.WhitelistRemove sampleMarshalWl ShortID.zero failingWriteWorld).2.1.wl
              = zeroBot.wl.delete ShortID.zero.String
          ∧ (zeroBot.WhitelistRemove sampleMarshalWl ShortID.zero
              failingWriteWorld).2.1.IsWhitelisted ShortID.zero = false))) :=
  ⟨⟨by decide,
      (whitelist_error_state sampleMarshalWl 200 zeroBot ShortID.zero failingWriteWorld).1
        .alreadyWhitelisted (by decide)⟩,
    ⟨by decide,
      (whitelist_error_state sampleMarshalWl 200 zeroBot ShortID.zero failingWriteWorld).2
        .write (by decide)⟩⟩

/-! ## Properties: the cursor write and the sends of a batch -/

theorem sendsOf_append (a b : List Effect) : sendsOf (a ++ b) = sendsOf a ++ sendsOf b := by
  induction a with
  | nil => rfl
  | cons e rest ih =>
    cases e <;> simp [sendsOf, ih]

theorem SendsStep_refl (w : World) : SendsStep w w [] := ⟨[], by simp, rfl⟩

theorem SendsStep_trans {w1 w2 w3 : World} {a b : List mtrxMsg} (h12 : SendsStep w1 w2 a)
    (h23 : SendsStep w2 w3 b) : SendsStep w1 w3 (a ++ b) := by
  obtain ⟨e1, h1, n1⟩ := h12
  obtain ⟨e2, h2, n2⟩ := h23
  exact ⟨e1 ++ e2, by rw [h2, h1, List.append_assoc], by rw [sendsOf_append, n1, n2]⟩

theorem SendsStep_trans_nil {w1 w2 w3 : World} {b : List mtrxMsg} (h12 : SendsStep w1 w2 [])
    (h23 : SendsStep w2 w3 b) : SendsStep w1 w3 b := SendsStep_trans h12 h23

theorem SendsStep_send (w : World) (msg : mtrxMsg) : SendsStep w (w.send msg) [msg] :=
  ⟨[.chanSend msg], rfl, rfl⟩

theorem SendsStep_of_doHttp {w w1 : World} {req : Request} {r : HttpResult}
    (h : w.doHttp req = (r, w1)) : SendsStep w w1 [] := by
  have : SendsStep w (w.doHttp req).2 [] := ⟨[.http req], rfl, rfl⟩
  rw [h] at this
  exact this

theorem getDisplayName_sends (env : Env) (m : MatrixClient) (nick : GoString) (w : World) :
    SendsStep w (MatrixClient.getDisplayName env m nick w).2.2 []
      ∧ (MatrixClient.getDisplayName env m nick w).2.1.cfg = m.cfg := by
  unfold MatrixClient.getDisplayName
  split
  · exact ⟨SendsStep_refl w, rfl⟩
  · dsimp only
    split
    · exact ⟨SendsStep_refl w, rfl⟩
    · split
      · rename_i h; exact ⟨SendsStep_of_doHttp h, rfl⟩
      · rename_i h; exact ⟨SendsStep_of_doHttp h, rfl⟩
      · rename_i h
        split
        · exact ⟨SendsStep_of_doHttp h, rfl⟩
        · split
          · exact ⟨SendsStep_of_doHttp h, rfl⟩
          · exact ⟨SendsStep_of_doHttp h, rfl⟩

theorem encodeEmbeds_sends (env : Env) (event : MsgClientEventWithoutRoomID) (w : World) :
    SendsStep w (MatrixClient.encodeEmbeds env event w).2 [] := by
  unfold MatrixClient.encodeEmbeds
  split
  · dsimp only
    split
    · exact SendsStep_refl w
    · split
      · exact SendsStep_refl w
      · split
        · rename_i h; exact SendsStep_of_doHttp h
        · rename_i h; exact SendsStep_of_doHttp h
        · rename_i h
          split
          · exact SendsStep_of_doHttp h
          · split
            · exact SendsStep_of_doHttp h
            · exact SendsStep_of_doHttp h
  · exact SendsStep_refl w

theorem SendReadReceipt_sends (env : Env) (room eventID : GoString) (w : World) :
    SendsStep w (MatrixClient.SendReadReceipt env room eventID w) [] := by
  unfold MatrixClient.SendReadReceipt
  dsimp only
  split
  · exact SendsStep_refl w
  · exact ⟨[.http _], rfl, rfl⟩

theorem rewriteReply_sends (env : Env) (m : MatrixClient) (body : GoString) (w : World)
    (b : GoString) (m1 : MatrixClient) (w1 : World)
    (h : rewriteReply env m body w = some (b, m1, w1)) :
    SendsStep w w1 [] ∧ m1.cfg = m.cfg ∧ (replyRegexp body = none → b = body) := by
  by_cases hr : replyRegexp body = none
  · rw [rewriteReply_no_match env m body w hr] at h
    cases h
    exact ⟨SendsStep_refl w, rfl, fun _ => rfl⟩
  · unfold rewriteReply at h
    dsimp only at h
    split at h
    · split at h
      · cases h
      · rename_i rawArgs hs
        have hg := getDisplayName_sends env m rawArgs w
        split at h
        · cases h; exact ⟨hg.1, hg.2, fun e => absurd e hr⟩
        · cases h; exact ⟨hg.1, hg.2, fun e => absurd e hr⟩
    · cases h; exact ⟨SendsStep_refl w, rfl, fun _ => rfl⟩

theorem sendsMatch_nil : sendsMatch [] [] := by
  rw [sendsMatch]

theorem sendsMatch_append (a b : List (GoString × MsgClientEventWithoutRoomID))
    (x y : List mtrxMsg) (h1 : sendsMatch a x) (h2 : sendsMatch b y) :
    sendsMatch (a ++ b) (x ++ y) := by
  induction a generalizing x with
  | nil =>
    rw [sendsMatch] at h1
    rw [h1]
    exact h2
  | cons p rest ih =>
    obtain ⟨channel, e⟩ := p
    rw [sendsMatch] at h1
    rw [List.cons_append, sendsMatch]
    rcases h1 with ⟨msg, tail, hx, hn, hr, hb, hm⟩ | ⟨himg, hm⟩
    · exact Or.inl ⟨msg, tail ++ y, by rw [hx]; rfl, hn, hr, hb, ih tail hm⟩
    · exact Or.inr ⟨himg, ih x hm⟩

theorem roomMessages_cons (user channel : GoString) (e : MsgClientEventWithoutRoomID)
    (rest : List MsgClientEventWithoutRoomID) :
    roomMessages user channel (e :: rest)
      = roomMessages user channel [e] ++ roomMessages user channel rest := by
  simp only [roomMessages]
  split <;> rfl

/-- One event of a timeline: a message is sent, or, being an image, left out;
an event that is not a message sends nothing. -/
theorem processEvent_sends (env : Env) (channel : GoString)
    (event : MsgClientEventWithoutRoomID) (m : MatrixClient) (w : World) (m1 : MatrixClient)
    (w1 : World) (h : processEvent env channel event m w = some (m1, w1)) :
    m1.cfg = m.cfg
      ∧ ∃ msgs, SendsStep w w1 msgs
        ∧ sendsMatch (roomMessages m.cfg.User channel [event]) msgs := by
  unfold processEvent at h
  split at h
  · rename_i hmsg
    have hrm : roomMessages m.cfg.User channel [event] = [(channel, event)] := by
      simp only [roomMessages]
      rw [if_pos hmsg]
    rw [hrm]
    dsimp only at h
    have hg := getDisplayName_sends env m event.Sender w
    split at h
    · cases h
    · rename_i b m2 w2 hr
      have he := rewriteReply_sends env _ _ _ b m2 w2 hr
      have hx := encodeEmbeds_sends env
        { event with Content := { event.Content with Body := b } } w2
      split at h
      · rename_i hh
        rw [hh] at hx
        cases h
        refine ⟨he.2.1.trans hg.2, [],
          SendsStep_trans_nil hg.1 (SendsStep_trans_nil he.1 hx), ?_⟩
        rw [sendsMatch]
        refine Or.inr ⟨?_, sendsMatch_nil⟩
        by_contra hni
        have ho := encodeEmbeds_other env
          { event with Content := { event.Content with Body := b } } w2 hni
        rw [ho] at hh
        simp at hh
      · rename_i outMsg w3 hh
        rw [hh] at hx
        cases h
        refine ⟨he.2.1.trans hg.2, [_],
          SendsStep_trans_nil hg.1
            (SendsStep_trans_nil he.1 (SendsStep_trans_nil hx (SendsStep_send _ _))), ?_⟩
        rw [sendsMatch]
        refine Or.inl ⟨_, [], rfl, rfl, rfl, ?_, sendsMatch_nil⟩
        intro hni hnr
        have ho := encodeEmbeds_other env
          { event with Content := { event.Content with Body := b } } w2 hni
        rw [ho] at hh
        simp only [Prod.mk.injEq, and_true] at hh
        rw [← hh.1]
        exact he.2.2 hnr
  · rename_i hmsg
    have hrm : roomMessages m.cfg.User channel [event] = [] := by
      simp only [roomMessages]
      rw [if_neg hmsg]
    rw [hrm]
    split at h
    · cases h; exact ⟨rfl, [], SendsStep_refl w, sendsMatch_nil⟩
    · cases h; exact ⟨rfl, [], SendsStep_refl w, sendsMatch_nil⟩

theorem processEvents_sends (env : Env) (channel : GoString)
    (events : List MsgClientEventWithoutRoomID) (bestTS : Int) (bestEvent : GoString)
    (m : MatrixClient) (w : World) (be : GoString) (m1 : MatrixClient) (w1 : World)
    (h : processEvents env channel events bestTS bestEvent m w = some (be, m1, w1)) :
    m1.cfg = m.cfg
      ∧ ∃ msgs, SendsStep w w1 msgs
        ∧ sendsMatch (roomMessages m.cfg.User channel events) msgs := by
  induction events generalizing bestTS bestEvent m w with
  | nil =>
    rw [processEvents] at h
    cases h
    exact ⟨rfl, [], SendsStep_refl _, sendsMatch_nil⟩
  | cons event rest ih =>
    rw [processEvents] at h
    cases hpe : processEvent env channel event m w with
    | none => rw [hpe] at h; cases h
    | some r =>
      obtain ⟨m2, w2⟩ := r
      rw [hpe] at h
      dsimp only at h
      obtain ⟨c1, msgs1, s1, q1⟩ := processEvent_sends env channel event m w m2 w2 hpe
      obtain ⟨c2, msgs2, s2, q2⟩ := ih _ _ m2 w2 h
      rw [c1] at q2
      refine ⟨c2.trans c1, msgs1 ++ msgs2, SendsStep_trans s1 s2, ?_⟩
      rw [roomMessages_cons]
      exact sendsMatch_append _ _ _ _ q1 q2

theorem processRooms_sends (env : Env) (rooms : List (GoString × MsgJoinedRoom))
    (m : MatrixClient) (w : World) (m1 : MatrixClient) (w1 : World)
    (h : processRooms env rooms m w = some (m1, w1)) :
    m1.cfg = m.cfg
      ∧ ∃ msgs, SendsStep w w1 msgs ∧ sendsMatch (joinedMessages m.cfg.User rooms) msgs := by
  induction rooms generalizing m w with
  | nil =>
    rw [processRooms] at h
    cases h
    exact ⟨rfl, [], SendsStep_refl _, sendsMatch_nil⟩
  | cons room rest ih =>
    obtain ⟨channel, v⟩ := room
    rw [processRooms] at h
    cases hpe : processEvents env channel v.Timeline.Events 0 [] m w with
    | none => rw [hpe] at h; cases h
    | some r =>
      obtain ⟨be, m2, w2⟩ := r
      rw [hpe] at h
      dsimp only at h
      obtain ⟨c1, msgs1, s1, q1⟩ :=
        processEvents_sends env channel v.Timeline.Events 0 [] m w be m2 w2 hpe
      have hr : SendsStep w2
          (if be ≠ [] then MatrixClient.SendReadReceipt env channel be w2 else w2) [] := by
        split
        · exact SendReadReceipt_sends env channel be w2
        · exact SendsStep_refl w2
      obtain ⟨c2, msgs2, s2, q2⟩ := ih m2 _ h
      rw [c1] at q2
      refine ⟨c2.trans c1, msgs1 ++ msgs2, SendsStep_trans s1 (SendsStep_trans_nil hr s2), ?_⟩
      rw [joinedMessages]
      exact sendsMatch_append _ _ _ _ q1 q2

/-- The loop over the rooms of a reply, when it reaches its end: the sends are
those of the messages of the batch. -/
theorem processReply_sends (env : Env) (rooms : List (GoString × GoString)) (m : MatrixClient)
    (w : World) (m1 : MatrixClient) (w1 : World)
    (h : processReply env rooms m w = (.next, m1, w1)) :
    m1.cfg = m.cfg
      ∧ ∃ msgs, SendsStep w w1 msgs ∧ sendsMatch (batchMessages env m.cfg.User rooms) msgs := by
  induction rooms generalizing m w with
  | nil =>
    rw [processReply] at h
    cases h
    exact ⟨rfl, [], SendsStep_refl _, sendsMatch_nil⟩
  | cons kv rest ih =>
    obtain ⟨key, v⟩ := kv
    rw [processReply] at h
    rw [batchMessages]
    by_cases hk : key = lit "join"
    · rw [if_pos hk] at h ⊢
      cases hj : env.unmarshalJoined v with
      | none => rw [hj] at h; cases h
      | some joined =>
        rw [hj] at h
        dsimp only at h ⊢
        cases hpr : processRooms env joined m w with
        | none => rw [hpr] at h; cases h
        | some r =>
          obtain ⟨m2, w2⟩ := r
          rw [hpr] at h
          dsimp only at h
          obtain ⟨c1, msgs1, s1, q1⟩ := processRooms_sends env joined m w m2 w2 hpr
          obtain ⟨c2, msgs2, s2, q2⟩ := ih m2 w2 h
          rw [c1] at q2
          exact ⟨c2.trans c1, msgs1 ++ msgs2, SendsStep_trans s1 s2,
            sendsMatch_append _ _ _ _ q1 q2⟩
    · rw [if_neg hk] at h ⊢
      obtain ⟨c2, msgs2, s2, q2⟩ := ih m w h
      exact ⟨c2, msgs2, s2, by rw [List.nil_append]; exact q2⟩

/-- What it means that the poll of a turn succeeded and decoded. -/
theorem pollDecodes_some (env : Env) (st : SyncState) (reply : MsgSyncReply)
    (h : pollDecodes env st = some reply) :
    st.w.ctxDone.headD false = false ∧ env.validURL (syncURL st.since) = true
      ∧ ∃ b, st.w.http.headD .err = .resp 200 (some b) ∧ env.unmarshalSync b = some reply
        ∧ (reply.Rooms.all fun kv =>
            kv.1 ≠ lit "join" ∨ (env.unmarshalJoined kv.2).isSome) = true := by
  unfold pollDecodes at h
  cases hc : st.w.ctxDone.headD false with
  | true => rw [hc] at h; simp at h
  | false =>
    rw [hc] at h
    simp only [Bool.false_eq_true, if_false] at h
    cases hv : env.validURL (syncURL st.since) with
    | false => rw [hv] at h; simp at h
    | true =>
      rw [hv] at h
      simp only [Bool.true_eq_false, if_false] at h
      cases hh : st.w.http.headD .err with
      | err => rw [hh] at h; simp at h
      | resp status body =>
        rw [hh] at h
        cases body with
        | none => simp at h
        | some b =>
          simp only [] at h
          by_cases hs : status = 200
          · subst hs
            simp only [ne_eq, not_true_eq_false, if_false] at h
            cases hu : env.unmarshalSync b with
            | none => rw [hu] at h; simp at h
            | some reply1 =>
              rw [hu] at h
              simp only [] at h
              split at h
              · rename_i hall
                cases h
                exact ⟨rfl, rfl, b, rfl, hu, hall⟩
              · cases h
          · rw [if_pos hs] at h
            cases h

/-- A turn whose poll succeeded and decoded: the trace grows by the request, the
effects of the rooms and, last, the write of the cursor; the sends among them
are those of the messages of the batch. -/
theorem syncIteration_sends (env : Env) (st : SyncState) (reply : MsgSyncReply)
    (h : pollDecodes env st = some reply) :
    ∃ pre, (syncIteration env st).2.w.trace
        = st.w.trace
          ++ (pre ++ [.writeFile st.m.sincePath (env.marshalString reply.NextBatch)])
      ∧ noWrite pre
      ∧ sendsMatch (batchMessages env st.m.cfg.User reply.Rooms) (sendsOf pre) := by
  obtain ⟨hc, hv, b, hh, hu, hall⟩ := pollDecodes_some env st reply h
  have key := processReply_spec env reply.Rooms st.m
    { st.w with
      http := st.w.http.tail
      ctxDone := st.w.ctxDone.tail
      trace := st.w.trace ++ [.http ⟨lit "GET", syncURL st.since, .empty⟩] }
  obtain ⟨⟨ext1, ht1, hn1⟩, hpath, hres⟩ := key
  rw [if_pos hall] at hres
  unfold syncIteration
  simp only [World.ctxErr, World.doHttp, hc, hv, hh, hu, Bool.not_true, Bool.false_eq_true,
    if_false, ne_eq, not_true_eq_false]
  rcases hpr : processReply env reply.Rooms st.m
    { st.w with
      http := st.w.http.tail
      ctxDone := st.w.ctxDone.tail
      trace := st.w.trace ++ [.http ⟨lit "GET", syncURL st.since, .empty⟩] }
    with ⟨r, m1, w2⟩
  rw [hpr] at ht1 hpath hres
  simp only at ht1 hpath hres
  subst hres
  obtain ⟨_, msgs, ⟨ext2, ht2, hs2⟩, hm⟩ := processReply_sends env reply.Rooms st.m _ m1 w2 hpr
  have hext : ext1 = ext2 := List.append_cancel_left (ht1.symm.trans ht2)
  subst hext
  have hreq : ∀ path content,
      (Effect.http ⟨lit "GET", syncURL st.since, .empty⟩) ≠ .writeFile path content := by
    simp
  refine ⟨.http ⟨lit "GET", syncURL st.since, .empty⟩ :: ext1, ?_,
    noWrite_cons _ _ hreq hn1, ?_⟩
  · simp only [World.doWrite, hpath]
    cases hwo : w2.writeOk.headD true <;> simp [ht1]
  · have e : sendsOf (Effect.http ⟨lit "GET", syncURL st.since, .empty⟩ :: ext1)
        = sendsOf ext1 := rfl
    rw [e, hs2]
    exact hm

theorem syncIteration_write_after_sends (env : Env) (st : SyncState) :
    ∃ ext, (syncIteration env st).2.w.trace = st.w.trace ++ ext
      ∧ match pollDecodes env st with
        | some reply =>
          ∃ pre, ext = pre ++ [.writeFile st.m.sincePath (env.marshalString reply.NextBatch)]
            ∧ noWrite pre ∧ sendsOf ext = sendsOf pre
            ∧ sendsMatch (batchMessages env st.m.cfg.User reply.Rooms) (sendsOf pre)
        | none => noWrite ext := by
  cases hp : pollDecodes env st with
  | none =>
    obtain ⟨ext, h1, h2⟩ := (syncIteration_spec env st).1
    rw [hp] at h2
    exact ⟨ext, h1, h2⟩
  | some reply =>
    obtain ⟨pre, h1, h2, h3⟩ := syncIteration_sends env st reply hp
    refine ⟨_, h1, pre, rfl, h2, ?_, h3⟩
    rw [sendsOf_append]
    simp [sendsOf]

set_option maxRecDepth 100000 in
/-- C8, counterexample: the batch holds one message, an image whose download
fails.  The poll has status 200 and decodes; the turn looks up the name of the
sender, tries the download, sends the read receipt and writes the cursor `s2`
of the reply, and it has sent nothing on the output channel. -/
theorem sync_cursor_written_past_unsent_message :
    pollDecodes (sampleEnv (some sampleReply) (some imageJoined)) imageSyncState
        = some sampleReply
    ∧ batchMessages (sampleEnv (some sampleReply) (some imageJoined)) imageSyncState.m.cfg.User
        sampleReply.Rooms = [(lit "B", sampleImageEvent)]
    ∧ (syncIteration (sampleEnv (some sampleReply) (some imageJoined)) imageSyncState).2.w.trace
      = [.http ⟨lit "GET",
            lit "https://matrix.decred.org:8448/_matrix/client/v3/sync?timeout=30000&since=s1",
            .empty⟩,
          .http ⟨lit "GET",
            lit "https://matrix.decred.org:8448/_matrix/client/v3/profile/@carol:decred.org/displayname",
            .empty⟩,
          .http ⟨lit "GET",
            lit "https://matrix.decred.org:8448/_matrix/media/r0/download/decred.org/img1",
            .empty⟩,
          .http ⟨lit "POST",
            lit "https://matrix.decred.org:8448/_matrix/client/r0/rooms/B/read_markers",
            .readReceipt (lit "$e2")⟩,
          .writeFile (lit "since.json") (lit "s2")]
    ∧ sendsOf (syncIteration (sampleEnv (some sampleReply) (some imageJoined))
        imageSyncState).2.w.trace = []
    ∧ ¬ allSent
        (batchMessages (sampleEnv (some sampleReply) (some imageJoined))
          imageSyncState.m.cfg.User sampleReply.Rooms)
        (sendsOf (syncIteration (sampleEnv (some sampleReply) (some imageJoined))
          imageSyncState).2.w.trace) := by
  have hb : batchMessages (sampleEnv (some sampleReply) (some imageJoined))
      imageSyncState.m.cfg.User sampleReply.Rooms = [(lit "B", sampleImageEvent)] := by
    decide
  have hs : sendsOf (syncIteration (sampleEnv (some sampleReply) (some imageJoined))
      imageSyncState).2.w.trace = [] := by
    decide
  refine ⟨by decide, hb, by decide, hs, ?_⟩
  rw [hb, hs]
  intro h
  obtain ⟨msg, hmem, _⟩ := h (lit "B", sampleImageEvent) (List.mem_singleton.2 rfl)
  cases hmem

/-- C8, amended: every turn of the loop of `Sync` only adds to the trace.  In a
turn whose poll is answered with status 200 and decodes, what it adds ends
with the write of the JSON encoding of the `next_batch` of the reply to the
cursor file; nothing before that write is a write, all sends of the turn come
before it, and these sends are those of the messages of the batch, in order:
one for every message, for its room, with its body when it is neither an image
nor a quoted reply, except that an image may be left out.  In every other turn
nothing it adds is a write. -/
theorem sync_cursor_written_after_sends (env : Env) (st : SyncState) :
    ∃ ext, (syncIteration env st).2.w.trace = st.w.trace ++ ext
      ∧ match pollDecodes env st with
        | some reply =>
          ∃ pre, ext = pre ++ [.writeFile st.m.sincePath (env.marshalString reply.NextBatch)]
            ∧ noWrite pre ∧ sendsOf ext = sendsOf pre
            ∧ sendsMatch (batchMessages env st.m.cfg.User reply.Rooms) (sendsOf pre)
        | none => noWrite ext :=
  syncIteration_write_after_sends env st

set_option maxRecDepth 100000 in
/-- The sample turn, with one text message in the batch: the message is sent
before the cursor is written. -/
theorem syncIteration_sample_sends :
    (batchMessages (sampleEnv (some sampleReply) (some sampleJoined))
        sampleSyncState.m.cfg.User sampleReply.Rooms).map (fun p => (p.1, p.2.EventID))
      = [(lit "B", lit "$e1")]
    ∧ sendsOf (syncIteration (sampleEnv (some sampleReply) (some sampleJoined))
        sampleSyncState).2.w.trace
      = [⟨networkMatrix, lit "Carol", lit "hi", lit "B"⟩] := by
  decide

end BisonRelayBot
